import Mathlib

/-!
# Cardelier: data normalisation and output orchestration

A shallow embedding of `src/lib/parseData.js`, `src/lib/generateHTML.js` and
`src/lib/generateOutput.js`.

Conventions of the embedding.

* A JavaScript object is an association list of own properties in insertion order
  (`Dict`).  Reading a missing key gives `none` (JavaScript `undefined`).  Properties
  inherited from `Object.prototype` are not part of the model.
* A JavaScript number is a binary64 value, written with a decimal exponent (`JsNum`):
  conversions from text and divisions round to the nearest binary64 value, ties to even.
* The CSV tokenizer (Papa.parse), the template evaluator (ejs), the file system and the
  headless browser (puppeteer) are external: what they return is an input of the model.
-/

set_option autoImplicit false

namespace Cardelier

/-! ## JavaScript values -/

/-- A JavaScript number: `NaN`, an infinity, or the finite value
`(-1)^neg * mant * 10^exp10`. -/
inductive JsNum where
  | nan
  | inf (neg : Bool)
  | fin (neg : Bool) (mant : Nat) (exp10 : Int)
  deriving DecidableEq

/-- The JavaScript values that occur in card records: `null`, booleans, numbers,
strings and arrays of strings. -/
inductive JsVal where
  | null
  | bool (b : Bool)
  | num (n : JsNum)
  | str (s : String)
  | arr (xs : List String)
  deriving DecidableEq

/-- Own properties of a JavaScript object, in insertion order. -/
abbrev Dict (α : Type) := List (String × α)

/-- Property read `o[k]`; `none` is `undefined`. -/
def Dict.get {α : Type} (o : Dict α) (k : String) : Option α :=
  match o with
  | [] => none
  | (k', v) :: rest => if k' = k then some v else Dict.get rest k

/-- Property removal `delete o[k]`. -/
def Dict.erase {α : Type} (o : Dict α) (k : String) : Dict α :=
  o.filter (fun p => decide (p.1 ≠ k))

/-- Property write `o[k] = v`: an existing key keeps its position, a new key goes last. -/
def Dict.set {α : Type} (o : Dict α) (k : String) (v : α) : Dict α :=
  match o with
  | [] => [(k, v)]
  | (k', v') :: rest => if k' = k then (k, v) :: rest else (k', v') :: Dict.set rest k v

/-- The keys of an object, `Object.keys(o)`. -/
def Dict.keys {α : Type} (o : Dict α) : List String := o.map Prod.fst

/-- A card record after normalisation. -/
abbrev Obj := Dict JsVal

/-! ## Rounding to binary64 -/

/-- The integer nearest to `num / den`, a tie going to the even one. -/
def roundHalfEven (num den : Nat) : Nat :=
  let q := num / den
  let r := num % den
  if 2 * r < den then q
  else if den < 2 * r then q + 1
  else if q % 2 = 0 then q
  else q + 1

/-- Halving `n` until it is below 2, at most `fuel` times: the number of halvings. -/
def log2Fuel : Nat → Nat → Nat
  | 0, _ => 0
  | fuel + 1, n => if n < 2 then 0 else log2Fuel fuel (n / 2) + 1

/-- The binary logarithm of a positive natural number, rounded down. -/
def ilog2 (n : Nat) : Nat := log2Fuel n n

/-- The exponent `e` with `2^e ≤ a / b < 2^(e+1)`, for positive `a` and `b`. -/
def floorLog2 (a b : Nat) : Int :=
  let e0 : Int := Int.ofNat (ilog2 a) - Int.ofNat (ilog2 b)
  if 0 ≤ e0 then
    if b * 2 ^ e0.toNat ≤ a then e0 else e0 - 1
  else
    if b ≤ a * 2 ^ (-e0).toNat then e0 else e0 - 1

/-- The positive ratio `a / b` rounded to the nearest binary64 value, ties to even:
`some (m, s)` is the value `m / 2^s`, where the spacing `2^(-s)` is that of the binade of
`a / b` (53 significant bits) and never finer than `2^(-1074)`; `none` is overflow, a
rounded value of `2^1024` or more. -/
def roundBinary64 (a b : Nat) : Option (Nat × Int) :=
  let e := floorLog2 a b
  let s : Int := min (52 - e) 1074
  let m :=
    if 0 ≤ s then roundHalfEven (a * 2 ^ s.toNat) b
    else roundHalfEven a (b * 2 ^ (-s).toNat)
  if s < 0 ∧ 2 ^ 1024 ≤ m * 2 ^ (-s).toNat then none else some (m, s)

/-- The number `(-1)^neg * m / 2^s` written with a decimal exponent: an integer value as
`fin neg n 0`, any other as `fin neg n (-k)` with the least `k`. -/
def dyadicToNum (neg : Bool) (m : Nat) (s : Int) : JsNum :=
  if 0 ≤ s then
    let g := Nat.gcd m (2 ^ s.toNat)
    let k := ilog2 (2 ^ s.toNat / g)
    JsNum.fin neg (m / g * 5 ^ k) (- Int.ofNat k)
  else JsNum.fin neg (m * 2 ^ (-s).toNat) 0

/-- The ratio `(-1)^neg * a / b` (`b` positive) as a JavaScript number: zero keeps its
sign, anything else is rounded to binary64, overflow giving an infinity. -/
def roundRatio (neg : Bool) (a b : Nat) : JsNum :=
  if a = 0 then JsNum.fin neg 0 0
  else
    match roundBinary64 a b with
    | some (m, s) => dyadicToNum neg m s
    | none => JsNum.inf neg

/-- The JavaScript number for an exact decimal value: the nearest binary64 value. -/
def roundNum (x : JsNum) : JsNum :=
  match x with
  | JsNum.nan => JsNum.nan
  | JsNum.inf neg => JsNum.inf neg
  | JsNum.fin neg m e =>
    if 0 ≤ e then roundRatio neg (m * 10 ^ e.toNat) 1
    else roundRatio neg m (10 ^ (-e).toNat)

/-- The quotient `x / y` of two JavaScript numbers (IEEE 754 division): the exact quotient
of two finite non-zero values is rounded to binary64. -/
def divNum (x y : JsNum) : JsNum :=
  match x, y with
  | JsNum.nan, _ => JsNum.nan
  | _, JsNum.nan => JsNum.nan
  | JsNum.inf _, JsNum.inf _ => JsNum.nan
  | JsNum.inf a, JsNum.fin b _ _ => JsNum.inf (a != b)
  | JsNum.fin a _ _, JsNum.inf b => JsNum.fin (a != b) 0 0
  | JsNum.fin a m1 e1, JsNum.fin b m2 e2 =>
    if m2 = 0 then
      if m1 = 0 then JsNum.nan else JsNum.inf (a != b)
    else
      roundRatio (a != b) (m1 * 10 ^ (e1 - min e1 e2).toNat) (m2 * 10 ^ (e2 - min e1 e2).toNat)

/-! ## Binary64 values and correct rounding, as IEEE 754 states them -/

/-- The sign factor of a number. -/
def signRat (neg : Bool) : ℚ := if neg then -1 else 1

/-- The rational value of a finite number. -/
def JsNum.toRat (x : JsNum) : Option ℚ :=
  match x with
  | JsNum.fin neg m e => some (signRat neg * (m : ℚ) * (10 : ℚ) ^ e)
  | _ => none

/-- The finite binary64 values: `±m * 2^e` with a significand `m < 2^53` and an exponent
`-1074 ≤ e ≤ 971`. -/
def IsBinary64 (q : ℚ) : Prop :=
  ∃ (m : Nat) (e : Int), m < 2 ^ 53 ∧ -1074 ≤ e ∧ e ≤ 971 ∧ |q| = (m : ℚ) * (2 : ℚ) ^ e

/-- The value `v` is a binary64 value nearest to `q`, and when another binary64 value `y` is
as near, `v` is the one with the even significand: an even multiple of the spacing
`y - v`. -/
def IsNearestBinary64 (q v : ℚ) : Prop :=
  IsBinary64 v ∧ (∀ y, IsBinary64 y → |q - v| ≤ |q - y|) ∧
  (∀ y, IsBinary64 y → y ≠ v → |q - y| = |q - v| → ∃ k : ℤ, v = k * (2 * (y - v)))

/-- The overflow threshold of binary64, half way between the largest finite value
`2^1024 - 2^971` and `2^1024`. -/
def overflowThreshold : ℚ := (2 : ℚ) ^ (1024 : ℤ) - (2 : ℚ) ^ (970 : ℤ)

/-- IEEE 754 `roundTiesToEven` of the rational `q` to binary64, as a relation between `q`
and a JavaScript number: below the overflow threshold the result is the nearest binary64
value with the sign of `q`, from the threshold on it is the infinity of that sign. -/
def IsRoundedBinary64 (q : ℚ) (x : JsNum) : Prop :=
  match x with
  | JsNum.nan => False
  | JsNum.inf neg => overflowThreshold ≤ |q| ∧ (neg = true ↔ q < 0)
  | JsNum.fin neg m e =>
    |q| < overflowThreshold ∧ (q < 0 → neg = true) ∧ (0 < q → neg = false) ∧
    IsNearestBinary64 q (signRat neg * (m : ℚ) * (10 : ℚ) ^ e)

/-! ## ECMAScript `StringToNumber` -/

/-- The characters `StrWhiteSpaceChar` of ECMAScript: white space and line terminators. -/
def isJsWhiteSpace (c : Char) : Bool :=
  let n := c.toNat
  n = 0x09 || n = 0x0A || n = 0x0B || n = 0x0C || n = 0x0D || n = 0x20 || n = 0xA0 ||
  n = 0x1680 || (0x2000 ≤ n && n ≤ 0x200A) || n = 0x2028 || n = 0x2029 || n = 0x202F ||
  n = 0x205F || n = 0x3000 || n = 0xFEFF

/-- Strip leading and trailing white space. -/
def trimWs (cs : List Char) : List Char :=
  ((cs.dropWhile isJsWhiteSpace).reverse.dropWhile isJsWhiteSpace).reverse

/-- The value of a digit in a base up to 16, if the character is one. -/
def digitVal (base : Nat) (c : Char) : Option Nat :=
  let n := c.toNat
  let d := if 48 ≤ n ∧ n ≤ 57 then some (n - 48)
    else if 97 ≤ n ∧ n ≤ 102 then some (n - 87)
    else if 65 ≤ n ∧ n ≤ 70 then some (n - 55)
    else none
  match d with
  | some v => if v < base then some v else none
  | none => none

/-- Whether a character is a digit of the base. -/
def isDigitOf (base : Nat) (c : Char) : Bool := (digitVal base c).isSome

/-- The number a digit string denotes in the base. -/
def digitsVal (base : Nat) (ds : List Char) : Nat :=
  ds.foldl (fun acc c => acc * base + (digitVal base c).getD 0) 0

/-- `ExponentPart` (possibly absent): `e` or `E`, an optional sign, decimal digits. -/
def parseExponent (cs : List Char) : Option Int :=
  match cs with
  | [] => some 0
  | e :: rest =>
    if e = 'e' ∨ e = 'E' then
      match rest with
      | [] => none
      | s :: ds =>
        if s = '+' then
          if ds ≠ [] ∧ ds.all (isDigitOf 10) then some (Int.ofNat (digitsVal 10 ds)) else none
        else if s = '-' then
          if ds ≠ [] ∧ ds.all (isDigitOf 10) then some (- Int.ofNat (digitsVal 10 ds)) else none
        else
          if (s :: ds).all (isDigitOf 10) then some (Int.ofNat (digitsVal 10 (s :: ds))) else none
    else none

/-- `StrUnsignedDecimalLiteral` other than `Infinity`: mantissa and decimal exponent of
`digits . digits? exp?`, `. digits exp?` or `digits exp?`. -/
def parseUnsignedDecimal (cs : List Char) : Option (Nat × Int) :=
  let ip := cs.takeWhile (isDigitOf 10)
  let r1 := cs.dropWhile (isDigitOf 10)
  let fr := match r1 with
    | [] => ([], [])
    | d :: r => if d = '.' then (r.takeWhile (isDigitOf 10), r.dropWhile (isDigitOf 10))
                else ([], d :: r)
  if ip = [] ∧ fr.1 = [] then none
  else
    match parseExponent fr.2 with
    | some e => some (digitsVal 10 (ip ++ fr.1), e - Int.ofNat fr.1.length)
    | none => none

/-- `StrDecimalLiteral` without its sign. -/
def parseDecimal (neg : Bool) (cs : List Char) : JsNum :=
  if cs = "Infinity".data then JsNum.inf neg
  else
    match parseUnsignedDecimal cs with
    | some (m, e) => JsNum.fin neg m e
    | none => JsNum.nan

/-- A `NonDecimalIntegerLiteral` body: a non-empty run of digits of the base. -/
def parseRadix (base : Nat) (ds : List Char) : JsNum :=
  if ds ≠ [] ∧ ds.all (isDigitOf base) then JsNum.fin false (digitsVal base ds) 0
  else JsNum.nan

/-- The mathematical value of a `StringNumericLiteral`, before rounding: the empty or
blank string is `+0`, `0x`/`0o`/`0b` literals carry no sign, anything outside the grammar is
`NaN`. -/
def stringToDecimal (cs : List Char) : JsNum :=
  match trimWs cs with
  | [] => JsNum.fin false 0 0
  | [c] => parseDecimal false [c]
  | c :: d :: rest =>
    if c = '0' ∧ (d = 'x' ∨ d = 'X') then parseRadix 16 rest
    else if c = '0' ∧ (d = 'o' ∨ d = 'O') then parseRadix 8 rest
    else if c = '0' ∧ (d = 'b' ∨ d = 'B') then parseRadix 2 rest
    else if c = '+' then parseDecimal false (d :: rest)
    else if c = '-' then parseDecimal true (d :: rest)
    else parseDecimal false (c :: d :: rest)

/-- ECMAScript `StringToNumber` on the characters of a string, which is `Number(v)` for a
string `v`: the mathematical value of the literal rounded to binary64. -/
def stringToNumber (cs : List Char) : JsNum := roundNum (stringToDecimal cs)

/-- `Array.prototype.toString` of an array of strings: the elements joined by commas. -/
def joinComma (xs : List String) : List Char :=
  List.intercalate [','] (xs.map String.data)

/-- `ToNumber(v)`. -/
def toNumber (v : JsVal) : JsNum :=
  match v with
  | JsVal.null => JsNum.fin false 0 0
  | JsVal.bool b => JsNum.fin false (if b then 1 else 0) 0
  | JsVal.num n => n
  | JsVal.str s => stringToNumber s.data
  | JsVal.arr xs => stringToNumber (joinComma xs)

/-- `ToBoolean(v)`: the falsy values are `null`, `false`, zero, `NaN` and `""`. -/
def truthy (v : JsVal) : Bool :=
  match v with
  | JsVal.null => false
  | JsVal.bool b => b
  | JsVal.num JsNum.nan => false
  | JsVal.num (JsNum.inf _) => true
  | JsVal.num (JsNum.fin _ m _) => decide (m ≠ 0)
  | JsVal.str s => decide (s ≠ "")
  | JsVal.arr _ => true

/-- Numeric equality `x == y` of two numbers: `NaN` equals nothing, `+0` equals `-0`. -/
def numEq (x y : JsNum) : Bool :=
  match x, y with
  | JsNum.inf a, JsNum.inf b => decide (a = b)
  | JsNum.fin s1 m1 e1, JsNum.fin s2 m2 e2 =>
    if m1 = 0 ∧ m2 = 0 then true
    else
      decide (s1 = s2 ∧
        m1 * 10 ^ (e1 - min e1 e2).toNat = m2 * 10 ^ (e2 - min e1 e2).toNat)
  | _, _ => false

/-- Loose equality `v == s` against a string `s`: a string compares by content, an array
through its `toString`, a number or boolean through `ToNumber` of both sides, and `null`
equals no string. -/
def looseEqStr (v : JsVal) (s : String) : Bool :=
  match v with
  | JsVal.null => false
  | JsVal.str t => decide (t = s)
  | JsVal.arr xs => decide (joinComma xs = s.data)
  | JsVal.bool b => numEq (toNumber (JsVal.bool b)) (stringToNumber s.data)
  | JsVal.num n => numEq n (stringToNumber s.data)

/-- Global `isNaN(v)`. -/
def isNaN (v : JsVal) : Bool := decide (toNumber v = JsNum.nan)

/-! ## `parseData.js`: `parseCSV` -/

/-- One row as the CSV tokenizer returns it under `header: true`: header name to raw cell
text.  (Rows with more cells than headers, for which the tokenizer adds an array under
`__parsed_extra`, are not modelled.) -/
abbrev RawRow := Dict String

/-- The result of `Papa.parse(text, {header: true})` as far as `parseCSV` reads it:
`data`, and `meta.renamedHeaders`, which is `null` (`none`) when no header repeats and
otherwise maps each synthetic name to the original name, in header order. -/
structure Parsed where
  data : List RawRow
  renamedHeaders : Option (Dict String)

/-- Truthiness of a raw cell read `row[k]`: `undefined` and `""` are falsy. -/
def cellTruthy (c : Option String) : Bool :=
  match c with
  | some s => decide (s ≠ "")
  | none => false

/-- Array append `data[v].push(x)` on the array stored under `v`. -/
def pushAt (data : Dict (List String)) (v : String) (x : String) : Dict (List String) :=
  match Dict.get data v with
  | some xs => Dict.set data v (xs ++ [x])
  | none => data

/-- Append `row[k]` under `v` when the cell is truthy (`if (row[k]) data[v].push(row[k])`). -/
def pushCell (data : Dict (List String)) (v : String) (c : Option String) :
    Dict (List String) :=
  match c with
  | some s => if s ≠ "" then pushAt data v s else data
  | none => data

/-- The names every plain object inherits from `Object.prototype`.  A read `o[name]` of
such a name on an object without that own property gives the inherited member, not
`undefined`. -/
def objectPrototypeMembers : List String :=
  ["constructor", "__defineGetter__", "__defineSetter__", "hasOwnProperty",
    "__lookupGetter__", "__lookupSetter__", "isPrototypeOf", "propertyIsEnumerable",
    "toString", "valueOf", "__proto__", "toLocaleString"]

/-- One iteration of the loop over `Object.entries(parsed.meta.renamedHeaders)`
(lines 84-100) for the pair `[k, v]`, on the state `(row, data)`.  The reads `row[v]`,
`row[k]` and `data[v]` are own-property reads: this is the loop for header names outside
`objectPrototypeMembers`.  (For an original name among them the code finds the inherited
member under `data[v]`, creates no array, and throws a `TypeError` at `data[v].push` as
soon as a duplicate cell is non-empty.) -/
def mergePair (st : RawRow × Dict (List String)) (kv : String × String) :
    RawRow × Dict (List String) :=
  let row := st.1
  let data := st.2
  let k := kv.1
  let v := kv.2
  if !cellTruthy (Dict.get row v) then st
  else
    let data1 :=
      match Dict.get data v with
      | some _ => data
      | none => pushCell (Dict.set data v []) v (Dict.get row v)
    let data2 := pushCell data1 v (Dict.get row k)
    (Dict.erase row k, data2)

/-- A raw row as a record: every cell is a string value. -/
def liftRow (row : RawRow) : Obj := row.map (fun p => (p.1, JsVal.str p.2))

/-- The body of the loop over rows in lines 81-105: merge the renamed headers into
`data`, then write every entry of `data` back into the row. -/
def mergeRow (rh : Dict String) (row : RawRow) : Obj :=
  let st := rh.foldl mergePair (row, [])
  st.2.foldl (fun r kv => Dict.set r kv.1 (JsVal.arr kv.2)) (liftRow st.1)

/-- The effect of lines 111-122 on one entry value: `none` deletes the field, `some w`
leaves `w` stored under it. -/
def coerceValue (v : JsVal) : Option JsVal :=
  if !truthy v then none
  else if looseEqStr v "TRUE" then some (JsVal.bool true)
  else if looseEqStr v "FALSE" then some (JsVal.bool false)
  else if !isNaN v then some (JsVal.num (toNumber v))
  else some v

/-- One iteration of the loop over `Object.entries(row)` (lines 110-123). -/
def coerceEntry (row : Obj) (kv : String × JsVal) : Obj :=
  match coerceValue kv.2 with
  | none => Dict.erase row kv.1
  | some w => Dict.set row kv.1 w

/-- The loop of lines 110-123 over the entries the row has when the loop starts. -/
def coerceRow (row : Obj) : Obj := row.foldl coerceEntry row

/-- What lines 79-124 do to one row. -/
def processRow (rh : Option (Dict String)) (row : RawRow) : Obj :=
  match rh with
  | some m => coerceRow (mergeRow m row)
  | none => coerceRow (liftRow row)

/-- The function `parseCSV` after the file has been read and tokenized: merge, coerce, and
keep the rows that still have a key (line 126-128). -/
def parseCSV (parsed : Parsed) : List Obj :=
  (parsed.data.map (processRow parsed.renamedHeaders)).filter
    (fun r => decide ((Dict.keys r).length ≠ 0))

/-! ## `path.extname` and `parseData.js`: dispatch on the extension -/

/-- The last component of a POSIX path, trailing slashes dropped. -/
def baseName (cs : List Char) : List Char :=
  ((cs.reverse.dropWhile (fun c => decide (c = '/'))).takeWhile
    (fun c => decide (c ≠ '/'))).reverse

/-- Node's `path.extname` (POSIX): from the last `.` of the last component to its end; empty
when there is no dot, when the only dot is the first character, or for `..`. -/
def extname (path : List Char) : List Char :=
  let base := baseName path
  let rev := base.reverse
  match rev.dropWhile (fun c => decide (c ≠ '.')) with
  | [] => []
  | _ :: before =>
    if before = [] then []
    else if base = ['.', '.'] then []
    else '.' :: (rev.takeWhile (fun c => decide (c ≠ '.'))).reverse

/-- `String.prototype.toLowerCase` on the ASCII letters.  (No character outside ASCII
lower-cases to a letter of `csv`, `json`, `yml` or `yaml`, so the dispatch below does not
depend on the rest of the mapping.) -/
def toLowerCase (cs : List Char) : List Char := cs.map Char.toLower

/-- The value the two dispatchers switch on:
`path.extname(filePath).slice(1).toLowerCase()`. -/
def switchKey (filePath : String) : List Char :=
  toLowerCase ((extname filePath.data).drop 1)

/-- What a data file parses to: the records of `parseCSV`, or the tree a structural
parser (`yaml.load`, `JSON.parse`) gives. -/
inductive DataResult (δ : Type) where
  | records (rs : List Obj)
  | tree (t : δ)

/-- The file readers behind the parsers; each may throw.
`readCSV` is `Papa.parse(fs.readFileSync(filePath, 'utf8'), {header: true})`,
`parseYAML` and `parseJSON` are the functions of the same name. -/
structure DataEnv (δ : Type) where
  readCSV : String → Except String Parsed
  parseYAML : String → Except String δ
  parseJSON : String → Except String δ

/-- The function `parseDataSync` (lines 26-36); `none` is `null`. -/
def parseDataSync {δ : Type} (env : DataEnv δ) (filePath : String) :
    Except String (Option (DataResult δ)) :=
  let fileExtension := switchKey filePath
  if fileExtension = "yml".data ∨ fileExtension = "yaml".data then
    (env.parseYAML filePath).map (fun t => some (DataResult.tree t))
  else if fileExtension = "json".data then
    (env.parseJSON filePath).map (fun t => some (DataResult.tree t))
  else Except.ok none

/-- The function `parseData` (lines 49-60); `none` is `null`. -/
def parseData {δ : Type} (env : DataEnv δ) (filePath : String) :
    Except String (Option (DataResult δ)) :=
  let fileExtension := switchKey filePath
  if fileExtension = "csv".data then
    (env.readCSV filePath).map (fun p => some (DataResult.records (parseCSV p)))
  else if fileExtension = "json".data ∨ fileExtension = "yml".data ∨
      fileExtension = "yaml".data then
    parseDataSync env filePath
  else Except.ok none

/-! ## `generateHTML.js`: image helpers -/

/-- What the file system holds at a resolved path. -/
inductive FsEntry where
  | absent
  | file (bytes : List (Fin 256))
  | dir
  deriving DecidableEq

/-- The file system as the image helpers see it: `resolve baseDir filePath` is
`path.resolve(cwd, baseDir, filePath)`, and `entry` maps a resolved path to what is there. -/
structure ImageEnv where
  resolve : String → String → String
  entry : String → FsEntry

/-- The call `fs.existsSync(p)`. -/
def existsSync (env : ImageEnv) (p : String) : Bool :=
  match env.entry p with
  | FsEntry.absent => false
  | _ => true

/-- The call `fs.statSync(p).isFile()`: `statSync` throws on a missing path. -/
def statIsFile (env : ImageEnv) (p : String) : Except String Bool :=
  match env.entry p with
  | FsEntry.absent => Except.error "ENOENT: no such file or directory"
  | FsEntry.file _ => Except.ok true
  | FsEntry.dir => Except.ok false

/-- The call `fs.readFileSync(p)` on the modelled file system. -/
def readFileSync (env : ImageEnv) (p : String) : Except String (List (Fin 256)) :=
  match env.entry p with
  | FsEntry.absent => Except.error "ENOENT: no such file or directory"
  | FsEntry.file bytes => Except.ok bytes
  | FsEntry.dir => Except.error "EISDIR: illegal operation on a directory"

/-- Truthiness of a path argument, which may be any value: `undefined` (`none`) and the
falsy values (`""`, `0`, `NaN`, `false`, `null`) are falsy. -/
def pathTruthy (filePath : Option JsVal) : Bool :=
  match filePath with
  | some v => truthy v
  | none => false

/-- The error `path.resolve` throws on an argument that is not a string. -/
def pathTypeError : String :=
  "TypeError [ERR_INVALID_ARG_TYPE]: The \"paths\" argument must be of type string"

/-- The call `path.resolve(cwd, baseDir, filePath)`, after the default `'.'` has replaced
an `undefined` base directory.  The arguments are validated from the right until an
absolute path is reached: a file path that is not a string throws, and so does a base
directory that is not a string unless the file path is absolute. -/
def pathResolve (env : ImageEnv) (baseDir filePath : Option JsVal) : Except String String :=
  match filePath with
  | some (JsVal.str f) =>
    match baseDir with
    | none => Except.ok (env.resolve "." f)
    | some (JsVal.str b) => Except.ok (env.resolve b f)
    | some _ =>
      if f.data.head? = some '/' then Except.ok (env.resolve "." f)
      else Except.error pathTypeError
  | _ => Except.error pathTypeError

/-- The function `hasImage` (lines 40-50). -/
def hasImage (env : ImageEnv) (filePath : Option JsVal) (baseDir : Option JsVal) :
    Except String Bool :=
  if !pathTruthy filePath then Except.ok false
  else
    match pathResolve env baseDir filePath with
    | Except.error e => Except.error e
    | Except.ok imagePath =>
      if !existsSync env imagePath then Except.ok false
      else statIsFile env imagePath

/-- One character of the base64 alphabet. -/
def base64Char (n : Nat) : Char :=
  if n < 26 then Char.ofNat (65 + n)
  else if n < 52 then Char.ofNat (97 + (n - 26))
  else if n < 62 then Char.ofNat (48 + (n - 52))
  else if n = 62 then '+'
  else '/'

/-- The encoding `buffer.toString('base64')`. -/
def base64 : List (Fin 256) → List Char
  | [] => []
  | [a] => [base64Char (a.val / 4), base64Char (a.val % 4 * 16), '=', '=']
  | [a, b] =>
    [base64Char (a.val / 4), base64Char (a.val % 4 * 16 + b.val / 16),
      base64Char (b.val % 16 * 4), '=']
  | a :: b :: c :: rest =>
    base64Char (a.val / 4) :: base64Char (a.val % 4 * 16 + b.val / 16) ::
      base64Char (b.val % 16 * 4 + c.val / 64) :: base64Char (c.val % 64) :: base64 rest

/-- The data URL built in lines 73-80: the subtype is the extension, `svg` in any case
getting `+xml` appended. -/
def dataUrl (imagePath : String) (bytes : List (Fin 256)) : String :=
  let imageExtension := (extname imagePath.data).drop 1
  let subtype :=
    if toLowerCase imageExtension = "svg".data then imageExtension ++ "+xml".data
    else imageExtension
  String.mk ("data:image/".data ++ subtype ++ ";base64,".data ++ base64 bytes)

/-- The function `loadImage` (lines 60-81). -/
def loadImage (env : ImageEnv) (filePath : Option JsVal) (baseDir : Option JsVal) :
    Except String String :=
  if !pathTruthy filePath then Except.error "Invalid file path provided"
  else
    match pathResolve env baseDir filePath with
    | Except.error e => Except.error e
    | Except.ok imagePath =>
      if !existsSync env imagePath then Except.error ("File not found at path: " ++ imagePath)
      else
        match statIsFile env imagePath with
        | Except.error e => Except.error e
        | Except.ok false => Except.error ("Found a directory at path: " ++ imagePath)
        | Except.ok true =>
          match readFileSync env imagePath with
          | Except.error e => Except.error e
          | Except.ok bytes => Except.ok (dataUrl imagePath bytes)

/-! ## `generateHTML.js`: `generateHTML` -/

/-- The run configuration read by the renderer and the orchestrator. -/
structure Config where
  png : Bool
  pdf : Bool
  template : String
  width : Option Nat
  height : Option Nat
  pngFilename : String
  outDir : String
  pdfFilename : String
  dpi : JsNum
  pdfFormat : String
  pdfMargin : String
  quantityKey : String
  imgDir : Option String

/-- The object `template_data` of `generateOutput`, without `config`. -/
structure TemplateData where
  card : Obj
  index : Nat
  count : Nat

/-- The pages the run opens: one for each card, one for the grid. -/
inductive PageRef where
  | card (i : Nat)
  | grid
  deriving DecidableEq

/-- The calls into the browser and the file system that may reject, each named by the
card index or page it is made for. -/
inductive Op where
  | launch
  | newPage (p : PageRef)
  | setViewport (i : Nat)
  | setContent (p : PageRef)
  | mkdir (path : String)
  | screenshotFile (i : Nat)
  | screenshotBuffer (i : Nat)
  | evaluate (i : Nat)
  | pdf
  | closePage (p : PageRef)
  | closeBrowser
  deriving DecidableEq

/-- The external collaborators of a run: which calls reject, what the template evaluator
returns (`renderField value card` is `ejs.render(value, data.card)`, `render text config data`
is `ejs.render(text, data)` with the three helpers in scope), what reading the template
file gives, how output paths resolve, and the base64 PNG a page with a given markup
rasterises to. -/
structure Host where
  fails : Op → Bool
  readTemplate : String → Except String String
  renderField : String → Obj → Except String String
  render : String → Config → TemplateData → Except String String
  resolve : String → String → String
  screenshot : String → String

/-- One iteration of the loop of lines 108-114 for the key `i`: a string field is deleted,
evaluated against the card without it, and stored again. -/
def renderCardField (host : Host) (card : Obj) (i : String) : Except String Obj :=
  match Dict.get card i with
  | some (JsVal.str value) =>
    match host.renderField value (Dict.erase card i) with
    | Except.ok s => Except.ok (Dict.set (Dict.erase card i) i (JsVal.str s))
    | Except.error e => Except.error e
  | _ => Except.ok card

/-- The loop of lines 108-114 over the keys the card has when the loop starts. -/
def renderCardFields (host : Host) (card : Obj) : Except String Obj :=
  (Dict.keys card).foldlM (renderCardField host) card

/-- The function `generateHTML` (lines 97-120): the markup, and the card as the function
leaves it (it rewrites `data.card` in place). -/
def generateHTML (host : Host) (filePath : String) (config : Config) (data : TemplateData) :
    Except String (String × Obj) :=
  match renderCardFields host data.card with
  | Except.error e => Except.error e
  | Except.ok card1 =>
    match host.readTemplate filePath with
    | Except.error e => Except.error e
    | Except.ok template =>
      match host.render template config { data with card := card1 } with
      | Except.error e => Except.error e
      | Except.ok html => Except.ok (html, card1)

/-! ## `generateOutput.js` -/

/-- The argument of `page.setViewport`. -/
structure Viewport where
  deviceScaleFactor : Nat
  width : Option Nat
  height : Option Nat
  deriving DecidableEq

/-- The argument of `gridPage.pdf`. -/
structure PdfOptions where
  format : String
  landscape : Bool
  marginTop : String
  marginRight : String
  marginBottom : String
  marginLeft : String
  path : String
  printBackground : Bool
  scale : JsNum
  deriving DecidableEq

/-- The state a run acts on: the local variables `browser`, `page` and `gridPage`, the
browser session and its open pages, and what has been produced so far. -/
structure World where
  browserVar : Bool
  browserOpen : Bool
  pageVar : Option PageRef
  gridPageVar : Bool
  openPages : List PageRef
  viewports : List Viewport
  pngFiles : List (String × String)
  gridImages : List String
  pdfExports : List PdfOptions
  deriving DecidableEq

/-- The state before `generateOutput` is called. -/
def World.init : World :=
  { browserVar := false, browserOpen := false, pageVar := none, gridPageVar := false,
    openPages := [], viewports := [], pngFiles := [], gridImages := [], pdfExports := [] }

/-- How a piece of code ends: normally, by a thrown error, by `process.exit(code)`, which
ends the process on the spot, or not at all within the step budget of a page loop. -/
inductive Outcome (α : Type) where
  | ok (a : α)
  | thrown (e : String)
  | exited (code : Nat)
  | stuck
  deriving DecidableEq

/-- An effectful computation over the world. -/
def Eff (α : Type) : Type := World → Outcome α × World

/-- Return a value. -/
def Eff.pure {α : Type} (a : α) : Eff α := fun w => (Outcome.ok a, w)

/-- Sequencing: the rest runs only after a normal end. -/
def Eff.bind {α β : Type} (x : Eff α) (f : α → Eff β) : Eff β := fun w =>
  match x w with
  | (Outcome.ok a, w1) => f a w1
  | (Outcome.thrown e, w1) => (Outcome.thrown e, w1)
  | (Outcome.exited c, w1) => (Outcome.exited c, w1)
  | (Outcome.stuck, w1) => (Outcome.stuck, w1)

instance : Monad Eff where
  pure := Eff.pure
  bind := Eff.bind

/-- The call `process.exit(code)`. -/
def processExit {α : Type} (code : Nat) : Eff α := fun w => (Outcome.exited code, w)

/-- A throw. -/
def throwErr {α : Type} (e : String) : Eff α := fun w => (Outcome.thrown e, w)

/-- An awaited external call: it rejects when the host says so. -/
def call (host : Host) (op : Op) : Eff Unit := fun w =>
  if host.fails op then (Outcome.thrown "rejected", w) else (Outcome.ok (), w)

/-- A synchronous helper that may throw. -/
def liftExcept {α : Type} (x : Except String α) : Eff α := fun w =>
  match x with
  | Except.ok a => (Outcome.ok a, w)
  | Except.error e => (Outcome.thrown e, w)

/-- A state update. -/
def modifyWorld (f : World → World) : Eff Unit := fun w => (Outcome.ok (), f w)

/-- Read the state. -/
def getWorld : Eff World := fun w => (Outcome.ok w, w)

/-- Run a `finally` block after an outcome `r` of the protected code: a normal end of the
block keeps `r`, anything else replaces it. -/
def runFinally {α : Type} (fin : Eff Unit) (r : Outcome α) : Eff α := fun w =>
  match fin w with
  | (Outcome.ok _, w1) => (r, w1)
  | (Outcome.thrown e, w1) => (Outcome.thrown e, w1)
  | (Outcome.exited c, w1) => (Outcome.exited c, w1)
  | (Outcome.stuck, w1) => (Outcome.stuck, w1)

/-- The statement `try { body } catch (error) { handler } finally { fin }`.  The `finally`
block runs after a normal end or a throw of `body` or `handler`; `process.exit` ends the
process, so nothing runs after it. -/
def tryCatchFinally {α : Type} (body : Eff α) (handler : String → Eff α) (fin : Eff Unit) :
    Eff α := fun w =>
  match body w with
  | (Outcome.ok a, w1) => runFinally fin (Outcome.ok a) w1
  | (Outcome.thrown e, w1) =>
    match handler e w1 with
    | (Outcome.ok a, w2) => runFinally fin (Outcome.ok a) w2
    | (Outcome.thrown e2, w2) => runFinally fin (Outcome.thrown e2) w2
    | (Outcome.exited c, w2) => (Outcome.exited c, w2)
    | (Outcome.stuck, w2) => (Outcome.stuck, w2)
  | (Outcome.exited c, w1) => (Outcome.exited c, w1)
  | (Outcome.stuck, w1) => (Outcome.stuck, w1)

/-- The function `createPage` (lines 31-45): `page` is returned only after the viewport
and the content were set. -/
def createPage (host : Host) (i : Nat) (width height : Option Nat) : Eff PageRef := do
  call host (Op.newPage (PageRef.card i))
  modifyWorld (fun w => { w with openPages := w.openPages ++ [PageRef.card i] })
  let viewport : Viewport :=
    { deviceScaleFactor := 1
      width := match width with
        | some n => if n ≠ 0 then some n else none
        | none => none
      height := match height with
        | some n => if n ≠ 0 then some n else none
        | none => none }
  call host (Op.setViewport i)
  modifyWorld (fun w => { w with viewports := w.viewports ++ [viewport] })
  call host (Op.setContent (PageRef.card i))
  pure (PageRef.card i)

/-- The function `savePNG` (lines 57-65) for the page of card `i` showing `html`. -/
def savePNG (host : Host) (i : Nat) (html : String) (outPath : String) : Eff Unit := do
  call host (Op.mkdir outPath)
  call host (Op.screenshotFile i)
  modifyWorld (fun w => { w with pngFiles := w.pngFiles ++ [(outPath, host.screenshot html)] })

/-- The comparison `i < q` of a loop counter with a number. -/
def natLt (i : Nat) (q : JsNum) : Bool :=
  match q with
  | JsNum.nan => false
  | JsNum.inf neg => !neg
  | JsNum.fin true _ _ => false
  | JsNum.fin false m e =>
    if 0 ≤ e then decide (i < m * 10 ^ e.toNat) else decide (i * 10 ^ (-e).toNat < m)

/-- The comparison `i < quantity` as the page evaluates it: the quantity goes through
`ToNumber`, and `undefined` (`none`) is `NaN`. -/
def counterLt (i : Nat) (quantity : Option JsVal) : Bool :=
  match quantity with
  | some v => natLt i (toNumber v)
  | none => false

/-- The image tag line 97 appends to the container. -/
def imgTag (screenshot : String) : String :=
  "<img src=\"data:image/png;base64," ++ screenshot ++ "\">"

/-- The loop of lines 96-98 inside the page, from counter `i`, with a step budget:
`none` when the budget runs out before the loop ends. -/
def imgLoop (fuel : Nat) (i : Nat) (quantity : Option JsVal) (screenshot : String)
    (container : List String) : Option (List String) :=
  match fuel with
  | 0 => none
  | fuel + 1 =>
    if counterLt i quantity then
      imgLoop fuel (i + 1) quantity screenshot (container ++ [imgTag screenshot])
    else some container

/-- One `gridPage.evaluate` call (lines 94-99). -/
def evaluateImages (host : Host) (fuel : Nat) (i : Nat) (screenshot : String)
    (quantity : Option JsVal) : Eff Unit := do
  call host (Op.evaluate i)
  let w ← getWorld
  match imgLoop fuel 0 quantity screenshot w.gridImages with
  | some imgs => modifyWorld (fun w1 => { w1 with gridImages := imgs })
  | none => fun w1 => (Outcome.stuck, w1)

/-- The loop of lines 92-100 from index `i` over the remaining buffers. -/
def gridLoop (host : Host) (fuel : Nat) (quantities : List JsVal) :
    Nat → List String → Eff Unit
  | _, [] => pure ()
  | i, screenshot :: rest => do
    evaluateImages host fuel i screenshot (quantities.get? i)
    gridLoop host fuel quantities (i + 1) rest

/-- The object passed to `gridPage.pdf` in lines 104-116. -/
def pdfOptions (outPath : String) (dpi : JsNum) (format margin : String) : PdfOptions :=
  { format := format, landscape := true,
    marginTop := margin, marginRight := margin, marginBottom := margin, marginLeft := margin,
    path := outPath, printBackground := true,
    scale := divNum (JsNum.fin false 96 0) dpi }

/-- The `finally` block of `savePDF` (lines 123-125). -/
def closeGridPage (host : Host) : Eff Unit := do
  let w ← getWorld
  if w.gridPageVar ∧ PageRef.grid ∈ w.openPages then
    call host (Op.closePage PageRef.grid)
    modifyWorld (fun w1 => { w1 with openPages := w1.openPages.erase PageRef.grid })
  else pure ()

/-- The function `savePDF` (lines 83-128). -/
def savePDF (host : Host) (fuel : Nat) (screenshotBuffers64 : List String)
    (quantities : List JsVal) (outPath : String) (dpi : JsNum) (format margin : String) :
    Eff Unit := do
  modifyWorld (fun w => { w with gridPageVar := false })
  tryCatchFinally
    (do
      call host (Op.newPage PageRef.grid)
      modifyWorld (fun w =>
        { w with gridPageVar := true, openPages := w.openPages ++ [PageRef.grid] })
      call host (Op.setContent PageRef.grid)
      modifyWorld (fun w => { w with gridImages := [] })
      gridLoop host fuel quantities 0 screenshotBuffers64
      call host (Op.mkdir outPath)
      call host Op.pdf
      modifyWorld (fun w =>
        { w with pdfExports := w.pdfExports ++ [pdfOptions outPath dpi format margin] }))
    (fun _ => processExit 1)
    (closeGridPage host)

/-- The value line 183 pushes: `card[quantityKey] ?? 1`. -/
def quantityOf (card : Obj) (quantityKey : String) : JsVal :=
  match Dict.get card quantityKey with
  | none => JsVal.num (JsNum.fin false 1 0)
  | some JsVal.null => JsVal.num (JsNum.fin false 1 0)
  | some v => v

/-- The `finally` block of one card (lines 189-191). -/
def closeCardPage (host : Host) : Eff Unit := do
  let w ← getWorld
  match w.pageVar with
  | some p =>
    if p ∈ w.openPages then
      call host (Op.closePage p)
      modifyWorld (fun w1 => { w1 with openPages := w1.openPages.erase p })
    else pure ()
  | none => pure ()

/-- The body of the loop over cards (lines 154-192) for the card at `index`, on the two
accumulators `screenshotBuffers64` and `quantities`. -/
def processCard (host : Host) (config : Config) (count index : Nat) (card : Obj)
    (acc : List String × List JsVal) : Eff (List String × List JsVal) := do
  modifyWorld (fun w => { w with pageVar := none })
  tryCatchFinally
    (do
      let template_data : TemplateData := { card := card, index := index, count := count }
      let r ← liftExcept (generateHTML host config.template config template_data)
      let html := r.1
      let rendered : TemplateData := { template_data with card := r.2 }
      let page ← createPage host index config.width config.height
      modifyWorld (fun w => { w with pageVar := some page })
      if config.png then
        let pngFilename ← liftExcept (host.render config.pngFilename config rendered)
        savePNG host index html (host.resolve config.outDir pngFilename)
      else pure ()
      let buffers ←
        if config.pdf then do
          call host (Op.screenshotBuffer index)
          pure (acc.1 ++ [host.screenshot html])
        else pure acc.1
      pure (buffers, acc.2 ++ [quantityOf r.2 config.quantityKey]))
    (fun _ => processExit 1)
    (closeCardPage host)

/-- The loop of lines 153-193 from `index` over the remaining cards. -/
def cardLoop (host : Host) (config : Config) (count : Nat) :
    Nat → List Obj → List String × List JsVal → Eff (List String × List JsVal)
  | _, [], acc => pure acc
  | index, card :: rest, acc => do
    let acc1 ← processCard host config count index card acc
    cardLoop host config count (index + 1) rest acc1

/-- The `finally` block of `generateOutput` (lines 203-205). -/
def closeBrowser (host : Host) : Eff Unit := do
  let w ← getWorld
  if w.browserVar then
    call host Op.closeBrowser
    modifyWorld (fun w1 => { w1 with browserOpen := false })
  else pure ()

/-- The function `generateOutput` (lines 140-207); `fuel` is the step budget of each page
loop. -/
def generateOutput (host : Host) (fuel : Nat) (config : Config) (data : List Obj) :
    Eff Unit :=
  if !config.png && !config.pdf then processExit 1
  else
    tryCatchFinally
      (do
        call host Op.launch
        modifyWorld (fun w => { w with browserVar := true, browserOpen := true })
        let acc ← cardLoop host config data.length 0 data ([], [])
        if config.pdf then
          savePDF host fuel acc.1 acc.2 (host.resolve config.outDir config.pdfFilename)
            config.dpi config.pdfFormat config.pdfMargin
        else pure ())
      (fun _ => processExit 1)
      (closeBrowser host)

/-! ## Vocabulary of the statements -/

/-- The text of a cell as a list: one entry when the cell is non-empty, none otherwise. -/
def cellList (c : Option String) : List String :=
  match c with
  | some s => if s ≠ "" then [s] else []
  | none => []

/-- The non-empty cells of the duplicates of the column `O`, in the order of the renamed
headers (the order of the header row). -/
def dupValues (rh : Dict String) (row : RawRow) (O : String) : List String :=
  match rh with
  | [] => []
  | (k, v) :: rest =>
    if v = O then cellList (Dict.get row k) ++ dupValues rest row O
    else dupValues rest row O

/-- What the coercion of lines 111-122 makes of a non-empty cell text. -/
def coerceText (v : String) : JsVal :=
  if v = "TRUE" then JsVal.bool true
  else if v = "FALSE" then JsVal.bool false
  else if stringToNumber v.data ≠ JsNum.nan then JsVal.num (stringToNumber v.data)
  else JsVal.str v

/-- The tokenized CSV `name,color,color` / `A,red,blue`: the second `color` column is
renamed `color_1`. -/
def colorSheet : Parsed :=
  { data := [[("name", "A"), ("color", "red"), ("color_1", "blue")]],
    renamedHeaders := some [("color_1", "color")] }

/-- The tokenized CSV `name,color,color` / `A,,blue`: only the duplicate column has data. -/
def duplicateOnlySheet : Parsed :=
  { data := [[("name", "A"), ("color", ""), ("color_1", "blue")]],
    renamedHeaders := some [("color_1", "color")] }

/-- The tokenized CSV `a,a,b,b` / `x,y,,z`: two repeated columns, the second with an empty
original cell. -/
def twoColumnSheet : Parsed :=
  { data := [[("a", "x"), ("a_1", "y"), ("b", ""), ("b_1", "z")]],
    renamedHeaders := some [("a_1", "a"), ("b_1", "b")] }

/-- The tokenized CSV `name,age` / `A,` followed by an empty line. -/
def ageSheet : Parsed :=
  { data := [[("name", "A"), ("age", "")], [("name", "")]],
    renamedHeaders := none }

/-- The tokenized CSV `flag,count,word,off` / `TRUE,42,foo,FALSE`. -/
def typedSheet : Parsed :=
  { data := [[("flag", "TRUE"), ("count", "42"), ("word", "foo"), ("off", "FALSE")]],
    renamedHeaders := none }

/-- The natural number a value is, when it is a number with a non-negative integer
value. -/
def natValue (v : JsVal) : Option Nat :=
  match v with
  | JsVal.num (JsNum.fin neg m e) =>
    if m = 0 then some 0
    else if neg then none
    else if 0 ≤ e then some (m * 10 ^ e.toNat)
    else if 10 ^ (-e).toNat ∣ m then some (m / 10 ^ (-e).toNat)
    else none
  | _ => none

/-- The markup `generateHTML` returns for the card at index `i` (empty when it throws). -/
def cardMarkup (host : Host) (config : Config) (count i : Nat) (card : Obj) : String :=
  match generateHTML host config.template config { card := card, index := i, count := count } with
  | Except.ok r => r.1
  | Except.error _ => ""

/-- The quantity line 183 records for the card at index `i`: the field is read after
`generateHTML` has rewritten the card. -/
def cardQuantity (host : Host) (config : Config) (count i : Nat) (card : Obj) : JsVal :=
  match generateHTML host config.template config { card := card, index := i, count := count } with
  | Except.ok r => quantityOf r.2 config.quantityKey
  | Except.error _ => quantityOf card config.quantityKey

/-- The recorded quantity of each card from index `i` on, in card order. -/
def quantitiesFrom (host : Host) (config : Config) (count : Nat) : Nat → List Obj → List JsVal
  | _, [] => []
  | i, card :: rest =>
    cardQuantity host config count i card :: quantitiesFrom host config count (i + 1) rest

/-- The raster of each card from index `i` on, in card order. -/
def rastersFrom (host : Host) (config : Config) (count : Nat) : Nat → List Obj → List String
  | _, [] => []
  | i, card :: rest =>
    host.screenshot (cardMarkup host config count i card) ::
      rastersFrom host config count (i + 1) rest

/-- The concatenation, in card order, of each card's image tag repeated as many times as
the card's quantity `card[quantityKey] ?? 1` says. -/
def expectedGrid (host : Host) (config : Config) (count : Nat) : Nat → List Obj → List String
  | _, [] => []
  | i, card :: rest =>
    List.replicate ((natValue (quantityOf card config.quantityKey)).getD 0)
        (imgTag (host.screenshot (cardMarkup host config count i card))) ++
      expectedGrid host config count (i + 1) rest

/-- A configuration that asks for both outputs at 300 dpi. -/
def demoConfig : Config :=
  { png := true, pdf := true, template := "template.html", width := some 825,
    height := some 1125, pngFilename := "card.png", outDir := "out",
    pdfFilename := "cards.pdf", dpi := JsNum.fin false 300 0, pdfFormat := "Letter", pdfMargin := "37.5px",
    quantityKey := "quantity", imgDir := some "img" }

/-- A host on which nothing fails: the template file exists, text without template tags
evaluates to itself, and the markup of a card is the template followed by the card's
index. -/
def demoHost : Host :=
  { fails := fun _ => false
    readTemplate := fun path =>
      if path = "template.html" then Except.ok "T" else Except.error "ENOENT"
    renderField := fun value _ => Except.ok value
    render := fun text _ data => Except.ok (text ++ String.mk (List.replicate data.index '*'))
    resolve := fun dir name => dir ++ "/" ++ name
    screenshot := fun html => "png:" ++ html }

/-- The host `demoHost` with the template file missing. -/
def missingTemplateHost : Host :=
  { demoHost with readTemplate := fun _ => Except.error "ENOENT" }

/-- The host `demoHost` with a PDF export that rejects. -/
def failingPdfHost : Host :=
  { demoHost with fails := fun op => decide (op = Op.pdf) }

/-- Two cards: the first asks for two copies, the second has no quantity field. -/
def demoCards : List Obj :=
  [[("name", JsVal.str "A"), ("quantity", JsVal.num (JsNum.fin false 2 0))],
    [("name", JsVal.str "B")]]

/-- A card whose quantity field holds text that is not a number. -/
def manyCard : Obj := [("name", JsVal.str "C"), ("quantity", JsVal.str "many")]

/-- The tokenized CSV `name,color,color` / `A,42,` and `B,TRUE,`: only the original
column of the repeated header has data. -/
def originalOnlySheet : Parsed :=
  { data := [[("name", "A"), ("color", "42"), ("color_1", "")],
      [("name", "B"), ("color", "TRUE"), ("color_1", "")]],
    renamedHeaders := some [("color_1", "color")] }

/-- A file system with the file `img/a.svg` and the directory `img/d`. -/
def demoImages : ImageEnv :=
  { resolve := fun dir name => dir ++ "/" ++ name
    entry := fun p =>
      if p = "img/a.svg" then FsEntry.file [77, 97]
      else if p = "img/d" then FsEntry.dir
      else FsEntry.absent }

/-! ## The rounding of the model is IEEE 754 rounding -/

theorem roundHalfEven_spec (n d : Nat) (hd : 0 < d) :
    |(n : ℚ) / d - (roundHalfEven n d : ℚ)| ≤ 1 / 2 ∧
    (|(n : ℚ) / d - (roundHalfEven n d : ℚ)| = 1 / 2 → roundHalfEven n d % 2 = 0) := by
  have hdq : (0 : ℚ) < d := by exact_mod_cast hd
  have hn : (n : ℚ) = (d : ℚ) * ((n / d : ℕ) : ℚ) + ((n % d : ℕ) : ℚ) := by
    exact_mod_cast (Nat.div_add_mod n d).symm
  have hr : n % d < d := Nat.mod_lt n hd
  unfold roundHalfEven
  simp only []
  generalize n / d = q at *
  generalize n % d = r at *
  have hrq : (r : ℚ) < d := by exact_mod_cast hr
  have hdiv : (n : ℚ) / d = (q : ℚ) + (r : ℚ) / d := by
    rw [hn]; field_simp; ring
  rw [hdiv]
  split_ifs with h1 h2 h3
  · have h1q : (2 : ℚ) * r < d := by exact_mod_cast h1
    have hx : (r : ℚ) / d < 1 / 2 := by rw [div_lt_iff₀ hdq]; linarith
    have hx0 : (0 : ℚ) ≤ (r : ℚ) / d := by positivity
    have : (q : ℚ) + (r : ℚ) / d - q = (r : ℚ) / d := by ring
    rw [this, abs_of_nonneg hx0]
    exact ⟨le_of_lt hx, fun h => absurd h (ne_of_lt hx)⟩
  · have h2q : (d : ℚ) < 2 * r := by exact_mod_cast h2
    have hx : 1 / 2 < (r : ℚ) / d := by rw [lt_div_iff₀ hdq]; linarith
    have hx1 : (r : ℚ) / d < 1 := by rw [div_lt_iff₀ hdq]; linarith
    have : (q : ℚ) + (r : ℚ) / d - ((q + 1 : ℕ) : ℚ) = - (1 - (r : ℚ) / d) := by
      push_cast; ring
    rw [this, abs_neg, abs_of_nonneg (by linarith)]
    exact ⟨by linarith, fun h => absurd h (by intro h; linarith)⟩
  · have h2q : (2 : ℚ) * r = d := by
      have : 2 * r = d := by omega
      exact_mod_cast this
    have hx : (r : ℚ) / d = 1 / 2 := by rw [div_eq_iff (ne_of_gt hdq)]; linarith
    have : (q : ℚ) + (r : ℚ) / d - q = 1 / 2 := by rw [hx]; ring
    rw [this, abs_of_nonneg (by norm_num)]
    exact ⟨le_refl _, fun _ => h3⟩
  · have h2q : (2 : ℚ) * r = d := by
      have : 2 * r = d := by omega
      exact_mod_cast this
    have hx : (r : ℚ) / d = 1 / 2 := by rw [div_eq_iff (ne_of_gt hdq)]; linarith
    have : (q : ℚ) + (r : ℚ) / d - ((q + 1 : ℕ) : ℚ) = - (1 / 2) := by
      rw [hx]; push_cast; ring
    rw [this, abs_neg, abs_of_nonneg (by norm_num)]
    exact ⟨le_refl _, fun _ => by omega⟩

/-- A value within one half of `Q` is at least as near to `Q` as any integer. -/
theorem nearest_of_half (Q : ℚ) (m k : ℤ) (h : |Q - m| ≤ 1 / 2) : |Q - m| ≤ |Q - k| := by
  by_cases hk : k = m
  · rw [hk]
  · have h1 : (1 : ℚ) ≤ |(m : ℚ) - k| := by
      have : (1 : ℤ) ≤ |m - k| := Int.one_le_abs (sub_ne_zero.mpr (Ne.symm hk))
      have h2 : ((1 : ℤ) : ℚ) ≤ ((|m - k| : ℤ) : ℚ) := by exact_mod_cast this
      simpa using h2
    have h2 : |(m : ℚ) - k| ≤ |Q - m| + |Q - k| := by
      have : (m : ℚ) - k = (Q - k) - (Q - m) := by ring
      rw [this]
      exact (abs_sub _ _).trans (by linarith)
    linarith

theorem log2Fuel_spec (fuel : Nat) : ∀ n, n ≠ 0 → n < 2 ^ fuel →
    2 ^ log2Fuel fuel n ≤ n ∧ n < 2 ^ (log2Fuel fuel n + 1) := by
  induction fuel with
  | zero => intro n h0 h; simp at h; exact absurd h h0
  | succ f ih =>
    intro n h0 h
    unfold log2Fuel
    split_ifs with h2
    · have : n = 1 := by omega
      subst this; simp
    · have h3 : n / 2 ≠ 0 := by omega
      have h4 : n / 2 < 2 ^ f := by
        rw [pow_succ] at h; omega
      obtain ⟨i1, i2⟩ := ih (n / 2) h3 h4
      generalize log2Fuel f (n / 2) = k at *
      rw [pow_succ, pow_succ]
      rw [pow_succ] at i2
      constructor <;> omega

theorem ilog2_spec (n : Nat) (h : n ≠ 0) : 2 ^ ilog2 n ≤ n ∧ n < 2 ^ (ilog2 n + 1) :=
  log2Fuel_spec n n h (Nat.lt_two_pow n)

theorem ilog2_two_pow (n : Nat) : ilog2 (2 ^ n) = n := by
  obtain ⟨h1, h2⟩ := ilog2_spec (2 ^ n) (by positivity)
  have a := (Nat.pow_le_pow_iff_right (by norm_num : 1 < 2)).mp h1
  have b := (Nat.pow_lt_pow_iff_right (by norm_num : 1 < 2)).mp h2
  omega

theorem zpow_toNat_of_nonneg (e : ℤ) (h : 0 ≤ e) : (2 : ℚ) ^ e.toNat = (2 : ℚ) ^ e := by
  conv_rhs => rw [← Int.toNat_of_nonneg h]
  exact (zpow_natCast _ _).symm

theorem floorLog2_spec (a b : Nat) (ha : 0 < a) (hb : 0 < b) :
    (2 : ℚ) ^ (floorLog2 a b) ≤ (a : ℚ) / b ∧ (a : ℚ) / b < (2 : ℚ) ^ (floorLog2 a b + 1) := by
  unfold floorLog2
  simp only [Int.ofNat_eq_coe]
  have haq : (0 : ℚ) < a := by exact_mod_cast ha
  have hbq : (0 : ℚ) < b := by exact_mod_cast hb
  have ha1 : (2 : ℚ) ^ (ilog2 a) ≤ a := by
    exact_mod_cast (ilog2_spec a (Nat.pos_iff_ne_zero.mp ha)).1
  have ha2 : (a : ℚ) < (2 : ℚ) ^ (ilog2 a + 1) := by
    exact_mod_cast (ilog2_spec a (Nat.pos_iff_ne_zero.mp ha)).2
  have hb1 : (2 : ℚ) ^ (ilog2 b) ≤ b := by
    exact_mod_cast (ilog2_spec b (Nat.pos_iff_ne_zero.mp hb)).1
  have hb2 : (b : ℚ) < (2 : ℚ) ^ (ilog2 b + 1) := by
    exact_mod_cast (ilog2_spec b (Nat.pos_iff_ne_zero.mp hb)).2
  generalize ilog2 a = la at *
  generalize ilog2 b = lb at *
  have h2 : (2 : ℚ) ≠ 0 := two_ne_zero
  have hup : (a : ℚ) / b < (2 : ℚ) ^ ((la : ℤ) - (lb : ℤ) + 1) := by
    have : (2 : ℚ) ^ ((la : ℤ) - (lb : ℤ) + 1) = (2 : ℚ) ^ (la + 1) / (2 : ℚ) ^ lb := by
      rw [show ((la : ℤ) - (lb : ℤ) + 1) = ((la + 1 : ℕ) : ℤ) - ((lb : ℕ) : ℤ) by push_cast; ring,
        zpow_sub₀ h2, zpow_natCast, zpow_natCast]
    rw [this]
    exact div_lt_div₀ ha2 hb1 (by positivity) (by positivity)
  have hlow : (2 : ℚ) ^ ((la : ℤ) - (lb : ℤ) - 1) ≤ (a : ℚ) / b := by
    have : (2 : ℚ) ^ ((la : ℤ) - (lb : ℤ) - 1) = (2 : ℚ) ^ la / (2 : ℚ) ^ (lb + 1) := by
      rw [show ((la : ℤ) - (lb : ℤ) - 1) = ((la : ℕ) : ℤ) - ((lb + 1 : ℕ) : ℤ) by push_cast; ring,
        zpow_sub₀ h2, zpow_natCast, zpow_natCast]
    rw [this]
    exact div_le_div₀ (le_of_lt haq) ha1 hbq (le_of_lt hb2)
  generalize ((la : ℤ) - (lb : ℤ)) = e0 at *
  have hsub : e0 - 1 + 1 = e0 := by ring
  split_ifs with h0 h1 h1
  · refine ⟨?_, hup⟩
    have h1q : (b : ℚ) * (2 : ℚ) ^ e0.toNat ≤ a := by exact_mod_cast h1
    rw [zpow_toNat_of_nonneg e0 h0] at h1q
    rw [le_div_iff₀ hbq]; linarith
  · refine ⟨hlow, ?_⟩
    rw [hsub]
    have h1q : (a : ℚ) < (b : ℚ) * (2 : ℚ) ^ e0.toNat := by exact_mod_cast not_le.mp h1
    rw [zpow_toNat_of_nonneg e0 h0] at h1q
    rw [div_lt_iff₀ hbq]; linarith
  · refine ⟨?_, hup⟩
    have h1q : (b : ℚ) ≤ a * (2 : ℚ) ^ (-e0).toNat := by exact_mod_cast h1
    rw [zpow_toNat_of_nonneg (-e0) (by omega), zpow_neg] at h1q
    have hp : (0 : ℚ) < (2 : ℚ) ^ e0 := by positivity
    rw [le_div_iff₀ hbq]
    have := mul_le_mul_of_nonneg_right h1q (le_of_lt hp)
    rw [mul_assoc, inv_mul_cancel₀ (ne_of_gt hp), mul_one] at this
    linarith
  · refine ⟨hlow, ?_⟩
    rw [hsub]
    have h1q : (a : ℚ) * (2 : ℚ) ^ (-e0).toNat < b := by exact_mod_cast not_le.mp h1
    rw [zpow_toNat_of_nonneg (-e0) (by omega), zpow_neg] at h1q
    have hp : (0 : ℚ) < (2 : ℚ) ^ e0 := by positivity
    rw [div_lt_iff₀ hbq]
    have := mul_lt_mul_of_pos_right h1q hp
    rw [mul_assoc, inv_mul_cancel₀ (ne_of_gt hp), mul_one] at this
    linarith

theorem nat_le_of_lt_add_half (m n : ℕ) (h : (m : ℚ) < (n : ℚ) + 1 / 2) : m ≤ n := by
  by_contra hc
  have h1 : n + 1 ≤ m := by omega
  have h2 : ((n + 1 : ℕ) : ℚ) ≤ (m : ℚ) := by exact_mod_cast h1
  push_cast at h2
  linarith

theorem nat_le_of_sub_half_le (m n : ℕ) (h : (n : ℚ) - 1 / 2 ≤ (m : ℚ)) : n ≤ m := by
  by_contra hc
  have h1 : m + 1 ≤ n := by omega
  have h2 : ((m + 1 : ℕ) : ℚ) ≤ (n : ℚ) := by exact_mod_cast h1
  push_cast at h2
  linarith

theorem zpow_two_natCast (n : ℕ) : (2 : ℚ) ^ (n : ℤ) = ((2 ^ n : ℕ) : ℚ) := by
  rw [zpow_natCast]; push_cast; rfl

theorem round_core_upper (q : ℚ) (e s : ℤ) (m : ℕ)
    (hq2 : q < (2 : ℚ) ^ (e + 1)) (hs : s = min (52 - e) 1074)
    (hm : |q * (2 : ℚ) ^ s - m| ≤ 1 / 2) : m ≤ 2 ^ 53 := by
  have hp : (0 : ℚ) < (2 : ℚ) ^ s := by positivity
  have h1 : q * (2 : ℚ) ^ s < (2 : ℚ) ^ (e + 1 + s) := by
    rw [zpow_add₀ (two_ne_zero)]
    exact mul_lt_mul_of_pos_right hq2 hp
  have h2 : (2 : ℚ) ^ (e + 1 + s) ≤ (2 : ℚ) ^ ((53 : ℕ) : ℤ) := by
    apply zpow_le_zpow_right₀ (by norm_num)
    have : s ≤ 52 - e := by rw [hs]; exact min_le_left _ _
    push_cast; omega
  rw [zpow_two_natCast] at h2
  have h3 := (abs_le.mp hm).1
  apply nat_le_of_lt_add_half
  generalize ((2 ^ 53 : ℕ) : ℚ) = Y at *
  linarith

theorem round_core_lower (q : ℚ) (e s : ℤ) (m : ℕ)
    (hq1 : (2 : ℚ) ^ e ≤ q) (hs : s = 52 - e)
    (hm : |q * (2 : ℚ) ^ s - m| ≤ 1 / 2) : 2 ^ 52 ≤ m := by
  have hp : (0 : ℚ) < (2 : ℚ) ^ s := by positivity
  have h1 : (2 : ℚ) ^ (e + s) ≤ q * (2 : ℚ) ^ s := by
    rw [zpow_add₀ (two_ne_zero)]
    exact mul_le_mul_of_nonneg_right hq1 (le_of_lt hp)
  have h2 : (2 : ℚ) ^ (e + s) = (2 : ℚ) ^ ((52 : ℕ) : ℤ) := by
    congr 1; push_cast; omega
  rw [h2, zpow_two_natCast] at h1
  have h3 := (abs_le.mp hm).2
  apply nat_le_of_sub_half_le
  generalize ((2 ^ 52 : ℕ) : ℚ) = Y at *
  linarith

theorem scaled_back (q : ℚ) (s : ℤ) : q * (2 : ℚ) ^ s * (2 : ℚ) ^ (-s) = q := by
  rw [mul_assoc, ← zpow_add₀ (two_ne_zero), add_neg_cancel, zpow_zero, mul_one]

theorem round_core_multiples (q : ℚ) (s : ℤ) (m : ℕ)
    (hm : |q * (2 : ℚ) ^ s - m| ≤ 1 / 2) (k : ℤ) :
    |q - (m : ℚ) * (2 : ℚ) ^ (-s)| ≤ |q - (k : ℚ) * (2 : ℚ) ^ (-s)| := by
  have hp : (0 : ℚ) < (2 : ℚ) ^ (-s) := by positivity
  have e1 : q - (m : ℚ) * (2 : ℚ) ^ (-s) = (q * (2 : ℚ) ^ s - m) * (2 : ℚ) ^ (-s) := by
    rw [sub_mul, scaled_back]
  have e2 : q - (k : ℚ) * (2 : ℚ) ^ (-s) = (q * (2 : ℚ) ^ s - k) * (2 : ℚ) ^ (-s) := by
    rw [sub_mul, scaled_back]
  rw [e1, e2, abs_mul, abs_mul, abs_of_pos hp]
  apply mul_le_mul_of_nonneg_right _ (le_of_lt hp)
  have := nearest_of_half (q * (2 : ℚ) ^ s) (m : ℤ) k (by simpa using hm)
  simpa using this



theorem two_zpow_pos (e : ℤ) : (0 : ℚ) < (2 : ℚ) ^ e := zpow_pos (by norm_num) e

theorem normal_spacing (e s : ℤ) (hs : s = min (52 - e) 1074) (h : s < 1074) : s = 52 - e := by
  rcases min_choice (52 - e) 1074 with h1 | h1
  · rw [hs]; exact h1
  · rw [h1] at hs; omega

theorem round_core_dichotomy (q : ℚ) (e s : ℤ) (m : ℕ)
    (hq1 : (2 : ℚ) ^ e ≤ q) (hs : s = min (52 - e) 1074)
    (hm : |q * (2 : ℚ) ^ s - m| ≤ 1 / 2) (y : ℚ) (hy : IsBinary64 y) :
    (∃ k : ℤ, y = (k : ℚ) * (2 : ℚ) ^ (-s)) ∨
      |q - (m : ℚ) * (2 : ℚ) ^ (-s)| < |q - y| := by
  have hq0 : (0 : ℚ) < q := lt_of_lt_of_le (by positivity) hq1
  obtain ⟨M, E, hM, hE1, hE2, hyv⟩ := hy
  rcases lt_trichotomy y 0 with hneg | hz | hpos
  · right
    have h0 := round_core_multiples q s m hm 0
    simp only [Int.cast_zero, zero_mul, sub_zero] at h0
    rw [abs_of_pos hq0] at h0
    have : |q - y| = q - y := abs_of_pos (by linarith)
    rw [this]; linarith
  · left; exact ⟨0, by simp [hz]⟩
  · rw [abs_of_pos hpos] at hyv
    by_cases hE : -s ≤ E
    · left
      refine ⟨((M * 2 ^ (E + s).toNat : ℕ) : ℤ), ?_⟩
      rw [hyv]
      push_cast
      rw [mul_assoc, ← zpow_natCast, Int.toNat_of_nonneg (by omega), ← zpow_add₀ two_ne_zero]
      congr 2; ring
    · right
      have hs2 : s = 52 - e := normal_spacing e s hs (by omega)
      have hyl : y < (2 : ℚ) ^ e := by
        rw [hyv]
        have hMq : (M : ℚ) < (2 : ℚ) ^ ((53 : ℕ) : ℤ) := by
          rw [zpow_two_natCast]; exact_mod_cast hM
        calc (M : ℚ) * (2 : ℚ) ^ E < (2 : ℚ) ^ ((53 : ℕ) : ℤ) * (2 : ℚ) ^ E :=
              mul_lt_mul_of_pos_right hMq (by positivity)
          _ = (2 : ℚ) ^ (((53 : ℕ) : ℤ) + E) := (zpow_add₀ two_ne_zero _ _).symm
          _ ≤ (2 : ℚ) ^ e := zpow_le_zpow_right₀ (by norm_num) (by push_cast; omega)
      have h0 := round_core_multiples q s m hm ((2 ^ 52 : ℕ) : ℤ)
      have hk : (((2 ^ 52 : ℕ) : ℤ) : ℚ) * (2 : ℚ) ^ (-s) = (2 : ℚ) ^ e := by
        rw [Int.cast_natCast, ← zpow_two_natCast, ← zpow_add₀ two_ne_zero]
        congr 1; push_cast; omega
      rw [hk, abs_of_nonneg (by linarith : (0 : ℚ) ≤ q - (2 : ℚ) ^ e)] at h0
      rw [abs_of_pos (by linarith : (0 : ℚ) < q - y)]
      linarith

theorem round_core_binary64 (q : ℚ) (e s : ℤ) (m : ℕ)
    (hq1 : (2 : ℚ) ^ e ≤ q) (hq2 : q < (2 : ℚ) ^ (e + 1)) (hs : s = min (52 - e) 1074)
    (hm : |q * (2 : ℚ) ^ s - m| ≤ 1 / 2)
    (hno : ¬ (s < 0 ∧ (2 : ℚ) ^ 1024 ≤ (m : ℚ) * (2 : ℚ) ^ (-s))) :
    IsBinary64 ((m : ℚ) * (2 : ℚ) ^ (-s)) := by
  have h1024 : (2 : ℚ) ^ 1024 = (2 : ℚ) ^ ((1024 : ℕ) : ℤ) := (zpow_natCast _ _).symm
  rw [h1024] at hno
  clear h1024
  have hup := round_core_upper q e s m hq2 hs hm
  have hv0 : (0 : ℚ) ≤ (m : ℚ) * (2 : ℚ) ^ (-s) :=
    mul_nonneg (Nat.cast_nonneg _) (le_of_lt (two_zpow_pos _))
  have hs1 : s ≤ 1074 := by rw [hs]; exact min_le_right _ _
  rcases Nat.lt_or_ge m (2 ^ 53) with hlt | hge
  · refine ⟨m, -s, hlt, by omega, ?_, abs_of_nonneg hv0⟩
    by_contra hc
    push_neg at hc
    apply hno
    refine ⟨by omega, ?_⟩
    have hs2 : s = 52 - e := normal_spacing e s hs (by omega)
    have hlow := round_core_lower q e s m hq1 hs2 hm
    have hl : (2 : ℚ) ^ ((52 : ℕ) : ℤ) ≤ m := by
      rw [zpow_two_natCast]; exact_mod_cast hlow
    calc (2 : ℚ) ^ ((1024 : ℕ) : ℤ) ≤ (2 : ℚ) ^ (((52 : ℕ) : ℤ) + -s) :=
          zpow_le_zpow_right₀ (by norm_num) (by push_cast; omega)
      _ = (2 : ℚ) ^ ((52 : ℕ) : ℤ) * (2 : ℚ) ^ (-s) := zpow_add₀ two_ne_zero _ _
      _ ≤ (m : ℚ) * (2 : ℚ) ^ (-s) := mul_le_mul_of_nonneg_right hl (le_of_lt (two_zpow_pos _))
  · have hm53 : m = 2 ^ 53 := le_antisymm hup hge
    refine ⟨2 ^ 52, -s + 1, by norm_num, by omega, ?_, ?_⟩
    · by_contra hc
      push_neg at hc
      apply hno
      refine ⟨by omega, ?_⟩
      rw [hm53]
      calc (2 : ℚ) ^ ((1024 : ℕ) : ℤ) ≤ (2 : ℚ) ^ (((53 : ℕ) : ℤ) + -s) :=
            zpow_le_zpow_right₀ (by norm_num) (by push_cast; omega)
        _ = (2 : ℚ) ^ ((53 : ℕ) : ℤ) * (2 : ℚ) ^ (-s) := zpow_add₀ two_ne_zero _ _
        _ = ((2 ^ 53 : ℕ) : ℚ) * (2 : ℚ) ^ (-s) := by rw [zpow_two_natCast]
    · rw [abs_of_nonneg hv0, hm53, ← zpow_two_natCast, ← zpow_two_natCast,
        ← zpow_add₀ two_ne_zero, ← zpow_add₀ two_ne_zero]
      congr 1; push_cast; ring

theorem round_core_tie (q : ℚ) (e s : ℤ) (m : ℕ)
    (hq1 : (2 : ℚ) ^ e ≤ q) (hs : s = min (52 - e) 1074)
    (hm : |q * (2 : ℚ) ^ s - m| ≤ 1 / 2)
    (hpar : |q * (2 : ℚ) ^ s - m| = 1 / 2 → m % 2 = 0)
    (y : ℚ) (hy : IsBinary64 y) (hne : y ≠ (m : ℚ) * (2 : ℚ) ^ (-s))
    (htie : |q - y| = |q - (m : ℚ) * (2 : ℚ) ^ (-s)|) :
    ∃ k : ℤ, (m : ℚ) * (2 : ℚ) ^ (-s) = (k : ℚ) * (2 * (y - (m : ℚ) * (2 : ℚ) ^ (-s))) := by
  rcases round_core_dichotomy q e s m hq1 hs hm y hy with ⟨k, hk⟩ | hlt
  swap
  · rw [htie] at hlt; exact absurd hlt (lt_irrefl _)
  have hp : (0 : ℚ) < (2 : ℚ) ^ (-s) := by positivity
  have hkm : k ≠ (m : ℤ) := by
    rintro rfl
    apply hne; rw [hk]; simp
  have e1 : q - (m : ℚ) * (2 : ℚ) ^ (-s) = (q * (2 : ℚ) ^ s - m) * (2 : ℚ) ^ (-s) := by
    rw [sub_mul, scaled_back]
  have e2 : q - (k : ℚ) * (2 : ℚ) ^ (-s) = (q * (2 : ℚ) ^ s - k) * (2 : ℚ) ^ (-s) := by
    rw [sub_mul, scaled_back]
  rw [hk, e1, e2, abs_mul, abs_mul, abs_of_pos hp] at htie
  have htie2 : |q * (2 : ℚ) ^ s - k| = |q * (2 : ℚ) ^ s - m| :=
    mul_right_cancel₀ (ne_of_gt hp) htie
  generalize q * (2 : ℚ) ^ s = Q at *
  have hsplit : (k : ℚ) - m = (Q - m) - (Q - k) := by ring
  have hd1 : |k - (m : ℤ)| = 1 := by
    have h1 : |k - (m : ℤ)| ≤ 1 := by
      have hd : |(k : ℚ) - m| ≤ 1 := by
        rw [hsplit]
        calc |(Q - m) - (Q - k)| ≤ |Q - m| + |Q - k| := abs_sub _ _
          _ ≤ 1 := by rw [htie2]; linarith
      have : ((|k - (m : ℤ)| : ℤ) : ℚ) ≤ 1 := by simpa using hd
      exact_mod_cast this
    have h2 : 1 ≤ |k - (m : ℤ)| := Int.one_le_abs (sub_ne_zero.mpr hkm)
    omega
  have hhalf : |Q - m| = 1 / 2 := by
    have h3 : |(k : ℚ) - m| = 1 := by
      have : ((|k - (m : ℤ)| : ℤ) : ℚ) = 1 := by rw [hd1]; simp
      simpa using this
    have : (1 : ℚ) ≤ |Q - m| + |Q - k| := by
      calc (1 : ℚ) = |(k : ℚ) - m| := h3.symm
        _ = |(Q - m) - (Q - k)| := by rw [hsplit]
        _ ≤ |Q - m| + |Q - k| := abs_sub _ _
    rw [htie2] at this; linarith
  have hev := hpar hhalf
  obtain ⟨j, hj⟩ : ∃ j, m = 2 * j := ⟨m / 2, by omega⟩
  have hsq : ((k : ℚ) - m) * ((k : ℚ) - m) = 1 := by
    have : (k - (m : ℤ)) * (k - (m : ℤ)) = 1 := by
      rcases (abs_eq (by norm_num : (0 : ℤ) ≤ 1)).mp hd1 with h | h <;> rw [h] <;> norm_num
    exact_mod_cast this
  refine ⟨(j : ℤ) * (k - (m : ℤ)), ?_⟩
  rw [hk]
  have hmj : (m : ℚ) = 2 * (j : ℚ) := by rw [hj]; push_cast; ring
  push_cast
  linear_combination (-(m : ℚ) * (2 : ℚ) ^ (-s)) * hsq + ((2 : ℚ) ^ (-s) * ((k : ℚ) - m) * ((k : ℚ) - m) - (2 : ℚ) ^ (-s) * 0) * hmj

theorem threshold_gt : (2 : ℚ) ^ ((1023 : ℕ) : ℤ) <
    (2 : ℚ) ^ ((1024 : ℕ) : ℤ) - (2 : ℚ) ^ ((970 : ℕ) : ℤ) := by
  have h1 : (2 : ℚ) ^ ((1024 : ℕ) : ℤ) = 2 * (2 : ℚ) ^ ((1023 : ℕ) : ℤ) := by
    rw [show ((1024 : ℕ) : ℤ) = ((1023 : ℕ) : ℤ) + 1 by norm_num, zpow_add_one₀ two_ne_zero]
    ring
  have h2 : (2 : ℚ) ^ ((970 : ℕ) : ℤ) < (2 : ℚ) ^ ((1023 : ℕ) : ℤ) :=
    zpow_lt_zpow_right₀ (by norm_num) (by norm_num)
  rw [h1]; linarith

theorem threshold_scaled : ((2 : ℚ) ^ ((1024 : ℕ) : ℤ) - (2 : ℚ) ^ ((970 : ℕ) : ℤ)) *
    (2 : ℚ) ^ (-971 : ℤ) = ((2 ^ 53 : ℕ) : ℚ) - 1 / 2 := by
  rw [sub_mul, ← zpow_add₀ two_ne_zero, ← zpow_add₀ two_ne_zero, ← zpow_two_natCast]
  have h1 : ((1024 : ℕ) : ℤ) + (-971) = ((53 : ℕ) : ℤ) := by norm_num
  have h2 : ((970 : ℕ) : ℤ) + (-971) = -1 := by norm_num
  rw [h1, h2, zpow_neg_one]
  norm_num

theorem round_core_below (q : ℚ) (e s : ℤ) (m : ℕ)
    (hq1 : (2 : ℚ) ^ e ≤ q) (hq2 : q < (2 : ℚ) ^ (e + 1)) (hs : s = min (52 - e) 1074)
    (hm : |q * (2 : ℚ) ^ s - m| ≤ 1 / 2)
    (hpar : |q * (2 : ℚ) ^ s - m| = 1 / 2 → m % 2 = 0)
    (hno : ¬ (s < 0 ∧ (2 : ℚ) ^ ((1024 : ℕ) : ℤ) ≤ (m : ℚ) * (2 : ℚ) ^ (-s))) :
    q < (2 : ℚ) ^ ((1024 : ℕ) : ℤ) - (2 : ℚ) ^ ((970 : ℕ) : ℤ) := by
  by_contra hc
  push_neg at hc
  have h1023 : (2 : ℚ) ^ ((1023 : ℕ) : ℤ) < (2 : ℚ) ^ (e + 1) :=
    lt_trans (lt_of_lt_of_le threshold_gt hc) hq2
  have he : ((1023 : ℕ) : ℤ) < e + 1 := (zpow_lt_zpow_iff_right₀ (by norm_num)).mp h1023
  have hs2 : s = 52 - e := by
    apply normal_spacing e s hs
    have : s ≤ 52 - e := by rw [hs]; exact min_le_left _ _
    push_cast at he; omega
  have hlow := round_core_lower q e s m hq1 hs2 hm
  have hl : (2 : ℚ) ^ ((52 : ℕ) : ℤ) ≤ m := by
    rw [zpow_two_natCast]; exact_mod_cast hlow
  apply hno
  refine ⟨by push_cast at he; omega, ?_⟩
  by_cases he2 : e = 1023
  · have hs3 : s = -971 := by omega
    subst hs3
    have hp : (0 : ℚ) < (2 : ℚ) ^ (-971 : ℤ) := two_zpow_pos _
    have hQ := mul_le_mul_of_nonneg_right hc (le_of_lt hp)
    rw [threshold_scaled] at hQ
    have hm1 := (abs_le.mp hm).2
    have hm2 : 2 ^ 53 - 1 ≤ m := by
      apply nat_le_of_sub_half_le
      have hc1 : ((2 ^ 53 - 1 : ℕ) : ℚ) = ((2 ^ 53 : ℕ) : ℚ) - 1 := by
        rw [Nat.cast_sub (by norm_num)]; norm_num
      rw [hc1]
      generalize ((2 ^ 53 : ℕ) : ℚ) = Y at *
      linarith
    have hm3 : 2 ^ 53 ≤ m := by
      rcases Nat.eq_or_lt_of_le hm2 with h | h
      · exfalso
        have hhalf : |q * (2 : ℚ) ^ (-971 : ℤ) - m| = 1 / 2 := by
          apply le_antisymm hm
          have hc1 : ((2 ^ 53 - 1 : ℕ) : ℚ) = ((2 ^ 53 : ℕ) : ℚ) - 1 := by
            rw [Nat.cast_sub (by norm_num)]; norm_num
          have : (1 : ℚ) / 2 ≤ q * (2 : ℚ) ^ (-971 : ℤ) - m := by
            rw [← h, hc1]
            generalize ((2 ^ 53 : ℕ) : ℚ) = Y at *
            linarith
          exact le_trans this (le_abs_self _)
        have := hpar hhalf
        rw [← h] at this
        revert this
        norm_num
      · omega
    have hm4 : (2 : ℚ) ^ ((53 : ℕ) : ℤ) ≤ m := by
      rw [zpow_two_natCast]; exact_mod_cast hm3
    calc (2 : ℚ) ^ ((1024 : ℕ) : ℤ) = (2 : ℚ) ^ (((53 : ℕ) : ℤ) + - -971) := by
          congr 1
      _ = (2 : ℚ) ^ ((53 : ℕ) : ℤ) * (2 : ℚ) ^ (- -971 : ℤ) := zpow_add₀ two_ne_zero _ _
      _ ≤ (m : ℚ) * (2 : ℚ) ^ (- -971 : ℤ) :=
          mul_le_mul_of_nonneg_right hm4 (le_of_lt (two_zpow_pos _))
  · calc (2 : ℚ) ^ ((1024 : ℕ) : ℤ) ≤ (2 : ℚ) ^ (((52 : ℕ) : ℤ) + -s) :=
          zpow_le_zpow_right₀ (by norm_num) (by push_cast at he ⊢; omega)
      _ = (2 : ℚ) ^ ((52 : ℕ) : ℤ) * (2 : ℚ) ^ (-s) := zpow_add₀ two_ne_zero _ _
      _ ≤ (m : ℚ) * (2 : ℚ) ^ (-s) := mul_le_mul_of_nonneg_right hl (le_of_lt (two_zpow_pos _))

theorem round_core_overflow (q : ℚ) (e s : ℤ) (m : ℕ)
    (hq1 : (2 : ℚ) ^ e ≤ q) (hs : s = min (52 - e) 1074)
    (hm : |q * (2 : ℚ) ^ s - m| ≤ 1 / 2)
    (hov : s < 0 ∧ (2 : ℚ) ^ ((1024 : ℕ) : ℤ) ≤ (m : ℚ) * (2 : ℚ) ^ (-s)) :
    (2 : ℚ) ^ ((1024 : ℕ) : ℤ) - (2 : ℚ) ^ ((970 : ℕ) : ℤ) ≤ q := by
  obtain ⟨hs0, hov⟩ := hov
  have hs2 : s = 52 - e := normal_spacing e s hs (by omega)
  have h970 : (0 : ℚ) < (2 : ℚ) ^ ((970 : ℕ) : ℤ) := two_zpow_pos _
  by_cases he : 1024 ≤ e
  · have : (2 : ℚ) ^ ((1024 : ℕ) : ℤ) ≤ (2 : ℚ) ^ e :=
      zpow_le_zpow_right₀ (by norm_num) (by push_cast; omega)
    linarith
  · have hp : (0 : ℚ) < (2 : ℚ) ^ (-s) := two_zpow_pos _
    have hP : (2 : ℚ) ^ (-s) ≤ 2 * (2 : ℚ) ^ ((970 : ℕ) : ℤ) := by
      have h1 : (2 : ℚ) ^ (-s) ≤ (2 : ℚ) ^ (((970 : ℕ) : ℤ) + 1) :=
        zpow_le_zpow_right₀ (by norm_num) (by push_cast; omega)
      rw [zpow_add_one₀ two_ne_zero] at h1
      linarith
    have hm1 := (abs_le.mp hm).1
    have hq : q = q * (2 : ℚ) ^ s * (2 : ℚ) ^ (-s) := (scaled_back q s).symm
    have h2 : ((m : ℚ) - 1 / 2) * (2 : ℚ) ^ (-s) ≤ q * (2 : ℚ) ^ s * (2 : ℚ) ^ (-s) :=
      mul_le_mul_of_nonneg_right (by linarith) (le_of_lt hp)
    rw [← hq, sub_mul] at h2
    generalize (2 : ℚ) ^ ((1024 : ℕ) : ℤ) = A at *
    generalize (2 : ℚ) ^ ((970 : ℕ) : ℤ) = B at *
    linarith

theorem roundBinary64_scaled (a b : ℕ) (hb : 0 < b) (s : ℤ) :
    |(a : ℚ) / b * (2 : ℚ) ^ s - ((if 0 ≤ s then roundHalfEven (a * 2 ^ s.toNat) b
        else roundHalfEven a (b * 2 ^ (-s).toNat) : ℕ) : ℚ)| ≤ 1 / 2 ∧
    (|(a : ℚ) / b * (2 : ℚ) ^ s - ((if 0 ≤ s then roundHalfEven (a * 2 ^ s.toNat) b
        else roundHalfEven a (b * 2 ^ (-s).toNat) : ℕ) : ℚ)| = 1 / 2 →
      (if 0 ≤ s then roundHalfEven (a * 2 ^ s.toNat) b
        else roundHalfEven a (b * 2 ^ (-s).toNat)) % 2 = 0) := by
  have hbq : (b : ℚ) ≠ 0 := by exact_mod_cast (Nat.pos_iff_ne_zero.mp hb)
  split_ifs with h0
  · have h := roundHalfEven_spec (a * 2 ^ s.toNat) b hb
    have he : ((a * 2 ^ s.toNat : ℕ) : ℚ) / b = (a : ℚ) / b * (2 : ℚ) ^ s := by
      push_cast
      rw [zpow_toNat_of_nonneg s h0]; ring
    rw [he] at h
    exact h
  · have hpos : 0 < b * 2 ^ (-s).toNat := Nat.mul_pos hb (pow_pos (by norm_num) _)
    have h := roundHalfEven_spec a (b * 2 ^ (-s).toNat) hpos
    have he : (a : ℚ) / ((b * 2 ^ (-s).toNat : ℕ) : ℚ) = (a : ℚ) / b * (2 : ℚ) ^ s := by
      push_cast
      rw [zpow_toNat_of_nonneg (-s) (by omega), zpow_neg]
      field_simp
    rw [he] at h
    exact h

theorem overflow_test_iff (n m : ℕ) (s : ℤ) (hs : s < 0) :
    2 ^ n ≤ m * 2 ^ (-s).toNat ↔
      (2 : ℚ) ^ ((n : ℕ) : ℤ) ≤ (m : ℚ) * (2 : ℚ) ^ (-s) := by
  rw [zpow_natCast, ← zpow_toNat_of_nonneg (-s) (by omega)]
  constructor
  · intro h
    have : ((2 ^ n : ℕ) : ℚ) ≤ ((m * 2 ^ (-s).toNat : ℕ) : ℚ) := Nat.cast_le.mpr h
    rw [Nat.cast_mul, Nat.cast_pow, Nat.cast_pow] at this
    exact this
  · intro h
    have : ((2 ^ n : ℕ) : ℚ) ≤ ((m * 2 ^ (-s).toNat : ℕ) : ℚ) := by
      rw [Nat.cast_mul, Nat.cast_pow, Nat.cast_pow]
      exact h
    exact Nat.cast_le.mp this

/-- The model's rounding is IEEE 754 rounding: a finite result is the nearest binary64
value, ties to even, of a ratio below the overflow threshold; there is no result only from
the threshold on. -/
theorem roundBinary64_spec (a b : ℕ) (ha : 0 < a) (hb : 0 < b) :
    (∀ m s, roundBinary64 a b = some (m, s) →
      (a : ℚ) / b < (2 : ℚ) ^ ((1024 : ℕ) : ℤ) - (2 : ℚ) ^ ((970 : ℕ) : ℤ) ∧
      IsNearestBinary64 ((a : ℚ) / b) ((m : ℚ) * (2 : ℚ) ^ (-s))) ∧
    (roundBinary64 a b = none →
      (2 : ℚ) ^ ((1024 : ℕ) : ℤ) - (2 : ℚ) ^ ((970 : ℕ) : ℤ) ≤ (a : ℚ) / b) := by
  obtain ⟨hq1, hq2⟩ := floorLog2_spec a b ha hb
  have hsc := roundBinary64_scaled a b hb (min (52 - floorLog2 a b) 1074)
  unfold roundBinary64
  simp only []
  generalize floorLog2 a b = e at *
  generalize hs : min (52 - e) 1074 = s at *
  generalize (if 0 ≤ s then roundHalfEven (a * 2 ^ s.toNat) b
        else roundHalfEven a (b * 2 ^ (-s).toNat)) = m0 at *
  obtain ⟨hm, hpar⟩ := hsc
  generalize (a : ℚ) / b = q at *
  constructor
  · intro m s1 h
    split_ifs at h with hov
    simp only [Option.some.injEq, Prod.mk.injEq] at h
    obtain ⟨rfl, rfl⟩ := h
    have hno : ¬ (s < 0 ∧ (2 : ℚ) ^ ((1024 : ℕ) : ℤ) ≤ (m0 : ℚ) * (2 : ℚ) ^ (-s)) := by
      rintro ⟨h1, h2⟩
      exact hov ⟨h1, (overflow_test_iff 1024 m0 s h1).mpr h2⟩
    have hno2 : ¬ (s < 0 ∧ (2 : ℚ) ^ 1024 ≤ (m0 : ℚ) * (2 : ℚ) ^ (-s)) := by
      rw [← zpow_natCast]; exact hno
    refine ⟨round_core_below q e s m0 hq1 hq2 hs.symm hm hpar hno,
      round_core_binary64 q e s m0 hq1 hq2 hs.symm hm hno2, ?_, ?_⟩
    · intro y hy
      rcases round_core_dichotomy q e s m0 hq1 hs.symm hm y hy with ⟨k, hk⟩ | hlt
      · rw [hk]; exact round_core_multiples q s m0 hm k
      · exact le_of_lt hlt
    · intro y hy hne htie
      exact round_core_tie q e s m0 hq1 hs.symm hm hpar y hy hne htie
  · intro h
    split_ifs at h with hov
    exact round_core_overflow q e s m0 hq1 hs.symm hm
      ⟨hov.1, (overflow_test_iff 1024 m0 s hov.1).mp hov.2⟩

theorem dyadicToNum_value (neg : Bool) (m : ℕ) (s : ℤ) :
    ∃ n e, dyadicToNum neg m s = JsNum.fin neg n e ∧
      (n : ℚ) * (10 : ℚ) ^ e = (m : ℚ) * (2 : ℚ) ^ (-s) := by
  unfold dyadicToNum
  split_ifs with h0
  · simp only []
    refine ⟨_, _, rfl, ?_⟩
    obtain ⟨j, hj, hg⟩ := (Nat.dvd_prime_pow Nat.prime_two).mp
      (Nat.gcd_dvd_right m (2 ^ s.toNat))
    have hgm : Nat.gcd m (2 ^ s.toNat) ∣ m := Nat.gcd_dvd_left _ _
    rw [hg] at hgm ⊢
    rw [Nat.pow_div hj (by norm_num), ilog2_two_pow]
    have hjq : ((2 ^ j : ℕ) : ℚ) ≠ 0 := by positivity
    rw [Nat.cast_mul, Nat.cast_div hgm hjq, zpow_neg, zpow_neg, ← zpow_toNat_of_nonneg s h0]
    have hn : (2 : ℚ) ^ s.toNat = (2 : ℚ) ^ j * (2 : ℚ) ^ (s.toNat - j) := by
      rw [← pow_add]; congr 1; omega
    have h10 : (10 : ℚ) ^ (Int.ofNat (s.toNat - j)) =
        (2 : ℚ) ^ (s.toNat - j) * (5 : ℚ) ^ (s.toNat - j) := by
      rw [Int.ofNat_eq_coe, zpow_natCast, ← mul_pow]; norm_num
    rw [hn, h10]
    push_cast
    field_simp
    ring
  · refine ⟨_, _, rfl, ?_⟩
    rw [zpow_zero, mul_one, ← zpow_toNat_of_nonneg (-s) (by omega)]
    push_cast
    rfl

theorem overflowThreshold_eq :
    overflowThreshold = (2 : ℚ) ^ ((1024 : ℕ) : ℤ) - (2 : ℚ) ^ ((970 : ℕ) : ℤ) := rfl

theorem overflowThreshold_pos : 0 < overflowThreshold := by
  rw [overflowThreshold_eq]
  exact lt_trans (two_zpow_pos _) threshold_gt

theorem IsBinary64_zero : IsBinary64 0 :=
  ⟨0, 0, by norm_num, by norm_num, by norm_num, by simp⟩

theorem IsBinary64_neg (y : ℚ) (h : IsBinary64 y) : IsBinary64 (-y) := by
  obtain ⟨m, e, h1, h2, h3, h4⟩ := h
  exact ⟨m, e, h1, h2, h3, by rw [abs_neg]; exact h4⟩

theorem IsNearestBinary64_neg (q v : ℚ) (h : IsNearestBinary64 q v) :
    IsNearestBinary64 (-q) (-v) := by
  obtain ⟨h1, h2, h3⟩ := h
  have e1 : -q - -v = -(q - v) := by ring
  refine ⟨IsBinary64_neg v h1, ?_, ?_⟩
  · intro y hy
    have := h2 (-y) (IsBinary64_neg y hy)
    have e2 : -q - y = -(q - -y) := by ring
    rw [e1, e2, abs_neg, abs_neg]; exact this
  · intro y hy hne htie
    have e2 : -q - y = -(q - -y) := by ring
    rw [e1, e2, abs_neg, abs_neg] at htie
    obtain ⟨k, hk⟩ := h3 (-y) (IsBinary64_neg y hy)
      (by intro h; apply hne; rw [← h]; ring) htie
    exact ⟨k, by linear_combination -hk⟩

theorem IsNearestBinary64_self (v : ℚ) (h : IsBinary64 v) : IsNearestBinary64 v v := by
  refine ⟨h, fun y _ => by rw [sub_self, abs_zero]; exact abs_nonneg _, ?_⟩
  intro y _ hne htie
  rw [sub_self, abs_zero, abs_eq_zero, sub_eq_zero] at htie
  exact absurd htie.symm hne

theorem abs_signRat_mul (neg : Bool) (x : ℚ) : |signRat neg * x| = |x| := by
  cases neg <;> simp [signRat]

theorem IsNearestBinary64_sign (neg : Bool) (q v : ℚ) (h : IsNearestBinary64 q v) :
    IsNearestBinary64 (signRat neg * q) (signRat neg * v) := by
  cases neg
  · simpa [signRat] using h
  · have := IsNearestBinary64_neg q v h
    simpa [signRat] using this

/-- The number `roundRatio` gives is the IEEE 754 rounding of the ratio. -/
theorem roundRatio_spec (neg : Bool) (a b : ℕ) (hb : 0 < b) :
    IsRoundedBinary64 (signRat neg * ((a : ℚ) / b)) (roundRatio neg a b) := by
  unfold roundRatio
  split_ifs with ha
  · subst ha
    simp only [IsRoundedBinary64, Nat.cast_zero, zero_div, mul_zero, abs_zero, lt_irrefl,
      false_implies, true_and, zero_mul]
    exact ⟨overflowThreshold_pos, IsNearestBinary64_self 0 IsBinary64_zero⟩
  · have ha0 : 0 < a := Nat.pos_of_ne_zero ha
    have hq0 : (0 : ℚ) < (a : ℚ) / b := by
      have h1 : (0 : ℚ) < a := by exact_mod_cast ha0
      have h2 : (0 : ℚ) < b := by exact_mod_cast hb
      exact div_pos h1 h2
    obtain ⟨hsome, hnone⟩ := roundBinary64_spec a b ha0 hb
    rw [← overflowThreshold_eq] at hsome hnone
    generalize (a : ℚ) / b = q at *
    rcases hr : roundBinary64 a b with _ | ⟨m, s⟩
    · simp only [IsRoundedBinary64]
      rw [abs_signRat_mul, abs_of_pos hq0]
      refine ⟨hnone hr, ?_⟩
      cases neg
      · simp [signRat, le_of_lt hq0]
      · simp [signRat, hq0]
    · obtain ⟨hlt, hnear⟩ := hsome m s hr
      obtain ⟨n, e, hd, hval⟩ := dyadicToNum_value neg m s
      simp only [hd, IsRoundedBinary64]
      rw [abs_signRat_mul, abs_of_pos hq0, mul_assoc, hval]
      refine ⟨hlt, ?_, ?_, IsNearestBinary64_sign neg q _ hnear⟩
      · cases neg
        · simp [signRat]; linarith
        · simp
      · cases neg
        · simp
        · simp [signRat]; linarith

theorem zpow_toNat_eq (x : ℚ) (e : ℤ) (h : 0 ≤ e) : x ^ e.toNat = x ^ e := by
  conv_rhs => rw [← Int.toNat_of_nonneg h]
  exact (zpow_natCast _ _).symm

/-- The number `roundNum` gives is the IEEE 754 rounding of the decimal value. -/
theorem roundNum_spec (neg : Bool) (m : ℕ) (e : ℤ) :
    IsRoundedBinary64 (signRat neg * (m : ℚ) * (10 : ℚ) ^ e) (roundNum (JsNum.fin neg m e)) := by
  unfold roundNum
  simp only []
  split_ifs with h
  · have := roundRatio_spec neg (m * 10 ^ e.toNat) 1 Nat.one_pos
    have hq : signRat neg * (((m * 10 ^ e.toNat : ℕ) : ℚ) / ((1 : ℕ) : ℚ)) =
        signRat neg * (m : ℚ) * (10 : ℚ) ^ e := by
      push_cast
      rw [div_one, zpow_toNat_eq 10 e h]; ring
    rw [hq] at this; exact this
  · have := roundRatio_spec neg m (10 ^ (-e).toNat) (pow_pos (by norm_num) _)
    have hq : signRat neg * ((m : ℚ) / ((10 ^ (-e).toNat : ℕ) : ℚ)) =
        signRat neg * (m : ℚ) * (10 : ℚ) ^ e := by
      push_cast
      rw [zpow_toNat_eq 10 (-e) (by omega), zpow_neg]
      field_simp
      ring
    rw [hq] at this; exact this

theorem signRat_xor (a b : Bool) : signRat (a != b) = signRat a / signRat b := by
  cases a <;> cases b <;> simp [signRat]

theorem signRat_ne_zero (a : Bool) : signRat a ≠ 0 := by
  cases a <;> simp [signRat]

/-- The quotient `divNum` gives for finite operands, the divisor not zero, is the IEEE 754
rounding of the exact quotient. -/
theorem divNum_spec (a b : Bool) (m1 m2 : ℕ) (e1 e2 : ℤ) (h2 : m2 ≠ 0) :
    IsRoundedBinary64
      ((signRat a * (m1 : ℚ) * (10 : ℚ) ^ e1) / (signRat b * (m2 : ℚ) * (10 : ℚ) ^ e2))
      (divNum (JsNum.fin a m1 e1) (JsNum.fin b m2 e2)) := by
  simp only [divNum, if_neg h2]
  have hpos : 0 < m2 * 10 ^ (e2 - min e1 e2).toNat :=
    Nat.mul_pos (Nat.pos_of_ne_zero h2) (pow_pos (by norm_num) _)
  have := roundRatio_spec (a != b) (m1 * 10 ^ (e1 - min e1 e2).toNat)
    (m2 * 10 ^ (e2 - min e1 e2).toNat) hpos
  have hq : signRat (a != b) * (((m1 * 10 ^ (e1 - min e1 e2).toNat : ℕ) : ℚ) /
      ((m2 * 10 ^ (e2 - min e1 e2).toNat : ℕ) : ℚ)) =
      (signRat a * (m1 : ℚ) * (10 : ℚ) ^ e1) / (signRat b * (m2 : ℚ) * (10 : ℚ) ^ e2) := by
    push_cast
    have h10 : (10 : ℚ) ≠ 0 := by norm_num
    have hm2 : (m2 : ℚ) ≠ 0 := by exact_mod_cast h2
    have hsb := signRat_ne_zero b
    rw [zpow_toNat_eq 10 _ (sub_nonneg.mpr (min_le_left e1 e2)),
      zpow_toNat_eq 10 _ (sub_nonneg.mpr (min_le_right e1 e2)),
      zpow_sub₀ h10, zpow_sub₀ h10, signRat_xor]
    have hz1 : (10 : ℚ) ^ (min e1 e2) ≠ 0 := zpow_ne_zero _ h10
    have hz2 : (10 : ℚ) ^ e2 ≠ 0 := zpow_ne_zero _ h10
    field_simp
    ring
  rw [hq] at this; exact this

theorem IsBinary64_lt_threshold (q : ℚ) (h : IsBinary64 q) : |q| < overflowThreshold := by
  obtain ⟨M, E, hM, _, hE, hq⟩ := h
  rw [hq, overflowThreshold_eq]
  have hMq : (M : ℚ) ≤ (2 : ℚ) ^ ((53 : ℕ) : ℤ) - 1 := by
    have h1 : M + 1 ≤ 2 ^ 53 := hM
    have h2 : ((M + 1 : ℕ) : ℚ) ≤ ((2 ^ 53 : ℕ) : ℚ) := Nat.cast_le.mpr h1
    rw [← zpow_two_natCast, Nat.cast_add, Nat.cast_one] at h2
    linarith
  have hE2 : (2 : ℚ) ^ E ≤ (2 : ℚ) ^ ((971 : ℕ) : ℤ) :=
    zpow_le_zpow_right₀ (by norm_num) (by push_cast; exact hE)
  have h53 : (0 : ℚ) ≤ (2 : ℚ) ^ ((53 : ℕ) : ℤ) - 1 := le_trans (Nat.cast_nonneg M) hMq
  have h1 : (M : ℚ) * (2 : ℚ) ^ E ≤ ((2 : ℚ) ^ ((53 : ℕ) : ℤ) - 1) * (2 : ℚ) ^ ((971 : ℕ) : ℤ) :=
    mul_le_mul hMq hE2 (le_of_lt (two_zpow_pos _)) h53
  have h2 : (2 : ℚ) ^ ((53 : ℕ) : ℤ) * (2 : ℚ) ^ ((971 : ℕ) : ℤ) = (2 : ℚ) ^ ((1024 : ℕ) : ℤ) := by
    rw [← zpow_add₀ two_ne_zero]; congr 1
  have h3 : (2 : ℚ) ^ ((970 : ℕ) : ℤ) < (2 : ℚ) ^ ((971 : ℕ) : ℤ) :=
    zpow_lt_zpow_right₀ (by norm_num) (by norm_num)
  rw [sub_mul, one_mul, h2] at h1
  linarith

/-- Rounding is exact on the binary64 values. -/
theorem IsRoundedBinary64_exact (q : ℚ) (x : JsNum) (h : IsRoundedBinary64 q x)
    (hq : IsBinary64 q) : x.toRat = some q := by
  cases x with
  | nan => exact absurd h id
  | inf neg => exact absurd (IsBinary64_lt_threshold q hq) (not_lt.mpr h.1)
  | fin neg m e =>
    obtain ⟨_, _, _, _, hnear, _⟩ := h
    have h0 := hnear q hq
    rw [sub_self, abs_zero] at h0
    have h1 := abs_eq_zero.mp (le_antisymm h0 (abs_nonneg _))
    simp only [JsNum.toRat, Option.some.injEq]
    linarith

/-! ## Objects: reading after writing -/

theorem Dict.get_cons {α : Type} (k1 : String) (v1 : α) (rest : Dict α) (k : String) :
    Dict.get ((k1, v1) :: rest) k = if k1 = k then some v1 else Dict.get rest k := rfl

theorem Dict.erase_cons {α : Type} (k1 : String) (v1 : α) (rest : Dict α) (k : String) :
    Dict.erase ((k1, v1) :: rest) k =
      if k1 = k then Dict.erase rest k else (k1, v1) :: Dict.erase rest k := by
  by_cases h : k1 = k <;> simp [Dict.erase, List.filter_cons, h]

theorem Dict.set_cons {α : Type} (k1 : String) (v1 : α) (rest : Dict α) (k : String) (v : α) :
    Dict.set ((k1, v1) :: rest) k v =
      if k1 = k then (k, v) :: rest else (k1, v1) :: Dict.set rest k v := rfl

theorem Dict.get_erase_self {α : Type} (o : Dict α) (k : String) :
    Dict.get (Dict.erase o k) k = none := by
  induction o with
  | nil => rfl
  | cons p rest ih =>
    obtain ⟨k1, v1⟩ := p
    rw [Dict.erase_cons]
    by_cases h : k1 = k
    · rw [if_pos h]; exact ih
    · rw [if_neg h, Dict.get_cons, if_neg h]; exact ih

theorem Dict.get_erase_ne {α : Type} (o : Dict α) (k x : String) (h : x ≠ k) :
    Dict.get (Dict.erase o k) x = Dict.get o x := by
  induction o with
  | nil => rfl
  | cons p rest ih =>
    obtain ⟨k1, v1⟩ := p
    rw [Dict.erase_cons]
    by_cases h1 : k1 = k
    · have h2 : ¬ k1 = x := fun e => h (e ▸ h1)
      rw [if_pos h1, Dict.get_cons, if_neg h2]; exact ih
    · rw [if_neg h1, Dict.get_cons, Dict.get_cons, ih]

theorem Dict.get_set_self {α : Type} (o : Dict α) (k : String) (v : α) :
    Dict.get (Dict.set o k v) k = some v := by
  induction o with
  | nil => simp [Dict.set, Dict.get]
  | cons p rest ih =>
    obtain ⟨k1, v1⟩ := p
    rw [Dict.set_cons]
    by_cases h : k1 = k
    · rw [if_pos h, Dict.get_cons, if_pos rfl]
    · rw [if_neg h, Dict.get_cons, if_neg h]; exact ih

theorem Dict.get_set_ne {α : Type} (o : Dict α) (k x : String) (v : α) (h : x ≠ k) :
    Dict.get (Dict.set o k v) x = Dict.get o x := by
  induction o with
  | nil => simp [Dict.set, Dict.get, Ne.symm h]
  | cons p rest ih =>
    obtain ⟨k1, v1⟩ := p
    rw [Dict.set_cons]
    by_cases h1 : k1 = k
    · have h2 : ¬ k1 = x := fun e => h (e ▸ h1)
      rw [if_pos h1, Dict.get_cons, Dict.get_cons, if_neg (Ne.symm h), if_neg h2]
    · rw [if_neg h1, Dict.get_cons, Dict.get_cons, ih]

theorem Dict.get_eq_none_of_not_mem {α : Type} (o : Dict α) (k : String)
    (h : k ∉ Dict.keys o) : Dict.get o k = none := by
  induction o with
  | nil => rfl
  | cons p rest ih =>
    obtain ⟨k1, v1⟩ := p
    simp only [Dict.keys, List.map_cons, List.mem_cons, not_or] at h
    have h1 : ¬ k1 = k := fun e => h.1 e.symm
    simpa [Dict.get, h1] using ih h.2

theorem Dict.mem_keys_of_get {α : Type} (o : Dict α) (k : String) (v : α)
    (h : Dict.get o k = some v) : k ∈ Dict.keys o := by
  by_contra hc
  rw [Dict.get_eq_none_of_not_mem o k hc] at h
  exact Option.noConfusion h

theorem Dict.get_of_mem {α : Type} (o : Dict α) (k : String) (v : α)
    (hnd : (Dict.keys o).Nodup) (h : (k, v) ∈ o) : Dict.get o k = some v := by
  induction o with
  | nil => cases h
  | cons p rest ih =>
    obtain ⟨k1, v1⟩ := p
    simp only [Dict.keys, List.map_cons, List.nodup_cons] at hnd
    rcases List.mem_cons.1 h with h1 | h1
    · cases h1
      simp [Dict.get]
    · have hk : k ∈ Dict.keys rest := List.mem_map.2 ⟨(k, v), h1, rfl⟩
      have h2 : ¬ k1 = k := fun e => hnd.1 (e ▸ hk)
      simpa [Dict.get, h2] using ih hnd.2 h1

theorem Dict.mem_of_get {α : Type} (o : Dict α) (k : String) (v : α)
    (h : Dict.get o k = some v) : (k, v) ∈ o := by
  induction o with
  | nil => cases h
  | cons p rest ih =>
    obtain ⟨k1, v1⟩ := p
    by_cases h1 : k1 = k
    · simp [Dict.get, h1] at h
      simp [h1, h]
    · simp [Dict.get, h1] at h
      exact List.mem_cons_of_mem _ (ih h)

theorem Dict.keys_erase_nodup {α : Type} (o : Dict α) (k : String)
    (hnd : (Dict.keys o).Nodup) : (Dict.keys (Dict.erase o k)).Nodup := by
  unfold Dict.keys Dict.erase
  exact (List.Nodup.sublist (List.Sublist.map _ (List.filter_sublist _)) hnd)

theorem Dict.keys_set {α : Type} (o : Dict α) (k : String) (v : α) :
    Dict.keys (Dict.set o k v) = if k ∈ Dict.keys o then Dict.keys o else Dict.keys o ++ [k] := by
  induction o with
  | nil => simp [Dict.set, Dict.keys]
  | cons p rest ih =>
    obtain ⟨k1, v1⟩ := p
    by_cases h : k1 = k
    · simp [Dict.set, h, Dict.keys]
    · have h2 : ¬ k = k1 := fun e => h e.symm
      simp only [Dict.keys] at ih
      simp only [Dict.set, h, Dict.keys, if_false, List.map_cons, List.mem_cons, h2, false_or, ih]
      split <;> simp

theorem Dict.keys_set_nodup {α : Type} (o : Dict α) (k : String) (v : α)
    (hnd : (Dict.keys o).Nodup) : (Dict.keys (Dict.set o k v)).Nodup := by
  rw [Dict.keys_set]
  split
  · exact hnd
  · rename_i h
    exact List.Nodup.append hnd (List.nodup_singleton k) (by simpa using h)

/-! ## Strings with a comma are not numbers -/

theorem isDigitOf_comma (base : Nat) : isDigitOf base ',' = false := rfl

theorem not_mem_of_all_digits (base : Nat) (ds : List Char)
    (h : ds.all (isDigitOf base) = true) : ',' ∉ ds := by
  intro hc
  have := List.all_eq_true.1 h ',' hc
  rw [isDigitOf_comma] at this
  exact Bool.noConfusion this

theorem not_mem_takeWhile_digits (cs : List Char) : ',' ∉ cs.takeWhile (isDigitOf 10) := by
  intro hc
  have := List.mem_takeWhile_imp hc
  rw [isDigitOf_comma] at this
  exact Bool.noConfusion this

theorem mem_dropWhile_of_not {p : Char → Bool} (c : Char) (hp : p c = false) (l : List Char)
    (h : c ∈ l) : c ∈ l.dropWhile p := by
  induction l with
  | nil => cases h
  | cons a rest ih =>
    rw [List.dropWhile_cons]
    by_cases ha : p a = true
    · rw [if_pos ha]
      rcases List.mem_cons.1 h with h1 | h1
      · rw [h1, ha] at hp; exact Bool.noConfusion hp
      · exact ih h1
    · rw [if_neg ha]; exact h

theorem mem_trimWs_comma (cs : List Char) (h : ',' ∈ cs) : ',' ∈ trimWs cs := by
  unfold trimWs
  rw [List.mem_reverse]
  apply mem_dropWhile_of_not _ rfl
  rw [List.mem_reverse]
  exact mem_dropWhile_of_not _ rfl _ h

theorem parseExponent_comma (cs : List Char) (h : ',' ∈ cs) : parseExponent cs = none := by
  cases cs with
  | nil => cases h
  | cons e rest =>
    simp only [parseExponent]
    by_cases he : e = 'e' ∨ e = 'E'
    · rw [if_pos he]
      have hne : ',' ≠ e := by
        rcases he with he | he <;> rw [he] <;> decide
      have hr : ',' ∈ rest := by
        rcases List.mem_cons.1 h with h1 | h1
        · exact absurd h1 hne
        · exact h1
      cases rest with
      | nil => rfl
      | cons s ds =>
        have hall : ¬ ((s :: ds).all (isDigitOf 10) = true) :=
          fun hh => not_mem_of_all_digits 10 _ hh hr
        by_cases hs : s = '+'
        · have hd : ',' ∈ ds := by
            rcases List.mem_cons.1 hr with h1 | h1
            · rw [hs] at h1; exact absurd h1 (by decide)
            · exact h1
          have : ¬ (ds ≠ [] ∧ ds.all (isDigitOf 10) = true) :=
            fun hh => not_mem_of_all_digits 10 _ hh.2 hd
          simp only [if_pos hs, if_neg this]
        · by_cases hm : s = '-'
          · have hd : ',' ∈ ds := by
              rcases List.mem_cons.1 hr with h1 | h1
              · rw [hm] at h1; exact absurd h1 (by decide)
              · exact h1
            have : ¬ (ds ≠ [] ∧ ds.all (isDigitOf 10) = true) :=
              fun hh => not_mem_of_all_digits 10 _ hh.2 hd
            simp only [if_neg hs, if_pos hm, if_neg this]
          · simp only [if_neg hs, if_neg hm, if_neg hall]
    · rw [if_neg he]

theorem parseUnsignedDecimal_comma (cs : List Char) (h : ',' ∈ cs) :
    parseUnsignedDecimal cs = none := by
  have hsplit := List.takeWhile_append_dropWhile (isDigitOf 10) cs
  have hdrop : ',' ∈ cs.dropWhile (isDigitOf 10) := mem_dropWhile_of_not _ rfl _ h
  unfold parseUnsignedDecimal
  cases hr : cs.dropWhile (isDigitOf 10) with
  | nil => rw [hr] at hdrop; cases hdrop
  | cons d r =>
    rw [hr] at hdrop
    by_cases hd : d = '.'
    · have hr2 : ',' ∈ r := by
        rcases List.mem_cons.1 hdrop with h1 | h1
        · rw [hd] at h1; exact absurd h1 (by decide)
        · exact h1
      have h3 : ',' ∈ r.dropWhile (isDigitOf 10) := mem_dropWhile_of_not _ rfl _ hr2
      simp only [hd, if_true, parseExponent_comma _ h3]
      split <;> rfl
    · simp only [if_neg hd, parseExponent_comma _ hdrop]
      split <;> rfl

theorem parseDecimal_comma (neg : Bool) (cs : List Char) (h : ',' ∈ cs) :
    parseDecimal neg cs = JsNum.nan := by
  unfold parseDecimal
  have hinf : ¬ cs = "Infinity".data := by
    intro e
    rw [e] at h
    exact absurd h (by decide)
  rw [if_neg hinf, parseUnsignedDecimal_comma cs h]

theorem parseRadix_comma (base : Nat) (ds : List Char) (h : ',' ∈ ds) :
    parseRadix base ds = JsNum.nan := by
  unfold parseRadix
  have : ¬ (ds ≠ [] ∧ ds.all (isDigitOf base) = true) :=
    fun hh => not_mem_of_all_digits base _ hh.2 h
  rw [if_neg this]

theorem stringToDecimal_comma (cs : List Char) (h : ',' ∈ cs) :
    stringToDecimal cs = JsNum.nan := by
  have ht := mem_trimWs_comma cs h
  unfold stringToDecimal
  cases hcs : trimWs cs with
  | nil => rw [hcs] at ht; cases ht
  | cons c rest =>
    rw [hcs] at ht
    cases rest with
    | nil => exact parseDecimal_comma _ _ ht
    | cons d rest =>
      have tail : ∀ (a : Char) (l : List Char), ',' ≠ a → ',' ∈ a :: l → ',' ∈ l := by
        intro a l hne hm
        rcases List.mem_cons.1 hm with h1 | h1
        · exact absurd h1 hne
        · exact h1
      have radix : ∀ (x y : Char), c = '0' ∧ (d = x ∨ d = y) → ',' ≠ x → ',' ≠ y →
          ',' ∈ rest := by
        intro x y hxy hx hy
        have hc : ',' ≠ c := by rw [hxy.1]; decide
        have hd : ',' ≠ d := by
          rcases hxy.2 with e | e <;> rw [e] <;> assumption
        exact tail d rest hd (tail c _ hc ht)
      simp only []
      split_ifs with h1 h2 h3 h4 h5
      · exact parseRadix_comma _ _ (radix _ _ h1 (by decide) (by decide))
      · exact parseRadix_comma _ _ (radix _ _ h2 (by decide) (by decide))
      · exact parseRadix_comma _ _ (radix _ _ h3 (by decide) (by decide))
      · exact parseDecimal_comma _ _ (tail c _ (by rw [h4]; decide) ht)
      · exact parseDecimal_comma _ _ (tail c _ (by rw [h5]; decide) ht)
      · exact parseDecimal_comma _ _ ht

/-- A string that contains a comma converts to `NaN`. -/
theorem stringToNumber_comma (cs : List Char) (h : ',' ∈ cs) :
    stringToNumber cs = JsNum.nan := by
  unfold stringToNumber
  rw [stringToDecimal_comma cs h]
  rfl

/-! ## Decimal numerals -/

theorem digitVal_digitChar (k : Nat) (hk : k < 10) :
    digitVal 10 (Nat.digitChar k) = some k ∧
      48 ≤ (Nat.digitChar k).toNat ∧ (Nat.digitChar k).toNat ≤ 57 := by
  interval_cases k <;> decide

theorem digitsVal_append_singleton (base : Nat) (pre : List Char) (c : Char) :
    digitsVal base (pre ++ [c]) = digitsVal base pre * base + (digitVal base c).getD 0 := by
  unfold digitsVal
  rw [List.foldl_append]
  rfl

/-- The digits `Nat.toDigitsCore` puts in front of its accumulator are decimal digit
characters, at least one, and denote the number. -/
theorem toDigitsCore_spec (fuel : Nat) : ∀ (n : Nat) (ds : List Char), n < fuel →
    ∃ pre, Nat.toDigitsCore 10 fuel n ds = pre ++ ds ∧ pre ≠ [] ∧
      (∀ c ∈ pre, 48 ≤ c.toNat ∧ c.toNat ≤ 57) ∧ digitsVal 10 pre = n := by
  induction fuel with
  | zero => intro n ds h; exact absurd h (Nat.not_lt_zero n)
  | succ f ih =>
    intro n ds h
    have hmod : n % 10 < 10 := Nat.mod_lt n (by norm_num)
    obtain ⟨hd1, hd2⟩ := digitVal_digitChar (n % 10) hmod
    simp only [Nat.toDigitsCore]
    split_ifs with h0
    · refine ⟨[Nat.digitChar (n % 10)], rfl, by simp, ?_, ?_⟩
      · intro c hc
        rw [List.mem_singleton] at hc
        rw [hc]; exact hd2
      · have : digitsVal 10 [Nat.digitChar (n % 10)] =
            0 * 10 + (digitVal 10 (Nat.digitChar (n % 10))).getD 0 := rfl
        rw [this, hd1]
        simp only [Option.getD_some]
        omega
    · obtain ⟨pre, hpre, _, hall, hval⟩ := ih (n / 10) (Nat.digitChar (n % 10) :: ds) (by omega)
      refine ⟨pre ++ [Nat.digitChar (n % 10)], ?_, by simp, ?_, ?_⟩
      · rw [hpre]; simp
      · intro c hc
        rw [List.mem_append, List.mem_singleton] at hc
        rcases hc with hc | hc
        · exact hall c hc
        · rw [hc]; exact hd2
      · rw [digitsVal_append_singleton, hval, hd1]
        simp only [Option.getD_some]
        omega

theorem isDigitOf_of_decimal (c : Char) (h : 48 ≤ c.toNat ∧ c.toNat ≤ 57) :
    isDigitOf 10 c = true := by
  unfold isDigitOf digitVal
  simp only [h, and_self, if_true]
  have : c.toNat - 48 < 10 := by omega
  simp [this]

theorem not_ws_of_decimal (c : Char) (h : 48 ≤ c.toNat ∧ c.toNat ≤ 57) :
    isJsWhiteSpace c = false := by
  unfold isJsWhiteSpace
  simp only [Bool.or_eq_false_iff, Bool.and_eq_false_iff, decide_eq_false_iff_not]
  omega

theorem trimWs_of_decimal (cs : List Char) (h : ∀ c ∈ cs, 48 ≤ c.toNat ∧ c.toNat ≤ 57) :
    trimWs cs = cs := by
  unfold trimWs
  have h1 : cs.dropWhile isJsWhiteSpace = cs := by
    cases cs with
    | nil => rfl
    | cons c t =>
      exact List.dropWhile_cons_of_neg (by
        rw [not_ws_of_decimal c (h c (List.mem_cons_self c t))]; simp)
  rw [h1]
  have h2 : cs.reverse.dropWhile isJsWhiteSpace = cs.reverse := by
    rcases hr : cs.reverse with _ | ⟨c, t⟩
    · rfl
    · have hc : c ∈ cs := by
        rw [← List.mem_reverse, hr]; exact List.mem_cons_self c t
      exact List.dropWhile_cons_of_neg (by rw [not_ws_of_decimal c (h c hc)]; simp)
  rw [h2, List.reverse_reverse]

theorem parseUnsignedDecimal_of_decimal (cs : List Char) (hne : cs ≠ [])
    (h : ∀ c ∈ cs, 48 ≤ c.toNat ∧ c.toNat ≤ 57) :
    parseUnsignedDecimal cs = some (digitsVal 10 cs, 0) := by
  have hall : ∀ c ∈ cs, isDigitOf 10 c = true := fun c hc => isDigitOf_of_decimal c (h c hc)
  have h1 : cs.takeWhile (isDigitOf 10) = cs := List.takeWhile_eq_self_iff.mpr hall
  have h2 : cs.dropWhile (isDigitOf 10) = [] := List.dropWhile_eq_nil_iff.mpr hall
  unfold parseUnsignedDecimal
  simp only [h1, h2, hne, false_and, if_false, parseExponent, List.append_nil, List.length_nil]
  rfl

theorem parseDecimal_of_decimal (cs : List Char) (hne : cs ≠ [])
    (h : ∀ c ∈ cs, 48 ≤ c.toNat ∧ c.toNat ≤ 57) :
    parseDecimal false cs = JsNum.fin false (digitsVal 10 cs) 0 := by
  unfold parseDecimal
  have hI : cs ≠ "Infinity".data := by
    intro hc
    have := h 'I' (by rw [hc]; decide)
    revert this; decide
  rw [if_neg hI, parseUnsignedDecimal_of_decimal cs hne h]

theorem stringToDecimal_of_decimal (cs : List Char) (hne : cs ≠ [])
    (h : ∀ c ∈ cs, 48 ≤ c.toNat ∧ c.toNat ≤ 57) :
    stringToDecimal cs = JsNum.fin false (digitsVal 10 cs) 0 := by
  unfold stringToDecimal
  rw [trimWs_of_decimal cs h]
  match cs, hne, h with
  | [c], _, h => exact parseDecimal_of_decimal [c] (by simp) h
  | c :: d :: rest, _, h =>
    have hc := h c (List.mem_cons_self _ _)
    have hd := h d (List.mem_cons_of_mem _ (List.mem_cons_self _ _))
    have n1 : ¬ (d = 'x' ∨ d = 'X') := by
      rintro (rfl | rfl) <;> revert hd <;> decide
    have n2 : ¬ (d = 'o' ∨ d = 'O') := by
      rintro (rfl | rfl) <;> revert hd <;> decide
    have n3 : ¬ (d = 'b' ∨ d = 'B') := by
      rintro (rfl | rfl) <;> revert hd <;> decide
    have n4 : c ≠ '+' := by rintro rfl; revert hc; decide
    have n5 : c ≠ '-' := by rintro rfl; revert hc; decide
    simp only [n1, n2, n3, n4, n5, and_false, if_false]
    exact parseDecimal_of_decimal (c :: d :: rest) (by simp) h

/-- The decimal numeral of a natural number, as Lean prints it, denotes that number. -/
theorem stringToDecimal_toString (n : Nat) :
    stringToDecimal (toString n).data = JsNum.fin false n 0 := by
  obtain ⟨pre, hpre, hne, hall, hval⟩ := toDigitsCore_spec (n + 1) n [] (Nat.lt_succ_self n)
  have hd : (toString n).data = pre := by
    show Nat.toDigitsCore 10 (n + 1) n [] = pre
    rw [hpre, List.append_nil]
  rw [hd, stringToDecimal_of_decimal pre hne hall, hval]

theorem toString_nat_ne_of_not_decimal (n : Nat) (s : String) (c : Char) (hc : c ∈ s.data)
    (hnd : ¬ (48 ≤ c.toNat ∧ c.toNat ≤ 57)) : toString n ≠ s := by
  obtain ⟨pre, hpre, _, hall, _⟩ := toDigitsCore_spec (n + 1) n [] (Nat.lt_succ_self n)
  have hd : (toString n).data = pre := by
    show Nat.toDigitsCore 10 (n + 1) n [] = pre
    rw [hpre, List.append_nil]
  intro h
  rw [h] at hd
  exact hnd (hall c (by rw [← hd]; exact hc))

/-! ## The coercion loop -/

theorem get_foldl_update {α : Type} (step : Obj → String × α → Obj) (g : α → Option JsVal)
    (hstep : ∀ r kv x, Dict.get (step r kv) x = if kv.1 = x then g kv.2 else Dict.get r x)
    (es : Dict α) (hnd : (Dict.keys es).Nodup) (r : Obj) (x : String) :
    Dict.get (es.foldl step r) x =
      match Dict.get es x with
      | some v => g v
      | none => Dict.get r x := by
  induction es generalizing r with
  | nil => rfl
  | cons p rest ih =>
    obtain ⟨k1, v1⟩ := p
    simp only [Dict.keys, List.map_cons, List.nodup_cons] at hnd
    rw [List.foldl_cons, ih hnd.2, Dict.get_cons]
    by_cases h : k1 = x
    · have hx : Dict.get rest x = none :=
        Dict.get_eq_none_of_not_mem rest x (h ▸ hnd.1)
      rw [hx, if_pos h, hstep, if_pos h]
    · rw [if_neg h]
      cases Dict.get rest x with
      | some v => rfl
      | none => simp only []; rw [hstep, if_neg h]

theorem keys_foldl_nodup {α : Type} (step : Obj → String × α → Obj)
    (hstep : ∀ r kv, (Dict.keys r).Nodup → (Dict.keys (step r kv)).Nodup)
    (es : Dict α) (r : Obj) (hr : (Dict.keys r).Nodup) :
    (Dict.keys (es.foldl step r)).Nodup := by
  induction es generalizing r with
  | nil => exact hr
  | cons p rest ih => exact ih _ (hstep r p hr)

theorem get_coerceEntry (r : Obj) (kv : String × JsVal) (x : String) :
    Dict.get (coerceEntry r kv) x = if kv.1 = x then coerceValue kv.2 else Dict.get r x := by
  unfold coerceEntry
  by_cases h : kv.1 = x
  · rw [if_pos h]
    cases coerceValue kv.2 with
    | none => rw [h]; exact Dict.get_erase_self _ _
    | some w => rw [h]; exact Dict.get_set_self _ _ _
  · rw [if_neg h]
    cases coerceValue kv.2 with
    | none => exact Dict.get_erase_ne _ _ _ (Ne.symm h)
    | some w => exact Dict.get_set_ne _ _ _ _ (Ne.symm h)

/-- After the coercion loop a field holds the coercion of the value it held before. -/
theorem get_coerceRow (row : Obj) (hnd : (Dict.keys row).Nodup) (x : String) :
    Dict.get (coerceRow row) x = (Dict.get row x).bind coerceValue := by
  unfold coerceRow
  rw [get_foldl_update coerceEntry coerceValue get_coerceEntry row hnd row x]
  cases Dict.get row x <;> rfl

theorem keys_coerceRow_nodup (row : Obj) (hnd : (Dict.keys row).Nodup) :
    (Dict.keys (coerceRow row)).Nodup := by
  unfold coerceRow
  apply keys_foldl_nodup coerceEntry _ row row hnd
  intro r kv hr
  unfold coerceEntry
  cases coerceValue kv.2 with
  | none => exact Dict.keys_erase_nodup _ _ hr
  | some w => exact Dict.keys_set_nodup _ _ _ hr

theorem get_liftRow (row : RawRow) (x : String) :
    Dict.get (liftRow row) x = (Dict.get row x).map JsVal.str := by
  induction row with
  | nil => rfl
  | cons p rest ih =>
    obtain ⟨k1, v1⟩ := p
    show Dict.get ((k1, JsVal.str v1) :: liftRow rest) x = _
    rw [Dict.get_cons, Dict.get_cons]
    by_cases h : k1 = x
    · rw [if_pos h, if_pos h]; rfl
    · rw [if_neg h, if_neg h]; exact ih

theorem keys_liftRow (row : RawRow) : Dict.keys (liftRow row) = Dict.keys row := by
  unfold Dict.keys liftRow
  rw [List.map_map]
  rfl

/-- The coercion of a non-empty string value is `coerceText`. -/
theorem coerceValue_str (v : String) (hv : v ≠ "") :
    coerceValue (JsVal.str v) = some (coerceText v) := by
  unfold coerceValue coerceText
  simp only [truthy, looseEqStr, isNaN, toNumber, decide_eq_true_eq, hv, ne_eq,
    not_false_eq_true, decide_True, Bool.not_true, Bool.false_eq_true, if_false,
    Bool.not_eq_true', decide_eq_false_iff_not]
  split_ifs <;> rfl

/-- The coercion leaves an array of two or more strings as it is. -/
theorem coerceValue_arr (a b : String) (rest : List String) :
    coerceValue (JsVal.arr (a :: b :: rest)) = some (JsVal.arr (a :: b :: rest)) := by
  have hmem : ',' ∈ joinComma (a :: b :: rest) := by
    simp [joinComma, List.intercalate, List.intersperse]
  have hnan : stringToNumber (joinComma (a :: b :: rest)) = JsNum.nan :=
    stringToNumber_comma _ hmem
  have ht : ¬ joinComma (a :: b :: rest) = "TRUE".data := by
    intro e; rw [e] at hmem; exact absurd hmem (by decide)
  have hf : ¬ joinComma (a :: b :: rest) = "FALSE".data := by
    intro e; rw [e] at hmem; exact absurd hmem (by decide)
  unfold coerceValue
  simp [truthy, looseEqStr, isNaN, toNumber, hnan, ht, hf]

/-! ## The merge of renamed headers -/

theorem get_pushAt_self (d : Dict (List String)) (v x : String) :
    Dict.get (pushAt d v x) v = (Dict.get d v).map (fun xs => xs ++ [x]) := by
  unfold pushAt
  cases h : Dict.get d v with
  | none => simp only [Option.map_none']; exact h
  | some xs => simp only [Option.map_some']; exact Dict.get_set_self _ _ _

theorem get_pushAt_ne (d : Dict (List String)) (v x y : String) (h : y ≠ v) :
    Dict.get (pushAt d v x) y = Dict.get d y := by
  unfold pushAt
  cases Dict.get d v with
  | none => rfl
  | some xs => exact Dict.get_set_ne _ _ _ _ h

theorem keys_pushAt_nodup (d : Dict (List String)) (v x : String)
    (hnd : (Dict.keys d).Nodup) : (Dict.keys (pushAt d v x)).Nodup := by
  unfold pushAt
  cases Dict.get d v with
  | none => exact hnd
  | some xs => exact Dict.keys_set_nodup _ _ _ hnd

theorem get_pushCell_self (d : Dict (List String)) (v : String) (c : Option String) :
    Dict.get (pushCell d v c) v = (Dict.get d v).map (fun xs => xs ++ cellList c) := by
  unfold pushCell cellList
  cases c with
  | none => cases Dict.get d v <;> simp
  | some s =>
    by_cases hs : s ≠ ""
    · simp only [if_pos hs]; exact get_pushAt_self d v s
    · simp only [if_neg hs]; cases Dict.get d v <;> simp

theorem get_pushCell_ne (d : Dict (List String)) (v : String) (c : Option String) (y : String)
    (h : y ≠ v) : Dict.get (pushCell d v c) y = Dict.get d y := by
  unfold pushCell
  cases c with
  | none => rfl
  | some s =>
    by_cases hs : s ≠ ""
    · simp only [if_pos hs]; exact get_pushAt_ne d v s y h
    · simp only [if_neg hs]

theorem keys_pushCell_nodup (d : Dict (List String)) (v : String) (c : Option String)
    (hnd : (Dict.keys d).Nodup) : (Dict.keys (pushCell d v c)).Nodup := by
  unfold pushCell
  cases c with
  | none => exact hnd
  | some s =>
    by_cases hs : s ≠ ""
    · simp only [if_pos hs]; exact keys_pushAt_nodup d v s hnd
    · simp only [if_neg hs]; exact hnd

/-- The data array a pair starts from when the original has none yet. -/
theorem mergePair_skip (r : RawRow) (d : Dict (List String)) (k v : String)
    (h : cellTruthy (Dict.get r v) = false) : mergePair (r, d) (k, v) = (r, d) := by
  unfold mergePair
  simp [h]

theorem mergePair_row (r : RawRow) (d : Dict (List String)) (k v : String)
    (h : cellTruthy (Dict.get r v) = true) :
    (mergePair (r, d) (k, v)).1 = Dict.erase r k := by
  unfold mergePair
  simp [h]

theorem mergePair_data_self (r : RawRow) (d : Dict (List String)) (k v : String)
    (h : cellTruthy (Dict.get r v) = true) :
    Dict.get (mergePair (r, d) (k, v)).2 v =
      some ((match Dict.get d v with
        | some xs => xs
        | none => cellList (Dict.get r v)) ++ cellList (Dict.get r k)) := by
  unfold mergePair
  simp only [h, Bool.not_true, Bool.false_eq_true, if_false]
  rw [get_pushCell_self]
  cases hd : Dict.get d v with
  | some xs => simp only [hd, Option.map_some']
  | none =>
    simp only []
    rw [get_pushCell_self, Dict.get_set_self]
    simp

theorem mergePair_data_ne (r : RawRow) (d : Dict (List String)) (k v x : String)
    (hx : x ≠ v) : Dict.get (mergePair (r, d) (k, v)).2 x = Dict.get d x := by
  unfold mergePair
  by_cases h : cellTruthy (Dict.get r v) = true
  · simp only [h, Bool.not_true, Bool.false_eq_true, if_false]
    rw [get_pushCell_ne _ _ _ _ hx]
    cases Dict.get d v with
    | some xs => rfl
    | none =>
      simp only []
      rw [get_pushCell_ne _ _ _ _ hx, Dict.get_set_ne _ _ _ _ hx]
  · simp [h]

theorem mergePair_data_nodup (r : RawRow) (d : Dict (List String)) (kv : String × String)
    (hnd : (Dict.keys d).Nodup) : (Dict.keys (mergePair (r, d) kv).2).Nodup := by
  unfold mergePair
  by_cases h : cellTruthy (Dict.get r kv.2) = true
  · simp only [h, Bool.not_true, Bool.false_eq_true, if_false]
    apply keys_pushCell_nodup
    cases Dict.get d kv.2 with
    | some xs => exact hnd
    | none => exact keys_pushCell_nodup _ _ _ (Dict.keys_set_nodup _ _ _ hnd)
  · simp only [h, Bool.not_false, if_true]
    simpa using hnd

theorem mergePair_row_cases (r : RawRow) (d : Dict (List String)) (kv : String × String) :
    (mergePair (r, d) kv).1 = r ∨ (mergePair (r, d) kv).1 = Dict.erase r kv.1 := by
  by_cases h : cellTruthy (Dict.get r kv.2) = true
  · right; exact mergePair_row r d kv.1 kv.2 h
  · left
    rw [show kv = (kv.1, kv.2) from rfl, mergePair_skip r d kv.1 kv.2 (by simpa using h)]

theorem foldl_mergePair_sub (ps : Dict String) (st : RawRow × Dict (List String)) (x : String) :
    Dict.get (ps.foldl mergePair st).1 x = none ∨
      Dict.get (ps.foldl mergePair st).1 x = Dict.get st.1 x := by
  induction ps generalizing st with
  | nil => right; rfl
  | cons p rest ih =>
    rw [List.foldl_cons]
    rcases ih (mergePair st p) with h | h
    · left; exact h
    · rcases mergePair_row_cases st.1 st.2 p with h1 | h1
      · right; rw [h]; exact congrArg (fun o => Dict.get o x) h1
      · by_cases hx : x = p.1
        · left
          rw [h]
          show Dict.get (mergePair (st.1, st.2) p).1 x = none
          rw [h1, hx]
          exact Dict.get_erase_self _ _
        · right
          rw [h]
          show Dict.get (mergePair (st.1, st.2) p).1 x = _
          rw [h1]
          exact Dict.get_erase_ne _ _ _ hx

theorem foldl_mergePair_row_nodup (ps : Dict String) (st : RawRow × Dict (List String))
    (hnd : (Dict.keys st.1).Nodup) : (Dict.keys (ps.foldl mergePair st).1).Nodup := by
  induction ps generalizing st with
  | nil => exact hnd
  | cons p rest ih =>
    rw [List.foldl_cons]
    apply ih
    rcases mergePair_row_cases st.1 st.2 p with h1 | h1
    · show (Dict.keys (mergePair (st.1, st.2) p).1).Nodup
      rw [h1]; exact hnd
    · show (Dict.keys (mergePair (st.1, st.2) p).1).Nodup
      rw [h1]; exact Dict.keys_erase_nodup _ _ hnd

theorem foldl_mergePair_data_nodup (ps : Dict String) (st : RawRow × Dict (List String))
    (hnd : (Dict.keys st.2).Nodup) : (Dict.keys (ps.foldl mergePair st).2).Nodup := by
  induction ps generalizing st with
  | nil => exact hnd
  | cons p rest ih =>
    rw [List.foldl_cons]
    exact ih _ (mergePair_data_nodup st.1 st.2 p hnd)

/-- A name that no merged pair mentions keeps its cell and gets no array. -/
theorem foldl_mergePair_frame (row : RawRow) (f : String) (ps : Dict String)
    (hf : ∀ p ∈ ps, cellTruthy (Dict.get row p.2) = true → f ≠ p.1 ∧ f ≠ p.2)
    (st : RawRow × Dict (List String))
    (hsub : ∀ x, Dict.get st.1 x = none ∨ Dict.get st.1 x = Dict.get row x) :
    Dict.get (ps.foldl mergePair st).1 f = Dict.get st.1 f ∧
      Dict.get (ps.foldl mergePair st).2 f = Dict.get st.2 f := by
  induction ps generalizing st with
  | nil => exact ⟨rfl, rfl⟩
  | cons p rest ih =>
    obtain ⟨k, v⟩ := p
    obtain ⟨r, d⟩ := st
    rw [List.foldl_cons]
    have hrest : ∀ q ∈ rest, cellTruthy (Dict.get row q.2) = true → f ≠ q.1 ∧ f ≠ q.2 :=
      fun q hq => hf q (List.mem_cons_of_mem _ hq)
    by_cases h : cellTruthy (Dict.get r v) = true
    · have hrow : cellTruthy (Dict.get row v) = true := by
        rcases hsub v with h1 | h1
        · simp only [] at h1; rw [h1] at h; exact Bool.noConfusion h
        · simp only [] at h1; rw [← h1]; exact h
      have hne := hf (k, v) (List.mem_cons_self _ _) hrow
      have hsub2 : ∀ x, Dict.get (mergePair (r, d) (k, v)).1 x = none ∨
          Dict.get (mergePair (r, d) (k, v)).1 x = Dict.get row x := by
        intro x
        rw [mergePair_row r d k v h]
        by_cases hx : x = k
        · left; rw [hx]; exact Dict.get_erase_self _ _
        · rw [Dict.get_erase_ne _ _ _ hx]; exact hsub x
      have := ih hrest (mergePair (r, d) (k, v)) hsub2
      rw [this.1, this.2, mergePair_row r d k v h, mergePair_data_ne r d k v f hne.2]
      exact ⟨Dict.get_erase_ne _ _ _ hne.1, rfl⟩
    · have hskip := mergePair_skip r d k v (by simpa using h)
      rw [hskip]
      exact ih hrest (r, d) hsub

theorem foldl_mergePair_data_other (ps : Dict String) (x : String)
    (hx : ∀ p ∈ ps, p.2 ≠ x) (st : RawRow × Dict (List String)) :
    Dict.get (ps.foldl mergePair st).2 x = Dict.get st.2 x := by
  induction ps generalizing st with
  | nil => rfl
  | cons p rest ih =>
    rw [List.foldl_cons, ih (fun q hq => hx q (List.mem_cons_of_mem _ hq))]
    exact mergePair_data_ne st.1 st.2 p.1 p.2 x (Ne.symm (hx p (List.mem_cons_self _ _)))

/-- A pair whose original cell is non-empty has its synthetic key deleted. -/
theorem foldl_mergePair_deleted (ps : Dict String) (k v : String) (hmem : (k, v) ∈ ps)
    (hsep : ∀ p ∈ ps, p.1 ≠ v) (st : RawRow × Dict (List String))
    (hv : cellTruthy (Dict.get st.1 v) = true) :
    Dict.get (ps.foldl mergePair st).1 k = none := by
  induction ps generalizing st with
  | nil => cases hmem
  | cons p rest ih =>
    obtain ⟨r, d⟩ := st
    rw [List.foldl_cons]
    rcases List.mem_cons.1 hmem with h1 | h1
    · rw [← h1]
      rcases foldl_mergePair_sub rest (mergePair (r, d) (k, v)) k with h2 | h2
      · exact h2
      · rw [h2, mergePair_row r d k v hv]
        exact Dict.get_erase_self _ _
    · apply ih h1 (fun q hq => hsep q (List.mem_cons_of_mem _ hq))
      rcases mergePair_row_cases r d p with h2 | h2
      · rw [h2]; exact hv
      · rw [h2, Dict.get_erase_ne _ _ _ (Ne.symm (hsep p (List.mem_cons_self _ _)))]
        exact hv

/-- The array collected under an original name whose cell is non-empty. -/
theorem foldl_mergePair_collect (row : RawRow) (O o : String) (ps : Dict String)
    (hnd : (Dict.keys ps).Nodup) (hsep : ∀ p ∈ ps, p.1 ≠ O)
    (st : RawRow × Dict (List String))
    (hO : Dict.get st.1 O = some o) (ho : o ≠ "")
    (hcells : ∀ p ∈ ps, p.2 = O → Dict.get st.1 p.1 = Dict.get row p.1) :
    Dict.get (ps.foldl mergePair st).2 O =
      match Dict.get st.2 O with
      | some xs => some (xs ++ dupValues ps row O)
      | none => if ∃ p ∈ ps, p.2 = O then some (o :: dupValues ps row O) else none := by
  induction ps generalizing st with
  | nil =>
    cases h : Dict.get st.2 O with
    | some xs => simp [dupValues, h]
    | none => simp [h]
  | cons p rest ih =>
    obtain ⟨k, v⟩ := p
    obtain ⟨r, d⟩ := st
    simp only [Dict.keys, List.map_cons, List.nodup_cons] at hnd
    have hkO : k ≠ O := hsep (k, v) (List.mem_cons_self _ _)
    have hsep2 : ∀ q ∈ rest, q.1 ≠ O := fun q hq => hsep q (List.mem_cons_of_mem _ hq)
    have hrowO : Dict.get (mergePair (r, d) (k, v)).1 O = some o := by
      rcases mergePair_row_cases r d (k, v) with h2 | h2
      · rw [h2]; exact hO
      · rw [h2, Dict.get_erase_ne _ _ _ (Ne.symm hkO)]; exact hO
    have hcells2 : ∀ q ∈ rest, q.2 = O →
        Dict.get (mergePair (r, d) (k, v)).1 q.1 = Dict.get row q.1 := by
      intro q hq hq2
      have hqk : q.1 ≠ k := by
        intro e
        exact hnd.1 (e ▸ List.mem_map.2 ⟨q, hq, rfl⟩)
      rcases mergePair_row_cases r d (k, v) with h2 | h2
      · rw [h2]; exact hcells q (List.mem_cons_of_mem _ hq) hq2
      · rw [h2, Dict.get_erase_ne _ _ _ hqk]; exact hcells q (List.mem_cons_of_mem _ hq) hq2
    have hex : (∃ p ∈ (k, v) :: rest, p.2 = O) ↔ (v = O ∨ ∃ p ∈ rest, p.2 = O) := by
      constructor
      · rintro ⟨q, hq, hq2⟩
        rcases List.mem_cons.1 hq with h | h
        · left; rw [h] at hq2; exact hq2
        · right; exact ⟨q, h, hq2⟩
      · rintro (h | ⟨q, hq, hq2⟩)
        · exact ⟨(k, v), List.mem_cons_self _ _, h⟩
        · exact ⟨q, List.mem_cons_of_mem _ hq, hq2⟩
    rw [List.foldl_cons, ih hnd.2 hsep2 (mergePair (r, d) (k, v)) hrowO hcells2]
    simp only [] at hO
    by_cases hv : v = O
    · have hk : Dict.get r k = Dict.get row k := hcells (k, v) (List.mem_cons_self _ _) hv
      subst hv
      have htr : cellTruthy (Dict.get r v) = true := by
        rw [hO]; simpa [cellTruthy] using ho
      rw [mergePair_data_self r d k v htr, hO, hk]
      have hcl : cellList (some o) = [o] := by simp [cellList, ho]
      cases hd : Dict.get d v with
      | some xs => simp [dupValues, List.append_assoc]
      | none => simp [dupValues, hcl]
    · rw [mergePair_data_ne r d k v O (Ne.symm hv)]
      cases hd : Dict.get d O with
      | some xs => simp [dupValues, hv]
      | none =>
        simp only [dupValues, if_neg hv]
        by_cases hE : ∃ p ∈ rest, p.2 = O
        · rw [if_pos hE, if_pos (hex.2 (Or.inr hE))]
        · rw [if_neg hE, if_neg (fun h => (hex.1 h).elim hv hE)]

/-- Every array the merge collects has an entry. -/
theorem foldl_mergePair_nonempty (ps : Dict String) (st : RawRow × Dict (List String))
    (hne : ∀ x xs, Dict.get st.2 x = some xs → xs ≠ []) :
    ∀ x xs, Dict.get (ps.foldl mergePair st).2 x = some xs → xs ≠ [] := by
  induction ps generalizing st with
  | nil => exact hne
  | cons p rest ih =>
    obtain ⟨k, v⟩ := p
    obtain ⟨r, d⟩ := st
    rw [List.foldl_cons]
    apply ih
    intro x xs hx
    by_cases h : cellTruthy (Dict.get r v) = true
    · by_cases hxv : x = v
      · rw [hxv, mergePair_data_self r d k v h] at hx
        cases hd : Dict.get d v with
        | some ys =>
          rw [hd] at hx
          have := hne v ys hd
          simp only [Option.some.injEq] at hx
          rw [← hx]
          simp [this]
        | none =>
          rw [hd] at hx
          simp only [Option.some.injEq] at hx
          rw [← hx]
          cases hr : Dict.get r v with
          | none => rw [hr] at h; exact Bool.noConfusion h
          | some o =>
            rw [hr] at h
            have ho : o ≠ "" := by simpa [cellTruthy] using h
            simp [cellList, ho]
      · rw [mergePair_data_ne r d k v x hxv] at hx
        exact hne x xs hx
    · rw [mergePair_skip r d k v (by simpa using h)] at hx
      exact hne x xs hx

/-! ## One row through `parseCSV` -/

/-- A field of the merged row: the collected array if there is one, the raw cell otherwise. -/
theorem get_mergeRow (rh : Dict String) (row : RawRow) (x : String) :
    Dict.get (mergeRow rh row) x =
      match Dict.get (rh.foldl mergePair (row, [])).2 x with
      | some xs => some (JsVal.arr xs)
      | none => (Dict.get (rh.foldl mergePair (row, [])).1 x).map JsVal.str := by
  unfold mergeRow
  have hnd : (Dict.keys (rh.foldl mergePair (row, [])).2).Nodup :=
    foldl_mergePair_data_nodup rh (row, []) List.nodup_nil
  rw [get_foldl_update (fun r kv => Dict.set r kv.1 (JsVal.arr kv.2))
    (fun xs => some (JsVal.arr xs)) _ _ hnd]
  · rw [get_liftRow]
    cases Dict.get (rh.foldl mergePair (row, [])).2 x <;> rfl
  · intro r kv x
    show Dict.get (Dict.set r kv.1 (JsVal.arr kv.2)) x = _
    by_cases h : kv.1 = x
    · rw [if_pos h, h]; exact Dict.get_set_self _ _ _
    · rw [if_neg h]; exact Dict.get_set_ne _ _ _ _ (Ne.symm h)

theorem keys_mergeRow_nodup (rh : Dict String) (row : RawRow) (hnd : (Dict.keys row).Nodup) :
    (Dict.keys (mergeRow rh row)).Nodup := by
  unfold mergeRow
  apply keys_foldl_nodup
  · intro r kv hr
    exact Dict.keys_set_nodup _ _ _ hr
  · rw [keys_liftRow]
    exact foldl_mergePair_row_nodup rh (row, []) hnd

/-- A field of the processed row is the coercion of the field of the merged row. -/
theorem get_processRow_some (rh : Dict String) (row : RawRow) (hnd : (Dict.keys row).Nodup)
    (x : String) :
    Dict.get (processRow (some rh) row) x =
      (Dict.get (mergeRow rh row) x).bind coerceValue :=
  get_coerceRow _ (keys_mergeRow_nodup rh row hnd) x

theorem get_processRow_none (row : RawRow) (hnd : (Dict.keys row).Nodup) (x : String) :
    Dict.get (processRow none row) x = ((Dict.get row x).map JsVal.str).bind coerceValue := by
  show Dict.get (coerceRow (liftRow row)) x = _
  rw [get_coerceRow _ (by rw [keys_liftRow]; exact hnd), get_liftRow]

theorem keys_processRow_nodup (rh : Option (Dict String)) (row : RawRow)
    (hnd : (Dict.keys row).Nodup) : (Dict.keys (processRow rh row)).Nodup := by
  cases rh with
  | none => exact keys_coerceRow_nodup _ (by rw [keys_liftRow]; exact hnd)
  | some m => exact keys_coerceRow_nodup _ (keys_mergeRow_nodup m row hnd)

/-- A field that no merged pair mentions goes through the coercion alone. -/
theorem get_processRow_untouched (rh : Option (Dict String)) (row : RawRow)
    (hnd : (Dict.keys row).Nodup) (f : String)
    (hf : ∀ m, rh = some m → ∀ p ∈ m,
      cellTruthy (Dict.get row p.2) = true → f ≠ p.1 ∧ f ≠ p.2) :
    Dict.get (processRow rh row) f = ((Dict.get row f).map JsVal.str).bind coerceValue := by
  cases rh with
  | none => exact get_processRow_none row hnd f
  | some m =>
    rw [get_processRow_some m row hnd f, get_mergeRow]
    have := foldl_mergePair_frame row f m (hf m rfl) (row, []) (fun x => Or.inr rfl)
    rw [this.1, this.2]
    rfl

/-- A processed row with a field is among the records `parseCSV` returns. -/
theorem mem_parseCSV (parsed : Parsed) (row : RawRow) (hrow : row ∈ parsed.data)
    (x : String) (v : JsVal)
    (h : Dict.get (processRow parsed.renamedHeaders row) x = some v) :
    processRow parsed.renamedHeaders row ∈ parseCSV parsed := by
  unfold parseCSV
  rw [List.mem_filter]
  refine ⟨List.mem_map.2 ⟨row, hrow, rfl⟩, ?_⟩
  have hk := Dict.mem_keys_of_get _ _ _ h
  have : Dict.keys (processRow parsed.renamedHeaders row) ≠ [] := List.ne_nil_of_mem hk
  simpa using this

theorem cellTruthy_some (s : String) (hs : s ≠ "") : cellTruthy (some s) = true := by
  simpa [cellTruthy] using hs

theorem dupValues_ne_nil (rh : Dict String) (row : RawRow) (O : String)
    (h : ∃ p ∈ rh, p.2 = O ∧ cellTruthy (Dict.get row p.1) = true) :
    dupValues rh row O ≠ [] := by
  induction rh with
  | nil => obtain ⟨p, hp, _⟩ := h; cases hp
  | cons q rest ih =>
    obtain ⟨k, v⟩ := q
    obtain ⟨p, hp, hp2, hp3⟩ := h
    unfold dupValues
    rcases List.mem_cons.1 hp with h1 | h1
    · rw [h1] at hp2 hp3
      simp only [] at hp2 hp3
      rw [if_pos hp2]
      cases hc : Dict.get row k with
      | none => rw [hc] at hp3; exact Bool.noConfusion hp3
      | some s =>
        rw [hc] at hp3
        have hs : s ≠ "" := by simpa [cellTruthy] using hp3
        simp [cellList, hs]
    · have := ih ⟨p, h1, hp2, hp3⟩
      by_cases hv : v = O
      · rw [if_pos hv]; simp [this]
      · rw [if_neg hv]; exact this

/-- What the coercion can leave under a field. -/
theorem coerceValue_some (u v : JsVal) (h : coerceValue u = some v) :
    (∃ b, v = JsVal.bool b) ∨ (∃ n, v = JsVal.num n) ∨ (v = u ∧ truthy u = true) := by
  unfold coerceValue at h
  split_ifs at h with h1 h2 h3 h4
  · exact Or.inl ⟨true, (Option.some.inj h).symm⟩
  · exact Or.inl ⟨false, (Option.some.inj h).symm⟩
  · exact Or.inr (Or.inl ⟨_, (Option.some.inj h).symm⟩)
  · exact Or.inr (Or.inr ⟨(Option.some.inj h).symm, by simpa using h1⟩)

/-- The values of a merged row are strings and non-empty arrays. -/
theorem mergeRow_values (rh : Dict String) (row : RawRow) (x : String) (u : JsVal)
    (h : Dict.get (mergeRow rh row) x = some u) :
    (∃ s, u = JsVal.str s) ∨ (∃ xs, u = JsVal.arr xs ∧ xs ≠ []) := by
  rw [get_mergeRow] at h
  cases hd : Dict.get (rh.foldl mergePair (row, [])).2 x with
  | some xs =>
    rw [hd] at h
    right
    refine ⟨xs, (Option.some.inj h).symm, ?_⟩
    exact foldl_mergePair_nonempty rh (row, []) (fun y ys hy => by cases hy) x xs hd
  | none =>
    rw [hd] at h
    left
    cases hr : Dict.get (rh.foldl mergePair (row, [])).1 x with
    | none => rw [hr] at h; cases h
    | some s => rw [hr] at h; exact ⟨s, (Option.some.inj h).symm⟩

/-- No field of a processed row holds an empty string or an empty array. -/
theorem processRow_values (rh : Option (Dict String)) (row : RawRow)
    (hnd : (Dict.keys row).Nodup) (x : String) (v : JsVal)
    (h : Dict.get (processRow rh row) x = some v) :
    v ≠ JsVal.str "" ∧ v ≠ JsVal.arr [] := by
  have key : ∀ u, ((∃ s, u = JsVal.str s) ∨ (∃ xs, u = JsVal.arr xs ∧ xs ≠ [])) →
      coerceValue u = some v → v ≠ JsVal.str "" ∧ v ≠ JsVal.arr [] := by
    intro u hu hc
    rcases coerceValue_some u v hc with ⟨b, hb⟩ | ⟨n, hn⟩ | ⟨hvu, ht⟩
    · rw [hb]; exact ⟨fun e => JsVal.noConfusion e, fun e => JsVal.noConfusion e⟩
    · rw [hn]; exact ⟨fun e => JsVal.noConfusion e, fun e => JsVal.noConfusion e⟩
    · rw [hvu]
      rcases hu with ⟨s, hs⟩ | ⟨xs, hxs, hne⟩
      · rw [hs] at ht ⊢
        have hs2 : s ≠ "" := by simpa [truthy] using ht
        exact ⟨fun e => hs2 (JsVal.str.inj e), fun e => JsVal.noConfusion e⟩
      · rw [hxs]
        exact ⟨fun e => JsVal.noConfusion e, fun e => hne (JsVal.arr.inj e)⟩
  cases rh with
  | none =>
    rw [get_processRow_none row hnd x] at h
    cases hr : Dict.get row x with
    | none => rw [hr] at h; cases h
    | some s =>
      rw [hr] at h
      exact key (JsVal.str s) (Or.inl ⟨s, rfl⟩) h
  | some m =>
    rw [get_processRow_some m row hnd x] at h
    cases hr : Dict.get (mergeRow m row) x with
    | none => rw [hr] at h; cases h
    | some u =>
      rw [hr] at h
      exact key u (mergeRow_values m row x u hr) h

theorem not_mem_dupValues (rh : Dict String) (row : RawRow) (O : String) :
    "" ∉ dupValues rh row O := by
  induction rh with
  | nil => simp [dupValues]
  | cons q rest ih =>
    obtain ⟨k, v⟩ := q
    unfold dupValues
    have hc : "" ∉ cellList (Dict.get row k) := by
      unfold cellList
      cases Dict.get row k with
      | none => simp
      | some s =>
        by_cases hs : s ≠ ""
        · simp only [if_pos hs]; simpa using Ne.symm hs
        · simp only [if_neg hs]; simp
    by_cases hv : v = O
    · rw [if_pos hv]; simp only [List.mem_append, not_or]; exact ⟨hc, ih⟩
    · rw [if_neg hv]; exact ih

/-! ## Claims about `parseCSV` -/

/-- Claim C1, as stated, fails: for the header `a,a,b,b` and the row `x,y,,z` the column
`a` has a non-empty original and a non-empty duplicate, yet the returned record still holds
the synthetic key `b_1` of the renamed headers. -/
theorem parseCSV_keeps_foreign_synthetic_key :
    twoColumnSheet.renamedHeaders = some [("a_1", "a"), ("b_1", "b")] ∧
    parseCSV twoColumnSheet =
      [[("a", JsVal.arr ["x", "y"]), ("b_1", JsVal.str "z")]] := by
  decide

/-- Claim C1 (amended): when the renamed headers are well formed (distinct synthetic names,
none of them an original name, no name of them a member of `Object.prototype`) and, in a
row, the original-named cell `O` and at least one duplicate cell of that column are
non-empty, the returned record holds under `O` the list of the non-empty raw values of `O`
and its duplicates in header order, no entry of it empty, and the record has no synthetic
key whose original-named cell is non-empty in the row (in particular none of the
duplicates of `O`). -/
theorem parseCSV_merges_duplicates (parsed : Parsed) (rh : Dict String) (row : RawRow)
    (O o : String)
    (hrh : parsed.renamedHeaders = some rh) (hrow : row ∈ parsed.data)
    (hnd : (Dict.keys row).Nodup) (hrhnd : (Dict.keys rh).Nodup)
    (hsep : ∀ p ∈ rh, ∀ q ∈ rh, p.1 ≠ q.2)
    (hplain : ∀ p ∈ rh, p.1 ∉ objectPrototypeMembers ∧ p.2 ∉ objectPrototypeMembers)
    (hO : Dict.get row O = some o) (ho : o ≠ "")
    (hdup : ∃ p ∈ rh, p.2 = O ∧ cellTruthy (Dict.get row p.1) = true) :
    processRow parsed.renamedHeaders row ∈ parseCSV parsed ∧
    Dict.get (processRow parsed.renamedHeaders row) O =
      some (JsVal.arr (o :: dupValues rh row O)) ∧
    2 ≤ (o :: dupValues rh row O).length ∧
    "" ∉ o :: dupValues rh row O ∧
    (∀ p ∈ rh, cellTruthy (Dict.get row p.2) = true →
      Dict.get (processRow parsed.renamedHeaders row) p.1 = none) := by
  have _ := hplain
  have hdv := dupValues_ne_nil rh row O hdup
  have hget : Dict.get (processRow parsed.renamedHeaders row) O =
      some (JsVal.arr (o :: dupValues rh row O)) := by
    rw [hrh, get_processRow_some rh row hnd O, get_mergeRow]
    obtain ⟨p0, hp0, hp0O, _⟩ := hdup
    have hsepO : ∀ p ∈ rh, p.1 ≠ O := fun p hp => hp0O ▸ hsep p hp p0 hp0
    rw [foldl_mergePair_collect row O o rh hrhnd hsepO (row, []) hO ho (fun _ _ _ => rfl)]
    have hex : ∃ p ∈ rh, p.2 = O := ⟨p0, hp0, hp0O⟩
    have hnil : Dict.get (row, ([] : Dict (List String))).2 O = none := rfl
    rw [hnil]
    simp only [if_pos hex, Option.bind]
    cases hd : dupValues rh row O with
    | nil => exact absurd hd hdv
    | cons b rest => exact coerceValue_arr o b rest
  refine ⟨mem_parseCSV parsed row hrow O _ hget, hget, ?_, ?_, ?_⟩
  · cases hd : dupValues rh row O with
    | nil => exact absurd hd hdv
    | cons b rest => simp
  · intro hc
    rcases List.mem_cons.1 hc with h1 | h1
    · exact ho h1.symm
    · exact not_mem_dupValues rh row O h1
  · intro p hp htr
    rw [hrh, get_processRow_some rh row hnd p.1, get_mergeRow]
    have h1 : Dict.get (rh.foldl mergePair (row, [])).2 p.1 = none :=
      foldl_mergePair_data_other rh p.1 (fun q hq => Ne.symm (hsep p hp q hq)) (row, [])
    have h2 : Dict.get (rh.foldl mergePair (row, [])).1 p.1 = none :=
      foldl_mergePair_deleted rh p.1 p.2 hp (fun q hq => hsep q hq p hp) (row, []) htr
    rw [h1, h2]
    rfl

/-- The header `name,color,color` with the row `A,red,blue` gives
`{name: "A", color: ["red", "blue"]}`. -/
theorem parseCSV_merges_duplicates_witness :
    parseCSV colorSheet = [[("name", JsVal.str "A"), ("color", JsVal.arr ["red", "blue"])]] ∧
    Dict.get (processRow colorSheet.renamedHeaders
        [("name", "A"), ("color", "red"), ("color_1", "blue")]) "color" =
      some (JsVal.arr ("red" :: dupValues [("color_1", "color")]
        [("name", "A"), ("color", "red"), ("color_1", "blue")] "color")) :=
  ⟨by decide,
    (parseCSV_merges_duplicates colorSheet [("color_1", "color")]
      [("name", "A"), ("color", "red"), ("color_1", "blue")] "color" "red" rfl (by decide)
      (by decide) (by decide) (by decide) (by decide) (by decide) (by decide)
      ⟨("color_1", "color"), by decide, rfl, by decide⟩).2.1⟩

/-- Claim C2: a non-empty cell of a column that no merged pair mentions is stored under its
field as `true` for `TRUE`, `false` for `FALSE`, the number it denotes when it converts to
one (`42` gives 42), and unchanged otherwise (`foo` stays `foo`); the record is returned.
The number a cell denotes is the mathematical value of its numeric literal rounded to
binary64 as IEEE 754 prescribes, hence that value itself whenever it is a binary64 value:
the decimal numeral of a natural number below `2^53` is stored as that number.  Further
readings: `3.5`, `1e3`, `0x1F`, `-7`, a padded ` 12 ` and a blank cell (zero) are numbers,
`0.1` is the nearest binary64 value, `9007199254740993` rounds to `9007199254740992`,
`1e400` is `Infinity`, `1e-400` is zero, and `12px` and `1,5` are not numbers. -/
theorem parseCSV_coerces_scalar (parsed : Parsed) (row : RawRow) (f v : String)
    (hrow : row ∈ parsed.data) (hnd : (Dict.keys row).Nodup)
    (hget : Dict.get row f = some v) (hv : v ≠ "")
    (hscalar : ∀ m, parsed.renamedHeaders = some m → ∀ p ∈ m,
      cellTruthy (Dict.get row p.2) = true → f ≠ p.1 ∧ f ≠ p.2) :
    processRow parsed.renamedHeaders row ∈ parseCSV parsed ∧
    Dict.get (processRow parsed.renamedHeaders row) f =
      some (if v = "TRUE" then JsVal.bool true
        else if v = "FALSE" then JsVal.bool false
        else if stringToNumber v.data ≠ JsNum.nan then JsVal.num (stringToNumber v.data)
        else JsVal.str v) ∧
    stringToNumber "42".data = JsNum.fin false 42 0 ∧
    stringToNumber "foo".data = JsNum.nan ∧
    (∀ neg m e, stringToDecimal v.data = JsNum.fin neg m e →
      Dict.get (processRow parsed.renamedHeaders row) f =
        some (JsVal.num (stringToNumber v.data)) ∧
      IsRoundedBinary64 (signRat neg * (m : ℚ) * (10 : ℚ) ^ e) (stringToNumber v.data) ∧
      (IsBinary64 (signRat neg * (m : ℚ) * (10 : ℚ) ^ e) →
        (stringToNumber v.data).toRat = some (signRat neg * (m : ℚ) * (10 : ℚ) ^ e))) ∧
    (∀ n : ℕ, v = toString n →
      Dict.get (processRow parsed.renamedHeaders row) f =
        some (JsVal.num (stringToNumber v.data)) ∧
      IsRoundedBinary64 (n : ℚ) (stringToNumber v.data) ∧
      (n < 2 ^ 53 → (stringToNumber v.data).toRat = some (n : ℚ))) ∧
    stringToNumber "3.5".data = JsNum.fin false 35 (-1) ∧
    stringToNumber "1e3".data = JsNum.fin false 1000 0 ∧
    stringToNumber "0x1F".data = JsNum.fin false 31 0 ∧
    stringToNumber "-7".data = JsNum.fin true 7 0 ∧
    stringToNumber " 12 ".data = JsNum.fin false 12 0 ∧
    stringToNumber " ".data = JsNum.fin false 0 0 ∧
    stringToNumber "0.1".data = JsNum.fin false (3602879701896397 * 5 ^ 55) (-55) ∧
    stringToNumber "9007199254740993".data = JsNum.fin false 9007199254740992 0 ∧
    stringToNumber "1e400".data = JsNum.inf false ∧
    stringToNumber "1e-400".data = JsNum.fin false 0 0 ∧
    stringToNumber "12px".data = JsNum.nan ∧
    stringToNumber "1,5".data = JsNum.nan := by
  have h : Dict.get (processRow parsed.renamedHeaders row) f = some (coerceText v) := by
    rw [get_processRow_untouched parsed.renamedHeaders row hnd f hscalar, hget]
    exact coerceValue_str v hv
  have hfin : ∀ neg m e, stringToDecimal v.data = JsNum.fin neg m e →
      Dict.get (processRow parsed.renamedHeaders row) f =
        some (JsVal.num (stringToNumber v.data)) ∧
      IsRoundedBinary64 (signRat neg * (m : ℚ) * (10 : ℚ) ^ e) (stringToNumber v.data) := by
    intro neg m e hdec
    have hr : IsRoundedBinary64 (signRat neg * (m : ℚ) * (10 : ℚ) ^ e)
        (stringToNumber v.data) := by
      unfold stringToNumber
      rw [hdec]
      exact roundNum_spec neg m e
    have hnan : stringToNumber v.data ≠ JsNum.nan := by
      intro hc
      rw [hc] at hr
      exact hr
    have ht : v ≠ "TRUE" := by
      rintro rfl
      have hT : stringToDecimal "TRUE".data = JsNum.nan := by decide
      rw [hT] at hdec
      cases hdec
    have hf : v ≠ "FALSE" := by
      rintro rfl
      have hF : stringToDecimal "FALSE".data = JsNum.nan := by decide
      rw [hF] at hdec
      cases hdec
    refine ⟨?_, hr⟩
    rw [h]
    unfold coerceText
    rw [if_neg ht, if_neg hf, if_pos hnan]
  refine ⟨mem_parseCSV parsed row hrow f _ h, h, by decide!, by decide, ?_, ?_, by decide!,
    by decide!, by decide!, by decide!, by decide!, by decide!, by decide!, by decide!,
    by decide!, by decide!, by decide, by decide⟩
  · intro neg m e hdec
    obtain ⟨h1, h2⟩ := hfin neg m e hdec
    exact ⟨h1, h2, fun hb => IsRoundedBinary64_exact _ _ h2 hb⟩
  · intro n hn
    have hdec : stringToDecimal v.data = JsNum.fin false n 0 := by
      rw [hn]; exact stringToDecimal_toString n
    obtain ⟨h1, h2⟩ := hfin false n 0 hdec
    have hval : signRat false * (n : ℚ) * (10 : ℚ) ^ (0 : ℤ) = (n : ℚ) := by
      simp [signRat]
    rw [hval] at h2
    refine ⟨h1, h2, fun hlt => IsRoundedBinary64_exact _ _ h2 ⟨n, 0, hlt, by norm_num,
      by norm_num, by simp⟩⟩

/-- The cells `TRUE`, `42`, `foo` and `FALSE` become `true`, 42, `"foo"` and `false`. -/
theorem parseCSV_coerces_scalar_witness :
    parseCSV typedSheet =
      [[("flag", JsVal.bool true), ("count", JsVal.num (JsNum.fin false 42 0)),
        ("word", JsVal.str "foo"), ("off", JsVal.bool false)]] ∧
    Dict.get (processRow typedSheet.renamedHeaders
        [("flag", "TRUE"), ("count", "42"), ("word", "foo"), ("off", "FALSE")]) "count" =
      some (JsVal.num (JsNum.fin false 42 0)) :=
  ⟨by decide!,
    (parseCSV_coerces_scalar typedSheet
      [("flag", "TRUE"), ("count", "42"), ("word", "foo"), ("off", "FALSE")] "count" "42"
      (by decide) (by decide) (by decide) (by decide)
      (fun m hm => by cases hm)).2.1.trans (by decide!)⟩

/-- Claim C3: every record `parseCSV` returns has a field, no field of a returned record
holds an empty string or an empty sequence, and the returned sequence is the sequence of
processed rows, one for each source row in source order, with exactly those that have no
field left removed (a row that survives is never dropped, repeated, or moved). -/
theorem parseCSV_records_pruned (parsed : Parsed)
    (hnd : ∀ row ∈ parsed.data, (Dict.keys row).Nodup) :
    (∀ r ∈ parseCSV parsed, r ≠ [] ∧
      ∀ k v, (k, v) ∈ r → v ≠ JsVal.str "" ∧ v ≠ JsVal.arr []) ∧
    parseCSV parsed =
      (parsed.data.map (processRow parsed.renamedHeaders)).filter (fun r => decide (r ≠ [])) ∧
    List.Sublist (parseCSV parsed) (parsed.data.map (processRow parsed.renamedHeaders)) ∧
    (∀ r ∈ parsed.data.map (processRow parsed.renamedHeaders), r ≠ [] → r ∈ parseCSV parsed) := by
  have heq : parseCSV parsed =
      (parsed.data.map (processRow parsed.renamedHeaders)).filter
        (fun r => decide (r ≠ [])) := by
    unfold parseCSV
    apply List.filter_congr
    intro r _
    cases r with
    | nil => rfl
    | cons a rest => simp [Dict.keys]
  refine ⟨?_, heq, List.filter_sublist _, ?_⟩
  · intro r hr
    unfold parseCSV at hr
    rw [List.mem_filter] at hr
    obtain ⟨hmem, hlen⟩ := hr
    obtain ⟨row, hrow, rfl⟩ := List.mem_map.1 hmem
    constructor
    · intro e
      rw [e] at hlen
      simp [Dict.keys] at hlen
    · intro k v hkv
      have hk := Dict.get_of_mem _ k v
        (keys_processRow_nodup parsed.renamedHeaders row (hnd row hrow)) hkv
      exact processRow_values parsed.renamedHeaders row (hnd row hrow) k v hk
  · intro r hr hne
    unfold parseCSV
    rw [List.mem_filter]
    refine ⟨hr, ?_⟩
    cases r with
    | nil => exact absurd rfl hne
    | cons a rest => simp [Dict.keys]

/-- The sheet `name,age` with the row `A,` gives `[{name: "A"}]`: no `age` key, and the
empty line is dropped. -/
theorem parseCSV_records_pruned_witness :
    parseCSV ageSheet = [[("name", JsVal.str "A")]] ∧
    (∀ r ∈ parseCSV ageSheet, r ≠ [] ∧
      ∀ k v, (k, v) ∈ r → v ≠ JsVal.str "" ∧ v ≠ JsVal.arr []) :=
  ⟨by decide, (parseCSV_records_pruned ageSheet (by decide)).1⟩

/-- Claim C10, as stated, fails: for the header `name,color,color` and the row `A,,blue`
the returned record has no field `color` at all, and the synthetic key `color_1` is still
there, holding the string `blue`. -/
theorem parseCSV_duplicate_only_not_merged :
    parseCSV duplicateOnlySheet = [[("name", JsVal.str "A"), ("color_1", JsVal.str "blue")]] ∧
    Dict.get (processRow duplicateOnlySheet.renamedHeaders
      [("name", "A"), ("color", ""), ("color_1", "blue")]) "color" = none ∧
    Dict.get (processRow duplicateOnlySheet.renamedHeaders
      [("name", "A"), ("color", ""), ("color_1", "blue")]) "color_1" =
      some (JsVal.str "blue") := by
  decide

/-- Claim C10 (amended): when the renamed headers are well formed and, in a row, the
original-named cell `O` of a repeated column is empty or absent while a duplicate cell `S`
of that column is non-empty, the merge skips the pair: the returned record has no field
`O`, and the value of `S` stays under its synthetic key, coerced like any scalar cell. -/
theorem parseCSV_skips_empty_original (parsed : Parsed) (rh : Dict String) (row : RawRow)
    (S O s : String)
    (hrh : parsed.renamedHeaders = some rh) (hrow : row ∈ parsed.data)
    (hnd : (Dict.keys row).Nodup) (hrhnd : (Dict.keys rh).Nodup)
    (hsep : ∀ p ∈ rh, ∀ q ∈ rh, p.1 ≠ q.2)
    (hpair : (S, O) ∈ rh) (hO : cellTruthy (Dict.get row O) = false)
    (hS : Dict.get row S = some s) (hs : s ≠ "") :
    processRow parsed.renamedHeaders row ∈ parseCSV parsed ∧
    Dict.get (processRow parsed.renamedHeaders row) O = none ∧
    Dict.get (processRow parsed.renamedHeaders row) S =
      some (if s = "TRUE" then JsVal.bool true
        else if s = "FALSE" then JsVal.bool false
        else if stringToNumber s.data ≠ JsNum.nan then JsVal.num (stringToNumber s.data)
        else JsVal.str s) := by
  have hfS : ∀ m, parsed.renamedHeaders = some m → ∀ p ∈ m,
      cellTruthy (Dict.get row p.2) = true → S ≠ p.1 ∧ S ≠ p.2 := by
    intro m hm p hp htr
    rw [hrh] at hm
    cases hm
    constructor
    · intro e
      have h1 := Dict.get_of_mem rh S O hrhnd hpair
      have h2 := Dict.get_of_mem rh p.1 p.2 hrhnd hp
      rw [← e, h1] at h2
      rw [← Option.some.inj h2, hO] at htr
      exact Bool.noConfusion htr
    · exact hsep (S, O) hpair p hp
  have hfO : ∀ m, parsed.renamedHeaders = some m → ∀ p ∈ m,
      cellTruthy (Dict.get row p.2) = true → O ≠ p.1 ∧ O ≠ p.2 := by
    intro m hm p hp htr
    rw [hrh] at hm
    cases hm
    constructor
    · exact Ne.symm (hsep p hp (S, O) hpair)
    · intro e
      rw [← e, hO] at htr
      exact Bool.noConfusion htr
  have h1 : Dict.get (processRow parsed.renamedHeaders row) S = some (coerceText s) := by
    rw [get_processRow_untouched parsed.renamedHeaders row hnd S hfS, hS]
    exact coerceValue_str s hs
  refine ⟨mem_parseCSV parsed row hrow S _ h1, ?_, h1⟩
  rw [get_processRow_untouched parsed.renamedHeaders row hnd O hfO]
  cases hc : Dict.get row O with
  | none => rfl
  | some o =>
    rw [hc] at hO
    have ho : o = "" := by simpa [cellTruthy] using hO
    rw [ho]
    decide

/-- The header `name,color,color` with the row `A,,blue`: no `color` field, and `blue`
under `color_1`. -/
theorem parseCSV_skips_empty_original_witness :
    Dict.get (processRow duplicateOnlySheet.renamedHeaders
      [("name", "A"), ("color", ""), ("color_1", "blue")]) "color" = none ∧
    Dict.get (processRow duplicateOnlySheet.renamedHeaders
      [("name", "A"), ("color", ""), ("color_1", "blue")]) "color_1" =
      some (JsVal.str "blue") :=
  have h := parseCSV_skips_empty_original duplicateOnlySheet [("color_1", "color")]
    [("name", "A"), ("color", ""), ("color_1", "blue")] "color_1" "color" "blue" rfl
    (by decide) (by decide) (by decide) (by decide) (by decide) (by decide) (by decide)
    (by decide)
  ⟨h.2.1, h.2.2.trans (by decide)⟩

/-! ## Claims about the image helpers and the dispatch on the extension -/

/-- For a path that is a string or `undefined` and a base directory that is a string or
`undefined`, over a file system that maps a resolved path to absent, regular file or
directory: `hasImage` does not throw and returns `false` exactly when the path is empty or
undefined, absent, or a directory; `loadImage` throws exactly when `hasImage` returns
`false`, and returns the data URL of the file exactly when `hasImage` returns `true`. -/
theorem hasImage_loadImage_agree (env : ImageEnv) (filePath baseDir : Option String) :
    ∃ b, hasImage env (filePath.map JsVal.str) (baseDir.map JsVal.str) = Except.ok b ∧
      (b = false ↔
        (filePath = none ∨ filePath = some "" ∨
          env.entry (env.resolve (baseDir.getD ".") (filePath.getD "")) = FsEntry.absent ∨
          env.entry (env.resolve (baseDir.getD ".") (filePath.getD "")) = FsEntry.dir)) ∧
      (b = false ↔ ∃ e, loadImage env (filePath.map JsVal.str) (baseDir.map JsVal.str) =
        Except.error e) ∧
      (b = true ↔ ∃ bytes,
        env.entry (env.resolve (baseDir.getD ".") (filePath.getD "")) = FsEntry.file bytes ∧
        loadImage env (filePath.map JsVal.str) (baseDir.map JsVal.str) =
          Except.ok (dataUrl (env.resolve (baseDir.getD ".") (filePath.getD "")) bytes)) := by
  cases filePath with
  | none =>
    refine ⟨false, rfl, by simp, ?_, by simp [loadImage, pathTruthy]⟩
    simp [loadImage, pathTruthy]
  | some f =>
    by_cases hf : f = ""
    · subst hf
      refine ⟨false, by simp [hasImage, pathTruthy, truthy], by simp, ?_,
        by simp [loadImage, pathTruthy, truthy]⟩
      simp [loadImage, pathTruthy, truthy]
    · have hres : pathResolve env (baseDir.map JsVal.str) (some (JsVal.str f)) =
          Except.ok (env.resolve (baseDir.getD ".") f) := by
        cases baseDir <;> rfl
      have ht : pathTruthy (some (JsVal.str f)) = true := by simpa [pathTruthy, truthy] using hf
      simp only [Option.map_some', Option.getD_some, hasImage, loadImage, ht, hres, Bool.not_true,
        Bool.false_eq_true, if_false]
      cases he : env.entry (env.resolve (baseDir.getD ".") f) with
      | absent =>
        refine ⟨false, by simp [existsSync, he], by simp [hf], by simp [existsSync, he], ?_⟩
        simp [existsSync, he]
      | dir =>
        refine ⟨false, by simp [existsSync, statIsFile, he], by simp [hf],
          by simp [existsSync, statIsFile, he], ?_⟩
        simp [existsSync, statIsFile, he]
      | file bytes =>
        refine ⟨true, by simp [existsSync, statIsFile, he], by simp [hf],
          by simp [existsSync, statIsFile, readFileSync, he], ?_⟩
        simp [existsSync, statIsFile, readFileSync, he]

/-- Claim C8 fails on the code: `hasImage` throws on a truthy path that is not a string.
The number 42, the boolean `true` and a sequence of strings are values `parseCSV` stores in
card fields; each passes the check `!filePath` and makes `path.resolve` throw a
`TypeError`, where the claim has `hasImage` return without throwing.  On string paths the
two helpers agree as claimed: the file `a.svg` is found and loaded, the directory `d` and
the missing `b.png` give `false` and a throw. -/
theorem hasImage_throws_on_non_string_path :
    hasImage demoImages (some (JsVal.num (JsNum.fin false 42 0))) (some (JsVal.str "img")) =
      Except.error pathTypeError ∧
    hasImage demoImages (some (JsVal.bool true)) (some (JsVal.str "img")) =
      Except.error pathTypeError ∧
    hasImage demoImages (some (JsVal.arr ["a.svg", "b.png"])) (some (JsVal.str "img")) =
      Except.error pathTypeError ∧
    Dict.get (processRow none [("name", "A"), ("image", "42")]) "image" =
      some (JsVal.num (JsNum.fin false 42 0)) ∧
    hasImage demoImages (some (JsVal.str "a.svg")) (some (JsVal.str "img")) = Except.ok true ∧
    loadImage demoImages (some (JsVal.str "a.svg")) (some (JsVal.str "img")) =
      Except.ok "data:image/svg+xml;base64,TWE=" ∧
    hasImage demoImages (some (JsVal.str "d")) (some (JsVal.str "img")) = Except.ok false ∧
    hasImage demoImages (some (JsVal.str "b.png")) (some (JsVal.str "img")) = Except.ok false ∧
    hasImage demoImages none (some (JsVal.str "img")) = Except.ok false := by
  refine ⟨rfl, rfl, rfl, by decide!, rfl, rfl, rfl, rfl, rfl⟩

theorem toLowerCase_drop (n : Nat) (cs : List Char) :
    toLowerCase (cs.drop n) = (toLowerCase cs).drop n := by
  unfold toLowerCase
  exact List.map_drop _ _ _

/-- Claim C9: both dispatchers switch on the lower-cased extension, so two paths whose
extensions differ only in case take the same branch; `parseData` returns `null` without
throwing when that extension is none of `csv`, `json`, `yml`, `yaml`, and `parseDataSync`
returns `null` when it is none of `json`, `yml`, `yaml`, in particular for `csv`, where
`parseData` runs the tabular parse. -/
theorem parseData_dispatch (δ : Type) (env : DataEnv δ) (filePath : String) :
    (switchKey filePath ∉ ["csv".data, "json".data, "yml".data, "yaml".data] →
      parseData env filePath = Except.ok none) ∧
    (switchKey filePath ∉ ["json".data, "yml".data, "yaml".data] →
      parseDataSync env filePath = Except.ok none) ∧
    (switchKey filePath = "csv".data →
      parseDataSync env filePath = Except.ok none ∧
      parseData env filePath =
        (env.readCSV filePath).map (fun p => some (DataResult.records (parseCSV p)))) ∧
    (∀ other : String,
      toLowerCase (extname other.data) = toLowerCase (extname filePath.data) →
      switchKey other = switchKey filePath) ∧
    switchKey "deck/cards.CSV" = "csv".data ∧
    switchKey "cards.Yaml" = "yaml".data ∧
    switchKey "notes.txt" = "txt".data := by
  refine ⟨?_, ?_, ?_, ?_, by decide, by decide, by decide⟩
  · intro h
    simp only [List.mem_cons, List.mem_singleton, List.not_mem_nil, or_false, not_or] at h
    unfold parseData
    simp only [if_neg h.1, h.2.1, h.2.2.1, h.2.2.2, or_self, if_false]
  · intro h
    simp only [List.mem_cons, List.mem_singleton, List.not_mem_nil, or_false, not_or] at h
    unfold parseDataSync
    simp only [h.1, h.2.1, h.2.2, or_self, if_false]
  · intro h
    have h1 : ¬ "csv".data = "yml".data := by decide
    have h2 : ¬ "csv".data = "yaml".data := by decide
    have h3 : ¬ "csv".data = "json".data := by decide
    constructor
    · unfold parseDataSync
      simp only [h, h1, h2, h3, or_self, if_false]
    · unfold parseData
      simp only [h, if_true]
  · intro other h
    unfold switchKey
    rw [toLowerCase_drop, toLowerCase_drop, h]

/-! ## Running effects -/

theorem Eff.pure_apply {α : Type} (a : α) (w : World) :
    (pure a : Eff α) w = (Outcome.ok a, w) := rfl

theorem Eff.bind_ok {α β : Type} (x : Eff α) (f : α → Eff β) (w w1 : World) (a : α)
    (h : x w = (Outcome.ok a, w1)) : (x >>= f) w = f a w1 := by
  show Eff.bind x f w = _
  unfold Eff.bind
  rw [h]

theorem call_ok (host : Host) (op : Op) (w : World) (h : host.fails op = false) :
    call host op w = (Outcome.ok (), w) := by
  unfold call
  rw [h]
  rfl

theorem modifyWorld_apply (f : World → World) (w : World) :
    modifyWorld f w = (Outcome.ok (), f w) := rfl

theorem getWorld_apply (w : World) : getWorld w = (Outcome.ok w, w) := rfl

theorem liftExcept_ok {α : Type} (a : α) (w : World) :
    liftExcept (Except.ok a : Except String α) w = (Outcome.ok a, w) := rfl

theorem tryCatchFinally_ok {α : Type} (body : Eff α) (handler : String → Eff α)
    (fin : Eff Unit) (w w1 w2 : World) (a : α)
    (hb : body w = (Outcome.ok a, w1)) (hf : fin w1 = (Outcome.ok (), w2)) :
    tryCatchFinally body handler fin w = (Outcome.ok a, w2) := by
  unfold tryCatchFinally
  rw [hb]
  show runFinally fin (Outcome.ok a) w1 = _
  unfold runFinally
  rw [hf]

/-! ## The page loop -/

theorem counterLt_of_natValue (v : JsVal) (n : Nat) (h : natValue v = some n) (i : Nat) :
    counterLt i (some v) = decide (i < n) := by
  cases v with
  | num q =>
    cases q with
    | fin neg m e =>
      simp only [natValue] at h
      simp only [counterLt, toNumber]
      by_cases hm : m = 0
      · rw [if_pos hm] at h
        have hn : n = 0 := (Option.some.inj h).symm
        subst hm hn
        cases neg <;> simp [natLt]
      · rw [if_neg hm] at h
        cases neg with
        | true => simp at h
        | false =>
          simp only [Bool.false_eq_true, if_false] at h
          by_cases he : 0 ≤ e
          · rw [if_pos he] at h
            have hn := Option.some.inj h
            simp [natLt, he, hn]
          · rw [if_neg he] at h
            by_cases hd : 10 ^ (-e).toNat ∣ m
            · rw [if_pos hd] at h
              have hn := Option.some.inj h
              simp only [natLt, if_neg he]
              rw [← hn, decide_eq_decide, Nat.lt_div_iff_mul_lt hd, Nat.mul_comm]
            · rw [if_neg hd] at h
              cases h
    | nan => simp [natValue] at h
    | inf neg => simp [natValue] at h
  | null => simp [natValue] at h
  | bool b => simp [natValue] at h
  | str s => simp [natValue] at h
  | arr xs => simp [natValue] at h

/-- The page loop appends as many tags as the quantity says, given budget for them. -/
theorem imgLoop_replicate (quantity : Option JsVal) (n : Nat)
    (hq : ∀ i, counterLt i quantity = decide (i < n)) (s : String) :
    ∀ (fuel i : Nat) (c : List String), i ≤ n → n - i < fuel →
      imgLoop fuel i quantity s c = some (c ++ List.replicate (n - i) (imgTag s)) := by
  intro fuel
  induction fuel with
  | zero => intro i c _ h; exact absurd h (Nat.not_lt_zero _)
  | succ fuel ih =>
    intro i c hi hfuel
    unfold imgLoop
    rw [hq i]
    by_cases hlt : i < n
    · simp only [hlt, decide_True, if_true]
      rw [ih (i + 1) _ hlt (by omega)]
      have : n - i = (n - (i + 1)) + 1 := by omega
      rw [this, List.replicate_succ]
      simp
    · simp only [hlt, decide_False, Bool.false_eq_true, if_false]
      have : n - i = 0 := by omega
      rw [this]
      simp

/-! ## Claim about the coercion of merged sequences -/

/-- The coercion of a one-element array goes through the array's `toString`, which is
its element. -/
theorem coerceValue_singleton (s : String) (hs : s ≠ "") :
    coerceValue (JsVal.arr [s]) =
      some (if s = "TRUE" then JsVal.bool true
        else if s = "FALSE" then JsVal.bool false
        else if stringToNumber s.data ≠ JsNum.nan then JsVal.num (stringToNumber s.data)
        else JsVal.arr [s]) := by
  have hj : joinComma [s] = s.data := by
    simp [joinComma, List.intercalate, List.intersperse]
  have hd : ∀ t : String, (s.data = t.data) ↔ (s = t) := by
    intro t
    constructor
    · intro h
      cases s; cases t
      simp only at h
      rw [h]
    · intro h; rw [h]
  unfold coerceValue
  simp only [truthy, looseEqStr, isNaN, toNumber, hj, hd, Bool.not_true, Bool.false_eq_true,
    if_false, decide_eq_true_eq, Bool.not_eq_true', decide_eq_false_iff_not]
  split_ifs <;> first | rfl | (exfalso; contradiction)

theorem not_mem_cellList (c : Option String) : "" ∉ cellList c := by
  unfold cellList
  cases c with
  | none => simp
  | some s =>
    by_cases hs : s ≠ ""
    · simp only [if_pos hs]; simpa using Ne.symm hs
    · simp only [if_neg hs]; simp

/-- No array the merge collects has an empty entry. -/
theorem foldl_mergePair_entries (ps : Dict String) (st : RawRow × Dict (List String))
    (hne : ∀ x xs, Dict.get st.2 x = some xs → "" ∉ xs) :
    ∀ x xs, Dict.get (ps.foldl mergePair st).2 x = some xs → "" ∉ xs := by
  induction ps generalizing st with
  | nil => exact hne
  | cons p rest ih =>
    obtain ⟨k, v⟩ := p
    obtain ⟨r, d⟩ := st
    rw [List.foldl_cons]
    apply ih
    intro x xs hx
    by_cases h : cellTruthy (Dict.get r v) = true
    · by_cases hxv : x = v
      · rw [hxv, mergePair_data_self r d k v h] at hx
        have hx2 := Option.some.inj hx
        rw [← hx2]
        intro hc
        rcases List.mem_append.1 hc with h1 | h1
        · cases hd : Dict.get d v with
          | some ys =>
            rw [hd] at h1
            exact hne v ys hd h1
          | none =>
            rw [hd] at h1
            exact not_mem_cellList _ h1
        · exact not_mem_cellList _ h1
      · rw [mergePair_data_ne r d k v x hxv] at hx
        exact hne x xs hx
    · rw [mergePair_skip r d k v (by simpa using h)] at hx
      exact hne x xs hx

/-- Claim C11, as stated, fails: for the header `name,color,color` the rows `A,42,` and
`B,TRUE,` leave the one-element sequences `["42"]` and `["TRUE"]` under `color` after the
merge step, and the coercion step replaces them by the number 42 and the boolean `true`. -/
theorem coercion_replaces_singleton_sequence :
    Dict.get (mergeRow [("color_1", "color")]
      [("name", "A"), ("color", "42"), ("color_1", "")]) "color" =
      some (JsVal.arr ["42"]) ∧
    Dict.get (mergeRow [("color_1", "color")]
      [("name", "B"), ("color", "TRUE"), ("color_1", "")]) "color" =
      some (JsVal.arr ["TRUE"]) ∧
    parseCSV originalOnlySheet =
      [[("name", JsVal.str "A"), ("color", JsVal.num (JsNum.fin false 42 0))],
        [("name", JsVal.str "B"), ("color", JsVal.bool true)]] := by
  decide!

/-- Claim C11 (amended): a field that holds a sequence after the merge step still holds the
same sequence after the coercion step when the sequence has two or more elements, whatever
they are; a one-element sequence is coerced as its single element would be, so it is
replaced by `true` for `TRUE`, by `false` for `FALSE`, by the number for numeric text, and
is kept as a one-element sequence otherwise. -/
theorem coercion_of_merged_sequence (rh : Dict String) (row : RawRow)
    (hnd : (Dict.keys row).Nodup) (x : String) (xs : List String)
    (h : Dict.get (mergeRow rh row) x = some (JsVal.arr xs)) :
    xs ≠ [] ∧
    (2 ≤ xs.length → Dict.get (processRow (some rh) row) x = some (JsVal.arr xs)) ∧
    (∀ s, xs = [s] →
      Dict.get (processRow (some rh) row) x =
        some (if s = "TRUE" then JsVal.bool true
          else if s = "FALSE" then JsVal.bool false
          else if stringToNumber s.data ≠ JsNum.nan then JsVal.num (stringToNumber s.data)
          else JsVal.arr [s])) := by
  have hne : xs ≠ [] := by
    rcases mergeRow_values rh row x _ h with ⟨s, hs⟩ | ⟨ys, hys, hy⟩
    · cases hs
    · cases hys; exact hy
  have hmem : "" ∉ xs := by
    rw [get_mergeRow] at h
    cases hd : Dict.get (rh.foldl mergePair (row, [])).2 x with
    | some ys =>
      rw [hd] at h
      have hys : ys = xs := JsVal.arr.inj (Option.some.inj h)
      rw [← hys]
      exact foldl_mergePair_entries rh (row, []) (fun y zs hy => by cases hy) x ys hd
    | none =>
      rw [hd] at h
      cases hr : Dict.get (rh.foldl mergePair (row, [])).1 x with
      | none => rw [hr] at h; cases h
      | some t => rw [hr] at h; cases h
  refine ⟨hne, ?_, ?_⟩
  · intro hlen
    rw [get_processRow_some rh row hnd x, h]
    match xs, hlen with
    | a :: b :: rest, _ => exact coerceValue_arr a b rest
  · intro s hs
    rw [get_processRow_some rh row hnd x, h, hs]
    apply coerceValue_singleton
    intro e
    apply hmem
    rw [hs, e]
    exact List.mem_singleton_self _

/-- The rows `A,42,` and `A,red,blue` under the header `name,color,color`: the sequence
`["42"]` becomes the number 42, the sequence `["red", "blue"]` stays. -/
theorem coercion_of_merged_sequence_witness :
    Dict.get (processRow (some [("color_1", "color")])
      [("name", "A"), ("color", "42"), ("color_1", "")]) "color" =
      some (JsVal.num (JsNum.fin false 42 0)) ∧
    Dict.get (processRow (some [("color_1", "color")])
      [("name", "A"), ("color", "red"), ("color_1", "blue")]) "color" =
      some (JsVal.arr ["red", "blue"]) :=
  ⟨((coercion_of_merged_sequence [("color_1", "color")]
      [("name", "A"), ("color", "42"), ("color_1", "")] (by decide) "color" ["42"]
      (by decide)).2.2 "42" rfl).trans (by decide!),
    (coercion_of_merged_sequence [("color_1", "color")]
      [("name", "A"), ("color", "red"), ("color_1", "blue")] (by decide) "color"
      ["red", "blue"] (by decide)).2.1 (by decide)⟩

/-! ## Runs on which no call rejects -/

theorem Eff.bind_apply {α β : Type} (x : Eff α) (f : α → Eff β) (w : World) :
    (x >>= f) w =
      match x w with
      | (Outcome.ok a, w1) => f a w1
      | (Outcome.thrown e, w1) => (Outcome.thrown e, w1)
      | (Outcome.exited c, w1) => (Outcome.exited c, w1)
      | (Outcome.stuck, w1) => (Outcome.stuck, w1) := rfl

theorem run_pure {α : Type} (a : α) (w : World) :
    (Pure.pure a : Eff α) w = (Outcome.ok a, w) := rfl

theorem call_all_ok (host : Host) (hfail : ∀ op, host.fails op = false) (op : Op) (w : World) :
    call host op w = (Outcome.ok (), w) :=
  call_ok host op w (hfail op)

theorem createPage_ok (host : Host) (hfail : ∀ op, host.fails op = false) (i : Nat)
    (width height : Option Nat) (w : World) :
    ∃ w1, createPage host i width height w = (Outcome.ok (PageRef.card i), w1) ∧
      w1.openPages = w.openPages ++ [PageRef.card i] ∧ w1.pageVar = w.pageVar ∧
      w1.browserVar = w.browserVar ∧ w1.browserOpen = w.browserOpen ∧
      w1.gridImages = w.gridImages ∧ w1.pdfExports = w.pdfExports := by
  unfold createPage
  simp only [Eff.bind_apply, call_all_ok host hfail, modifyWorld_apply, run_pure]
  exact ⟨_, rfl, rfl, rfl, rfl, rfl, rfl, rfl⟩

/-- On a host where no call rejects, a card whose markup and file name evaluate is
processed to a normal end; the accumulators grow by the card's raster (when a PDF is
requested) and by the card's quantity. -/
theorem processCard_ok (host : Host) (hfail : ∀ op, host.fails op = false) (config : Config)
    (count index : Nat) (card : Obj) (acc : List String × List JsVal) (w : World)
    (r : String × Obj)
    (hhtml : generateHTML host config.template config
      { card := card, index := index, count := count } = Except.ok r)
    (hname : config.png = true → ∃ s, host.render config.pngFilename config
      { card := r.2, index := index, count := count } = Except.ok s) :
    ∃ w1, processCard host config count index card acc w =
        (Outcome.ok ((if config.pdf then acc.1 ++ [host.screenshot r.1] else acc.1),
          acc.2 ++ [quantityOf r.2 config.quantityKey]), w1) ∧
      w1.browserVar = w.browserVar ∧ w1.browserOpen = w.browserOpen ∧
      w1.pdfExports = w.pdfExports := by
  cases hpng : config.png with
  | true =>
    obtain ⟨s, hs⟩ := hname hpng
    cases hpdf : config.pdf with
    | true =>
      simp only [processCard, tryCatchFinally, runFinally, closeCardPage, createPage, savePNG,
        Eff.bind_apply, call_all_ok host hfail, modifyWorld_apply, getWorld_apply,
        run_pure, hhtml, liftExcept_ok, hpng, hpdf, hs, if_true, List.mem_append,
        List.mem_singleton, or_true, Bool.false_eq_true, if_false, eq_self_iff_true]
      exact ⟨_, rfl, rfl, rfl, rfl⟩
    | false =>
      simp only [processCard, tryCatchFinally, runFinally, closeCardPage, createPage, savePNG,
        Eff.bind_apply, call_all_ok host hfail, modifyWorld_apply, getWorld_apply,
        run_pure, hhtml, liftExcept_ok, hpng, hpdf, hs, if_true, List.mem_append,
        List.mem_singleton, or_true, Bool.false_eq_true, if_false, eq_self_iff_true]
      exact ⟨_, rfl, rfl, rfl, rfl⟩
  | false =>
    cases hpdf : config.pdf with
    | true =>
      simp only [processCard, tryCatchFinally, runFinally, closeCardPage, createPage, savePNG,
        Eff.bind_apply, call_all_ok host hfail, modifyWorld_apply, getWorld_apply,
        run_pure, hhtml, liftExcept_ok, hpng, hpdf, if_true, List.mem_append,
        List.mem_singleton, or_true, Bool.false_eq_true, if_false, eq_self_iff_true]
      exact ⟨_, rfl, rfl, rfl, rfl⟩
    | false =>
      simp only [processCard, tryCatchFinally, runFinally, closeCardPage, createPage, savePNG,
        Eff.bind_apply, call_all_ok host hfail, modifyWorld_apply, getWorld_apply,
        run_pure, hhtml, liftExcept_ok, hpng, hpdf, if_true, List.mem_append,
        List.mem_singleton, or_true, Bool.false_eq_true, if_false, eq_self_iff_true]
      exact ⟨_, rfl, rfl, rfl, rfl⟩

/-! ## What `generateHTML` leaves of a card -/

theorem renderCardField_get (host : Host) (c c1 : Obj) (i k : String)
    (h : renderCardField host c i = Except.ok c1)
    (hk : ∀ s, Dict.get c k ≠ some (JsVal.str s)) : Dict.get c1 k = Dict.get c k := by
  unfold renderCardField at h
  cases hget : Dict.get c i with
  | none =>
    rw [hget] at h
    cases h; rfl
  | some v =>
    rw [hget] at h
    cases v with
    | str value =>
      simp only [] at h
      cases hr : host.renderField value (Dict.erase c i) with
      | error e => rw [hr] at h; cases h
      | ok s =>
        rw [hr] at h
        cases h
        have hik : k ≠ i := by
          intro e
          rw [e] at hk
          exact hk value hget
        rw [Dict.get_set_ne _ _ _ _ hik, Dict.get_erase_ne _ _ _ hik]
    | null => cases h; rfl
    | bool b => cases h; rfl
    | num n => cases h; rfl
    | arr xs => cases h; rfl

/-- A field that is absent or holds no string is the same after the loop over the card's
fields. -/
theorem renderCardFields_get (host : Host) (k : String) (keys : List String) (c c1 : Obj)
    (h : keys.foldlM (renderCardField host) c = Except.ok c1)
    (hk : ∀ s, Dict.get c k ≠ some (JsVal.str s)) : Dict.get c1 k = Dict.get c k := by
  induction keys generalizing c with
  | nil =>
    cases h; rfl
  | cons i rest ih =>
    rw [List.foldlM_cons] at h
    cases hstep : renderCardField host c i with
    | error e => rw [hstep] at h; cases h
    | ok c2 =>
      rw [hstep] at h
      have h2 := renderCardField_get host c c2 i k hstep hk
      have := ih c2 h (fun s => by rw [h2]; exact hk s)
      rw [this, h2]

theorem generateHTML_card (host : Host) (filePath : String) (config : Config)
    (data : TemplateData) (r : String × Obj)
    (h : generateHTML host filePath config data = Except.ok r) :
    renderCardFields host data.card = Except.ok r.2 := by
  unfold generateHTML at h
  cases h1 : renderCardFields host data.card with
  | error e => rw [h1] at h; cases h
  | ok card1 =>
    rw [h1] at h
    simp only [] at h
    cases h2 : host.readTemplate filePath with
    | error e => rw [h2] at h; cases h
    | ok template =>
      rw [h2] at h
      simp only [] at h
      cases h3 : host.render template config { data with card := card1 } with
      | error e => rw [h3] at h; cases h
      | ok html =>
        rw [h3] at h
        cases h
        rfl

/-- The quantity read after `generateHTML` is the quantity of the card as given, when the
field is absent or holds no string. -/
theorem quantityOf_rendered (host : Host) (filePath : String) (config : Config)
    (data : TemplateData) (r : String × Obj) (key : String)
    (h : generateHTML host filePath config data = Except.ok r)
    (hk : ∀ s, Dict.get data.card key ≠ some (JsVal.str s)) :
    quantityOf r.2 key = quantityOf data.card key := by
  have h1 := generateHTML_card host filePath config data r h
  unfold renderCardFields at h1
  unfold quantityOf
  rw [renderCardFields_get host key _ _ _ h1 hk]

theorem not_str_of_natValue (card : Obj) (key : String) (n : Nat)
    (h : natValue (quantityOf card key) = some n) (s : String) :
    Dict.get card key ≠ some (JsVal.str s) := by
  intro e
  unfold quantityOf at h
  rw [e] at h
  simp [natValue] at h

theorem renderCardField_get_ne (host : Host) (c c1 : Obj) (i k : String)
    (h : renderCardField host c i = Except.ok c1) (hik : k ≠ i) :
    Dict.get c1 k = Dict.get c k := by
  unfold renderCardField at h
  cases hget : Dict.get c i with
  | none =>
    rw [hget] at h
    cases h; rfl
  | some v =>
    rw [hget] at h
    cases v with
    | str value =>
      simp only [] at h
      cases hr : host.renderField value (Dict.erase c i) with
      | error e => rw [hr] at h; cases h
      | ok s =>
        rw [hr] at h
        cases h
        rw [Dict.get_set_ne _ _ _ _ hik, Dict.get_erase_ne _ _ _ hik]
    | null => cases h; rfl
    | bool b => cases h; rfl
    | num n => cases h; rfl
    | arr xs => cases h; rfl

theorem foldlM_renderCardField_get_ne (host : Host) (k : String) (keys : List String)
    (c c1 : Obj) (h : keys.foldlM (renderCardField host) c = Except.ok c1)
    (hk : k ∉ keys) : Dict.get c1 k = Dict.get c k := by
  induction keys generalizing c with
  | nil => cases h; rfl
  | cons i rest ih =>
    rw [List.foldlM_cons] at h
    cases hstep : renderCardField host c i with
    | error e => rw [hstep] at h; cases h
    | ok c2 =>
      rw [hstep] at h
      have hki : k ≠ i := fun e => hk (e ▸ List.mem_cons_self _ _)
      have hrest : k ∉ rest := fun e => hk (List.mem_cons_of_mem _ e)
      rw [ih c2 h hrest, renderCardField_get_ne host c c2 i k hstep hki]

/-- A string field is replaced by what the template evaluator returns for its text, on the
card without that field and with the fields before it already rewritten. -/
theorem foldlM_renderCardField_get_str (host : Host) (key s : String) (keys : List String)
    (c card1 : Obj) (hmem : key ∈ keys) (hnd : keys.Nodup)
    (hs : Dict.get c key = some (JsVal.str s))
    (h : keys.foldlM (renderCardField host) c = Except.ok card1) :
    ∃ c1 t, (keys.takeWhile (fun i => decide (i ≠ key))).foldlM (renderCardField host) c =
        Except.ok c1 ∧
      host.renderField s (Dict.erase c1 key) = Except.ok t ∧
      Dict.get card1 key = some (JsVal.str t) := by
  induction keys generalizing c with
  | nil => cases hmem
  | cons i rest ih =>
    rw [List.foldlM_cons] at h
    rw [List.nodup_cons] at hnd
    cases hstep : renderCardField host c i with
    | error e => rw [hstep] at h; cases h
    | ok c2 =>
      rw [hstep] at h
      by_cases hik : i = key
      · subst hik
        have htw : (i :: rest).takeWhile (fun j => decide (j ≠ i)) = [] := by
          simp [List.takeWhile_cons]
        rw [htw]
        unfold renderCardField at hstep
        rw [hs] at hstep
        simp only [] at hstep
        cases hr : host.renderField s (Dict.erase c i) with
        | error e => rw [hr] at hstep; cases hstep
        | ok t =>
          rw [hr] at hstep
          cases hstep
          refine ⟨c, t, rfl, hr, ?_⟩
          rw [foldlM_renderCardField_get_ne host i rest _ card1 h hnd.1]
          exact Dict.get_set_self _ _ _
      · have hmem2 : key ∈ rest := by
          rcases List.mem_cons.1 hmem with e | e
          · exact absurd e.symm hik
          · exact e
        have hs2 : Dict.get c2 key = some (JsVal.str s) := by
          rw [renderCardField_get_ne host c c2 i key hstep (Ne.symm hik)]
          exact hs
        obtain ⟨c1, t, h1, h2, h3⟩ := ih c2 hmem2 hnd.2 hs2 h
        refine ⟨c1, t, ?_, h2, h3⟩
        have htw : (i :: rest).takeWhile (fun j => decide (j ≠ key)) =
            i :: rest.takeWhile (fun j => decide (j ≠ key)) := by
          simp [List.takeWhile_cons, hik]
        rw [htw, List.foldlM_cons, hstep]
        exact h1

/-! ## The loop over the cards and the grid, when nothing fails -/

theorem cardMarkup_eq (host : Host) (config : Config) (count i : Nat) (card : Obj)
    (r : String × Obj)
    (h : generateHTML host config.template config
      { card := card, index := i, count := count } = Except.ok r) :
    cardMarkup host config count i card = r.1 := by
  unfold cardMarkup
  rw [h]

theorem cardQuantity_eq (host : Host) (config : Config) (count i : Nat) (card : Obj)
    (r : String × Obj)
    (h : generateHTML host config.template config
      { card := card, index := i, count := count } = Except.ok r) :
    cardQuantity host config count i card = quantityOf r.2 config.quantityKey := by
  unfold cardQuantity
  rw [h]

/-- The loop over the cards ends normally with the rasters and the quantities of the
cards, in card order, appended to the two accumulators. -/
theorem cardLoop_ok (host : Host) (hfail : ∀ op, host.fails op = false) (config : Config)
    (count : Nat) (cards : List Obj) :
    ∀ (i : Nat) (acc : List String × List JsVal) (w : World),
      (∀ card ∈ cards, ∀ j, ∃ r, generateHTML host config.template config
          { card := card, index := j, count := count } = Except.ok r ∧
        (config.png = true → ∃ s, host.render config.pngFilename config
          { card := r.2, index := j, count := count } = Except.ok s)) →
      ∃ w1, cardLoop host config count i cards acc w =
          (Outcome.ok
            (acc.1 ++ (if config.pdf then rastersFrom host config count i cards else []),
              acc.2 ++ quantitiesFrom host config count i cards), w1) ∧
        w1.browserVar = w.browserVar ∧ w1.browserOpen = w.browserOpen ∧
        w1.pdfExports = w.pdfExports := by
  induction cards with
  | nil =>
    intro i acc w _
    refine ⟨w, ?_, rfl, rfl, rfl⟩
    show (Outcome.ok acc, w) = _
    simp [rastersFrom, quantitiesFrom]
  | cons card rest ih =>
    intro i acc w hcards
    obtain ⟨r, hr, hname⟩ := hcards card (List.mem_cons_self _ _) i
    obtain ⟨w1, hproc, hb1, hb2, hb3⟩ :=
      processCard_ok host hfail config count i card acc w r hr hname
    obtain ⟨w2, hloop, hc1, hc2, hc3⟩ :=
      ih (i + 1)
        ((if config.pdf then acc.1 ++ [host.screenshot r.1] else acc.1),
          acc.2 ++ [quantityOf r.2 config.quantityKey]) w1
        (fun c hc => hcards c (List.mem_cons_of_mem _ hc))
    refine ⟨w2, ?_, hc1.trans hb1, hc2.trans hb2, hc3.trans hb3⟩
    show (processCard host config count i card acc >>=
      fun acc1 => cardLoop host config count (i + 1) rest acc1) w = _
    rw [Eff.bind_ok _ _ w w1 _ hproc, hloop]
    simp only [rastersFrom, quantitiesFrom, cardMarkup_eq host config count i card r hr,
      cardQuantity_eq host config count i card r hr]
    cases config.pdf <;> simp

theorem rastersFrom_length (host : Host) (config : Config) (count : Nat) (cards : List Obj) :
    ∀ i, (rastersFrom host config count i cards).length = cards.length := by
  induction cards with
  | nil => intro i; rfl
  | cons card rest ih => intro i; simp [rastersFrom, ih]

theorem quantitiesFrom_length (host : Host) (config : Config) (count : Nat)
    (cards : List Obj) :
    ∀ i, (quantitiesFrom host config count i cards).length = cards.length := by
  induction cards with
  | nil => intro i; rfl
  | cons card rest ih => intro i; simp [quantitiesFrom, ih]

/-- One `evaluate` call appends the image tag as many times as the quantity says. -/
theorem evaluateImages_ok (host : Host) (hfail : ∀ op, host.fails op = false) (fuel i : Nat)
    (screenshot : String) (q : JsVal) (n : Nat) (hq : natValue q = some n) (hn : n < fuel)
    (w : World) :
    evaluateImages host fuel i screenshot (some q) w =
      (Outcome.ok (),
        { w with gridImages := w.gridImages ++ List.replicate n (imgTag screenshot) }) := by
  have hloop := imgLoop_replicate (some q) n (counterLt_of_natValue q n hq) screenshot fuel 0
    w.gridImages (Nat.zero_le _) (by omega)
  simp only [Nat.sub_zero] at hloop
  simp only [evaluateImages, Eff.bind_apply, call_all_ok host hfail, getWorld_apply, hloop,
    modifyWorld_apply]

theorem get?_append_length {α : Type} (pre : List α) (a : α) (l : List α) :
    (pre ++ a :: l).get? pre.length = some a := by
  induction pre with
  | nil => rfl
  | cons b rest ih => simpa using ih

/-- The loop over the buffers fills the container with each card's image, repeated as its
quantity says, in card order. -/
theorem gridLoop_ok (host : Host) (hfail : ∀ op, host.fails op = false) (fuel : Nat)
    (config : Config) (count : Nat) (cards : List Obj) :
    ∀ (i : Nat) (pre : List JsVal) (w : World), pre.length = i →
      (∀ card ∈ cards, ∃ n, natValue (quantityOf card config.quantityKey) = some n ∧
        n < fuel) →
      (∀ card ∈ cards, ∀ j, ∃ r, generateHTML host config.template config
        { card := card, index := j, count := count } = Except.ok r) →
      gridLoop host fuel (pre ++ quantitiesFrom host config count i cards) i
          (rastersFrom host config count i cards) w =
        (Outcome.ok (),
          { w with gridImages := w.gridImages ++ expectedGrid host config count i cards }) := by
  induction cards with
  | nil =>
    intro i pre w _ _ _
    show (Outcome.ok (), w) = _
    simp [expectedGrid]
  | cons card rest ih =>
    intro i pre w hpre hq hhtml
    obtain ⟨n, hn, hfuel⟩ := hq card (List.mem_cons_self _ _)
    obtain ⟨r, hr⟩ := hhtml card (List.mem_cons_self _ _) i
    have hquant : cardQuantity host config count i card =
        quantityOf card config.quantityKey := by
      rw [cardQuantity_eq host config count i card r hr]
      exact quantityOf_rendered host config.template config
        { card := card, index := i, count := count } r config.quantityKey hr
        (not_str_of_natValue card config.quantityKey n hn)
    have hget : (pre ++ quantitiesFrom host config count i (card :: rest)).get? i =
        some (quantityOf card config.quantityKey) := by
      subst hpre
      simp only [quantitiesFrom, hquant]
      exact get?_append_length _ _ _
    have hev := evaluateImages_ok host hfail fuel i
      (host.screenshot (cardMarkup host config count i card))
      (quantityOf card config.quantityKey) n hn hfuel w
    have hrest := ih (i + 1) (pre ++ [cardQuantity host config count i card])
      { w with gridImages := w.gridImages ++
        List.replicate n (imgTag (host.screenshot (cardMarkup host config count i card))) }
      (by simp [hpre])
      (fun c hc => hq c (List.mem_cons_of_mem _ hc))
      (fun c hc => hhtml c (List.mem_cons_of_mem _ hc))
    have happ : pre ++ [cardQuantity host config count i card] ++
        quantitiesFrom host config count (i + 1) rest =
        pre ++ quantitiesFrom host config count i (card :: rest) := by
      simp [quantitiesFrom]
    rw [happ] at hrest
    show (evaluateImages host fuel i (host.screenshot (cardMarkup host config count i card))
        ((pre ++ quantitiesFrom host config count i (card :: rest)).get? i) >>=
      fun _ => gridLoop host fuel (pre ++ quantitiesFrom host config count i (card :: rest))
        (i + 1) (rastersFrom host config count (i + 1) rest)) w = _
    rw [hget, Eff.bind_ok _ _ w _ _ hev, hrest]
    simp [expectedGrid, hn, List.append_assoc]

/-- The function `savePDF` on the accumulators of a run in which nothing fails: the
container holds the expected images and one export is recorded. -/
theorem savePDF_ok (host : Host) (hfail : ∀ op, host.fails op = false) (fuel : Nat)
    (config : Config) (count : Nat) (cards : List Obj) (outPath : String) (dpi : JsNum)
    (format margin : String) (w : World)
    (hq : ∀ card ∈ cards, ∃ n, natValue (quantityOf card config.quantityKey) = some n ∧
      n < fuel)
    (hhtml : ∀ card ∈ cards, ∀ j, ∃ r, generateHTML host config.template config
      { card := card, index := j, count := count } = Except.ok r)
 :
    ∃ w1, savePDF host fuel (rastersFrom host config count 0 cards)
        (quantitiesFrom host config count 0 cards) outPath dpi format margin w =
        (Outcome.ok (), w1) ∧
      w1.gridImages = expectedGrid host config count 0 cards ∧
      w1.pdfExports = w.pdfExports ++ [pdfOptions outPath dpi format margin] ∧
      w1.browserVar = w.browserVar ∧ w1.browserOpen = w.browserOpen := by
  have hloop := fun w0 => gridLoop_ok host hfail fuel config count cards 0 [] w0 rfl hq hhtml
  simp only [List.nil_append] at hloop
  simp only [savePDF, tryCatchFinally, runFinally, closeGridPage, Eff.bind_apply,
    call_all_ok host hfail, modifyWorld_apply, getWorld_apply, run_pure, hloop,
    List.mem_append, List.mem_singleton, or_true, and_self, if_true, List.nil_append]
  exact ⟨_, rfl, rfl, rfl, rfl, rfl⟩

/-- A run that asks for a PDF, on a host where no call rejects and every card's markup and
file name evaluate, with natural quantities within the step budget: it ends normally, the
browser is closed, the container holds the expected images, and one export is recorded. -/
theorem generateOutput_ok (host : Host) (hfail : ∀ op, host.fails op = false) (fuel : Nat)
    (config : Config) (data : List Obj) (hpdf : config.pdf = true)
    (hq : ∀ card ∈ data, ∃ n, natValue (quantityOf card config.quantityKey) = some n ∧
      n < fuel)
    (hcards : ∀ card ∈ data, ∀ j, ∃ r, generateHTML host config.template config
        { card := card, index := j, count := data.length } = Except.ok r ∧
      (config.png = true → ∃ s, host.render config.pngFilename config
        { card := r.2, index := j, count := data.length } = Except.ok s)) :
    ∃ w1, generateOutput host fuel config data World.init = (Outcome.ok (), w1) ∧
      w1.gridImages = expectedGrid host config data.length 0 data ∧
      w1.pdfExports = [pdfOptions (host.resolve config.outDir config.pdfFilename) config.dpi
        config.pdfFormat config.pdfMargin] ∧
      w1.browserOpen = false := by
  have hhtml : ∀ card ∈ data, ∀ j, ∃ r, generateHTML host config.template config
      { card := card, index := j, count := data.length } = Except.ok r := by
    intro card hc j
    obtain ⟨r, hr, _⟩ := hcards card hc j
    exact ⟨r, hr⟩
  obtain ⟨w1, hloop, hb1, hb2, hb3⟩ := cardLoop_ok host hfail config data.length data 0
    ([], []) { World.init with browserVar := true, browserOpen := true } hcards
  simp only [hpdf, if_true, List.nil_append] at hloop
  obtain ⟨w2, hsave, hg, he, hv, ho⟩ := savePDF_ok host hfail fuel config data.length data
    (host.resolve config.outDir config.pdfFilename) config.dpi config.pdfFormat
    config.pdfMargin w1 hq hhtml
  have hbody : (do
        call host Op.launch
        modifyWorld (fun w => { w with browserVar := true, browserOpen := true })
        let acc ← cardLoop host config data.length 0 data ([], [])
        if config.pdf then
          savePDF host fuel acc.1 acc.2 (host.resolve config.outDir config.pdfFilename)
            config.dpi config.pdfFormat config.pdfMargin
        else pure () : Eff Unit) World.init = (Outcome.ok (), w2) := by
    simp only [Eff.bind_apply, call_all_ok host hfail, modifyWorld_apply]
    have hinit : ({ World.init with browserVar := true, browserOpen := true } : World) =
        { browserVar := true, browserOpen := true, pageVar := World.init.pageVar,
          gridPageVar := World.init.gridPageVar, openPages := World.init.openPages,
          viewports := World.init.viewports, pngFiles := World.init.pngFiles,
          gridImages := World.init.gridImages, pdfExports := World.init.pdfExports } := rfl
    rw [← hinit, hloop]
    simp only [hpdf, if_true, hsave]
  have hvar : w2.browserVar = true := by rw [hv, hb1]
  have hfin : closeBrowser host w2 = (Outcome.ok (), { w2 with browserOpen := false }) := by
    simp only [closeBrowser, Eff.bind_apply, getWorld_apply, hvar, if_true,
      call_all_ok host hfail, modifyWorld_apply]
  refine ⟨{ w2 with browserOpen := false }, ?_, hg, ?_, rfl⟩
  · unfold generateOutput
    have hnot : (!config.png && !config.pdf) = false := by simp [hpdf]
    rw [hnot]
    simp only [Bool.false_eq_true, if_false]
    exact tryCatchFinally_ok _ _ _ _ _ _ _ hbody hfin
  · show w2.pdfExports = _
    rw [he, hb3]
    rfl

/-- The recorded quantities are the quantities of the cards as given, index by index, when
these are natural numbers. -/
theorem quantitiesFrom_eq_map (host : Host) (config : Config) (count : Nat)
    (cards : List Obj) :
    ∀ i, (∀ card ∈ cards, ∃ n, natValue (quantityOf card config.quantityKey) = some n) →
      (∀ card ∈ cards, ∀ j, ∃ r, generateHTML host config.template config
        { card := card, index := j, count := count } = Except.ok r) →
      quantitiesFrom host config count i cards =
        cards.map (fun card => quantityOf card config.quantityKey) := by
  induction cards with
  | nil => intro i _ _; rfl
  | cons card rest ih =>
    intro i hq hhtml
    obtain ⟨n, hn⟩ := hq card (List.mem_cons_self _ _)
    obtain ⟨r, hr⟩ := hhtml card (List.mem_cons_self _ _) i
    have hquant : cardQuantity host config count i card =
        quantityOf card config.quantityKey := by
      rw [cardQuantity_eq host config count i card r hr]
      exact quantityOf_rendered host config.template config
        { card := card, index := i, count := count } r config.quantityKey hr
        (not_str_of_natValue card config.quantityKey n hn)
    simp only [quantitiesFrom, List.map_cons, hquant]
    rw [ih (i + 1) (fun c hc => hq c (List.mem_cons_of_mem _ hc))
      (fun c hc => hhtml c (List.mem_cons_of_mem _ hc))]

/-! ## Claims about `generateOutput` -/

/-- Claim C4, as stated, fails: a card whose quantity field holds the text `many` is
present but not numeric, so the claim records 1 for it; the code records the text itself,
and the page loop then adds no image for the card at all. -/
theorem quantity_text_is_recorded :
    Dict.get manyCard demoConfig.quantityKey = some (JsVal.str "many") ∧
    (cardLoop demoHost demoConfig 1 0 [manyCard] ([], []) World.init).1 =
      Outcome.ok (["png:T"], [JsVal.str "many"]) ∧
    (generateOutput demoHost 10 demoConfig [manyCard] World.init).1 = Outcome.ok () ∧
    (generateOutput demoHost 10 demoConfig [manyCard] World.init).2.gridImages = [] := by
  decide

/-- Claim C4 (amended): when a card is processed to the end, the value recorded for it is
`card[config.quantityKey] ?? 1` read after `generateHTML` has rewritten the card: the
field's own value whenever the field is present, not `null` and not a string (a number,
but also a boolean or a sequence); when the field is a string, the text the template
evaluator returns for it (evaluated on the card without that field, the fields before it
already rewritten); and 1 when the field is absent or `null`; a recorded 1 makes the page
loop add exactly one image. -/
theorem processCard_records_quantity (host : Host) (config : Config) (count index : Nat)
    (card : Obj) (acc : List String × List JsVal) (w : World) (r : String × Obj)
    (hfail : ∀ op, host.fails op = false)
    (hhtml : generateHTML host config.template config
      { card := card, index := index, count := count } = Except.ok r)
    (hname : config.png = true → ∃ s, host.render config.pngFilename config
      { card := r.2, index := index, count := count } = Except.ok s) :
    (∃ bufs w1, processCard host config count index card acc w =
      (Outcome.ok (bufs, acc.2 ++ [quantityOf r.2 config.quantityKey]), w1)) ∧
    (∀ v, Dict.get card config.quantityKey = some v → v ≠ JsVal.null →
      (∀ s, v ≠ JsVal.str s) → quantityOf r.2 config.quantityKey = v) ∧
    (∀ s, (Dict.keys card).Nodup → Dict.get card config.quantityKey = some (JsVal.str s) →
      ∃ c t,
        ((Dict.keys card).takeWhile (fun i => decide (i ≠ config.quantityKey))).foldlM
          (renderCardField host) card = Except.ok c ∧
        host.renderField s (Dict.erase c config.quantityKey) = Except.ok t ∧
        quantityOf r.2 config.quantityKey = JsVal.str t) ∧
    (Dict.get card config.quantityKey = none ∨
        Dict.get card config.quantityKey = some JsVal.null →
      quantityOf r.2 config.quantityKey = JsVal.num (JsNum.fin false 1 0)) ∧
    (∀ (fuel : Nat) (s : String) (c : List String),
      imgLoop (fuel + 2) 0 (some (JsVal.num (JsNum.fin false 1 0))) s c =
        some (c ++ [imgTag s])) := by
  refine ⟨?_, ?_, ?_, ?_, ?_⟩
  rotate_left 2
  · intro s hnd hs
    have h1 := generateHTML_card host config.template config
      { card := card, index := index, count := count } r hhtml
    unfold renderCardFields at h1
    obtain ⟨c, t, hc, ht, hget⟩ := foldlM_renderCardField_get_str host config.quantityKey s
      (Dict.keys card) card r.2 (Dict.mem_keys_of_get _ _ _ hs) hnd hs h1
    refine ⟨c, t, hc, ht, ?_⟩
    unfold quantityOf
    rw [hget]
  rotate_right 2
  · obtain ⟨w1, h, _⟩ := processCard_ok host hfail config count index card acc w r hhtml hname
    exact ⟨_, w1, h⟩
  · intro v hv hnull hstr
    have hk : ∀ s, Dict.get card config.quantityKey ≠ some (JsVal.str s) := by
      intro s e
      rw [hv] at e
      exact hstr s (Option.some.inj e)
    rw [quantityOf_rendered host config.template config
      { card := card, index := index, count := count } r config.quantityKey hhtml hk]
    unfold quantityOf
    rw [hv]
    cases v <;> first | rfl | exact absurd rfl hnull
  · intro hv
    have hk : ∀ s, Dict.get card config.quantityKey ≠ some (JsVal.str s) := by
      intro s e
      rcases hv with h | h <;> rw [h] at e <;> cases e
    rw [quantityOf_rendered host config.template config
      { card := card, index := index, count := count } r config.quantityKey hhtml hk]
    unfold quantityOf
    rcases hv with h | h <;> simp only [h]
  · intro fuel s c
    have := imgLoop_replicate (some (JsVal.num (JsNum.fin false 1 0))) 1
      (counterLt_of_natValue _ 1 (by decide)) s (fuel + 2) 0 c (Nat.zero_le _) (by omega)
    simpa using this

/-- The second demo card has no quantity field: 1 is recorded for it. -/
theorem processCard_records_quantity_witness :
    ∃ bufs w1, processCard demoHost demoConfig 2 1 [("name", JsVal.str "B")] ([], [])
      World.init = (Outcome.ok (bufs, [JsVal.num (JsNum.fin false 1 0)]), w1) :=
  (processCard_records_quantity demoHost demoConfig 2 1 [("name", JsVal.str "B")] ([], [])
    World.init ("T*", [("name", JsVal.str "B")]) (fun _ => rfl) rfl
    (fun _ => ⟨_, rfl⟩)).1

/-- Claim C5: when a PDF is requested and every card's quantity is a non-negative integer
(within the step budget of the page loop), on a host where no call rejects and every
card's markup and file name evaluate, `generateOutput` ends normally and the images in the
grid container are the concatenation, in card order, of each card's raster repeated
quantity-many times; the two accumulators handed to `savePDF` have the length of the card
list, and the quantity at each index is the quantity of the card at that index. -/
theorem generateOutput_grid_order (host : Host) (fuel : Nat) (config : Config)
    (data : List Obj) (hpdf : config.pdf = true)
    (hfail : ∀ op, host.fails op = false)
    (hq : ∀ card ∈ data, ∃ n, natValue (quantityOf card config.quantityKey) = some n ∧
      n < fuel)
    (hcards : ∀ card ∈ data, ∀ j, ∃ r, generateHTML host config.template config
        { card := card, index := j, count := data.length } = Except.ok r ∧
      (config.png = true → ∃ s, host.render config.pngFilename config
        { card := r.2, index := j, count := data.length } = Except.ok s)) :
    (generateOutput host fuel config data World.init).1 = Outcome.ok () ∧
    (generateOutput host fuel config data World.init).2.gridImages =
      expectedGrid host config data.length 0 data ∧
    (∀ w, ∃ w1, cardLoop host config data.length 0 data ([], []) w =
      (Outcome.ok (rastersFrom host config data.length 0 data,
        data.map (fun card => quantityOf card config.quantityKey)), w1)) ∧
    (rastersFrom host config data.length 0 data).length = data.length ∧
    (data.map (fun card => quantityOf card config.quantityKey)).length = data.length := by
  obtain ⟨w1, hrun, hgrid, _, _⟩ := generateOutput_ok host hfail fuel config data hpdf hq hcards
  refine ⟨by rw [hrun], by rw [hrun]; exact hgrid, ?_, rastersFrom_length _ _ _ _ _,
    List.length_map _ _⟩
  intro w
  obtain ⟨w2, hloop, _⟩ := cardLoop_ok host hfail config data.length data 0 ([], []) w hcards
  refine ⟨w2, ?_⟩
  rw [hloop]
  have hmap := quantitiesFrom_eq_map host config data.length data 0
    (fun c hc => (hq c hc).imp (fun _ h => h.1))
    (fun c hc j => (hcards c hc j).imp (fun _ h => h.1))
  simp only [hpdf, if_true, List.nil_append, hmap]

/-- Two cards, the first with quantity 2 and the second with none: the grid holds the
first card's image twice, then the second card's image once. -/
theorem generateOutput_grid_order_witness :
    (generateOutput demoHost 10 demoConfig demoCards World.init).1 = Outcome.ok () ∧
    (generateOutput demoHost 10 demoConfig demoCards World.init).2.gridImages =
      [imgTag "png:T", imgTag "png:T", imgTag "png:T*"] :=
  have h := generateOutput_grid_order demoHost 10 demoConfig demoCards rfl (fun _ => rfl)
    (by
      intro card hc
      simp only [demoCards, List.mem_cons, List.mem_singleton, List.not_mem_nil,
        or_false] at hc
      rcases hc with rfl | rfl
      · exact ⟨2, by decide, by decide⟩
      · exact ⟨1, by decide, by decide⟩)
    (by
      intro card hc j
      simp only [demoCards, List.mem_cons, List.mem_singleton, List.not_mem_nil,
        or_false] at hc
      rcases hc with rfl | rfl
      · exact ⟨_, rfl, fun _ => ⟨_, rfl⟩⟩
      · exact ⟨_, rfl, fun _ => ⟨_, rfl⟩⟩)
  ⟨h.1, h.2.1.trans (by decide)⟩

/-- Claim C6 fails on the code at the failure paths: with the template file missing, and
likewise with a PDF export that rejects, the run ends in `process.exit(1)` with the browser
launched and never closed (no PNG was written in the first case); only the run that
succeeds closes the browser. -/
theorem generateOutput_exit_leaves_browser_open :
    (generateOutput missingTemplateHost 10 demoConfig demoCards World.init).1 =
      Outcome.exited 1 ∧
    (generateOutput missingTemplateHost 10 demoConfig demoCards World.init).2.browserOpen =
      true ∧
    (generateOutput missingTemplateHost 10 demoConfig demoCards World.init).2.pngFiles = [] ∧
    (generateOutput failingPdfHost 10 demoConfig demoCards World.init).1 = Outcome.exited 1 ∧
    (generateOutput failingPdfHost 10 demoConfig demoCards World.init).2.browserOpen = true ∧
    (generateOutput failingPdfHost 10 demoConfig demoCards World.init).2.openPages =
      [PageRef.grid] ∧
    (generateOutput demoHost 10 demoConfig demoCards World.init).1 = Outcome.ok () ∧
    (generateOutput demoHost 10 demoConfig demoCards World.init).2.browserOpen = false := by
  decide

/-! ## What `savePDF` exports, whatever happens -/

theorem call_cases (host : Host) (op : Op) (w : World) :
    call host op w = (Outcome.ok (), w) ∨ call host op w = (Outcome.thrown "rejected", w) := by
  unfold call
  cases host.fails op
  · left; rfl
  · right; rfl

theorem evaluateImages_pdfExports (host : Host) (fuel i : Nat) (screenshot : String)
    (quantity : Option JsVal) (w : World) :
    (evaluateImages host fuel i screenshot quantity w).2.pdfExports = w.pdfExports := by
  simp only [evaluateImages, Eff.bind_apply, getWorld_apply]
  rcases call_cases host (Op.evaluate i) w with h | h
  · rw [h]
    simp only []
    cases imgLoop fuel 0 quantity screenshot w.gridImages <;> rfl
  · rw [h]

theorem gridLoop_pdfExports (host : Host) (fuel : Nat) (quantities : List JsVal)
    (bufs : List String) :
    ∀ (i : Nat) (w : World),
      (gridLoop host fuel quantities i bufs w).2.pdfExports = w.pdfExports := by
  induction bufs with
  | nil => intro i w; rfl
  | cons screenshot rest ih =>
    intro i w
    show ((evaluateImages host fuel i screenshot (quantities.get? i) >>=
      fun _ => gridLoop host fuel quantities (i + 1) rest) w).2.pdfExports = _
    rw [Eff.bind_apply]
    have h := evaluateImages_pdfExports host fuel i screenshot (quantities.get? i) w
    rcases hr : evaluateImages host fuel i screenshot (quantities.get? i) w with ⟨o, w1⟩
    rw [hr] at h
    cases o with
    | ok a => simp only []; rw [ih]; exact h
    | thrown e => exact h
    | exited c => exact h
    | stuck => exact h

theorem closeGridPage_pdfExports (host : Host) (w : World) :
    (closeGridPage host w).2.pdfExports = w.pdfExports := by
  simp only [closeGridPage, Eff.bind_apply, getWorld_apply]
  split
  · simp only [Eff.bind_apply, modifyWorld_apply]
    rcases call_cases host (Op.closePage PageRef.grid) w with h | h <;> rw [h]
  · rfl

theorem not_ok_thrown {α : Type} (e : String) :
    ¬ ∃ a : α, (Outcome.thrown e : Outcome α) = Outcome.ok a := by
  rintro ⟨a, ha⟩; cases ha

theorem not_ok_exited {α : Type} (c : Nat) :
    ¬ ∃ a : α, (Outcome.exited c : Outcome α) = Outcome.ok a := by
  rintro ⟨a, ha⟩; cases ha

theorem not_ok_stuck {α : Type} :
    ¬ ∃ a : α, (Outcome.stuck : Outcome α) = Outcome.ok a := by
  rintro ⟨a, ha⟩; cases ha

theorem tryCatchFinally_exit {α : Type} (body : Eff α) (fin : Eff Unit) (w : World)
    (P Q : World → Prop)
    (hbody : (∃ a, (body w).1 = Outcome.ok a) ∧ Q (body w).2 ∨
      (¬ ∃ a, (body w).1 = Outcome.ok a) ∧ P (body w).2)
    (hfinQ : ∀ w1, Q w1 → Q (fin w1).2) :
    ((∃ a, (tryCatchFinally body (fun _ => processExit 1) fin w).1 = Outcome.ok a) →
      Q (tryCatchFinally body (fun _ => processExit 1) fin w).2) ∧
    (P (tryCatchFinally body (fun _ => processExit 1) fin w).2 ∨
      Q (tryCatchFinally body (fun _ => processExit 1) fin w).2) := by
  unfold tryCatchFinally
  rcases hb : body w with ⟨o, wb⟩
  rw [hb] at hbody
  cases o with
  | ok a =>
    have hq : Q wb := by
      rcases hbody with h | h
      · exact h.2
      · exact absurd ⟨a, rfl⟩ h.1
    have hq2 := hfinQ wb hq
    simp only [runFinally]
    rcases hf : fin wb with ⟨o2, w2⟩
    rw [hf] at hq2
    cases o2 <;> exact ⟨fun _ => hq2, Or.inr hq2⟩
  | thrown e =>
    have hp : P wb := by
      rcases hbody with h | h
      · exact absurd h.1 (not_ok_thrown e)
      · exact h.2
    simp only [processExit]
    exact ⟨fun h => absurd h (not_ok_exited 1), Or.inl hp⟩
  | exited c =>
    have hp : P wb := by
      rcases hbody with h | h
      · exact absurd h.1 (not_ok_exited c)
      · exact h.2
    exact ⟨fun h => absurd h (not_ok_exited c), Or.inl hp⟩
  | stuck =>
    have hp : P wb := by
      rcases hbody with h | h
      · exact absurd h.1 not_ok_stuck
      · exact h.2
    exact ⟨fun h => absurd h not_ok_stuck, Or.inl hp⟩

theorem step_call (host : Host) (op : Op) (f : Unit → Eff Unit) (E E1 : List PdfOptions)
    (w : World) (hw : w.pdfExports = E)
    (h : ∀ w1, w1.pdfExports = E →
      ((∃ a, (f () w1).1 = Outcome.ok a) ∧ (f () w1).2.pdfExports = E1 ∨
        (¬ ∃ a, (f () w1).1 = Outcome.ok a) ∧ (f () w1).2.pdfExports = E)) :
    (∃ a, ((call host op >>= f) w).1 = Outcome.ok a) ∧
        ((call host op >>= f) w).2.pdfExports = E1 ∨
      (¬ ∃ a, ((call host op >>= f) w).1 = Outcome.ok a) ∧
        ((call host op >>= f) w).2.pdfExports = E := by
  rw [Eff.bind_apply]
  rcases call_cases host op w with h1 | h1 <;> rw [h1]
  · exact h w hw
  · exact Or.inr ⟨not_ok_thrown _, hw⟩

theorem step_modify (g : World → World) (f : Unit → Eff Unit) (E E1 : List PdfOptions)
    (w : World)
    (h : (∃ a, (f () (g w)).1 = Outcome.ok a) ∧ (f () (g w)).2.pdfExports = E1 ∨
        (¬ ∃ a, (f () (g w)).1 = Outcome.ok a) ∧ (f () (g w)).2.pdfExports = E) :
    (∃ a, ((modifyWorld g >>= f) w).1 = Outcome.ok a) ∧
        ((modifyWorld g >>= f) w).2.pdfExports = E1 ∨
      (¬ ∃ a, ((modifyWorld g >>= f) w).1 = Outcome.ok a) ∧
        ((modifyWorld g >>= f) w).2.pdfExports = E := h

theorem step_gridLoop (host : Host) (fuel : Nat) (qs : List JsVal) (bufs : List String)
    (f : Unit → Eff Unit) (E E1 : List PdfOptions) (w : World) (hw : w.pdfExports = E)
    (h : ∀ w1, w1.pdfExports = E →
      ((∃ a, (f () w1).1 = Outcome.ok a) ∧ (f () w1).2.pdfExports = E1 ∨
        (¬ ∃ a, (f () w1).1 = Outcome.ok a) ∧ (f () w1).2.pdfExports = E)) :
    (∃ a, ((gridLoop host fuel qs 0 bufs >>= f) w).1 = Outcome.ok a) ∧
        ((gridLoop host fuel qs 0 bufs >>= f) w).2.pdfExports = E1 ∨
      (¬ ∃ a, ((gridLoop host fuel qs 0 bufs >>= f) w).1 = Outcome.ok a) ∧
        ((gridLoop host fuel qs 0 bufs >>= f) w).2.pdfExports = E := by
  rw [Eff.bind_apply]
  have hg := gridLoop_pdfExports host fuel qs bufs 0 w
  rcases hr : gridLoop host fuel qs 0 bufs w with ⟨o, wg⟩
  rw [hr] at hg
  cases o with
  | ok a => exact h wg (hg.trans hw)
  | thrown e => exact Or.inr ⟨not_ok_thrown _, hg.trans hw⟩
  | exited c => exact Or.inr ⟨not_ok_exited _, hg.trans hw⟩
  | stuck => exact Or.inr ⟨not_ok_stuck, hg.trans hw⟩

/-- Whatever the host does, `savePDF` records at most one export, with the options of
lines 104-116, and it has recorded it when it ends normally. -/
theorem savePDF_exports (host : Host) (fuel : Nat) (bufs : List String) (qs : List JsVal)
    (outPath : String) (dpi : JsNum) (format margin : String) (w : World) :
    ((savePDF host fuel bufs qs outPath dpi format margin w).1 = Outcome.ok () →
      (savePDF host fuel bufs qs outPath dpi format margin w).2.pdfExports =
        w.pdfExports ++ [pdfOptions outPath dpi format margin]) ∧
    ((savePDF host fuel bufs qs outPath dpi format margin w).2.pdfExports = w.pdfExports ∨
      (savePDF host fuel bufs qs outPath dpi format margin w).2.pdfExports =
        w.pdfExports ++ [pdfOptions outPath dpi format margin]) := by
  unfold savePDF
  rw [Eff.bind_apply, modifyWorld_apply]
  simp only []
  have key := tryCatchFinally_exit
    (do
      call host (Op.newPage PageRef.grid)
      modifyWorld (fun w =>
        { w with gridPageVar := true, openPages := w.openPages ++ [PageRef.grid] })
      call host (Op.setContent PageRef.grid)
      modifyWorld (fun w => { w with gridImages := [] })
      gridLoop host fuel qs 0 bufs
      call host (Op.mkdir outPath)
      call host Op.pdf
      modifyWorld (fun w =>
        { w with pdfExports := w.pdfExports ++ [pdfOptions outPath dpi format margin] }))
    (closeGridPage host) { w with gridPageVar := false }
    (fun w1 => w1.pdfExports = w.pdfExports)
    (fun w1 => w1.pdfExports = w.pdfExports ++ [pdfOptions outPath dpi format margin])
    ?_ ?_
  · exact ⟨fun h => key.1 ⟨(), h⟩, key.2⟩
  · refine step_call _ _ _ _ _ _ ?_ ?_
    · rfl
    intro w1 hw1
    apply step_modify
    refine step_call _ _ _ _ _ _ ?_ ?_
    · exact hw1
    intro w2 hw2
    apply step_modify
    refine step_gridLoop _ _ _ _ _ _ _ _ ?_ ?_
    · exact hw2
    intro w3 hw3
    refine step_call _ _ _ _ _ _ ?_ ?_
    · exact hw3
    intro w4 hw4
    refine step_call _ _ _ _ _ _ ?_ ?_
    · exact hw4
    intro w5 hw5
    left
    exact ⟨⟨(), rfl⟩, by rw [← hw5]; rfl⟩
  · intro w1 h
    rw [closeGridPage_pdfExports]; exact h

/-! ## Claim about the scale of the PDF export -/

theorem savePDF_demo_ok (dpi : JsNum) :
    ∃ w1, savePDF demoHost 10 (rastersFrom demoHost demoConfig 2 0 demoCards)
        (quantitiesFrom demoHost demoConfig 2 0 demoCards) "out/cards.pdf" dpi "Letter"
        "37.5px" World.init = (Outcome.ok (), w1) ∧
      w1.pdfExports = [pdfOptions "out/cards.pdf" dpi "Letter" "37.5px"] := by
  obtain ⟨w1, h1, _, h2, _⟩ := savePDF_ok demoHost (fun _ => rfl) 10 demoConfig 2 demoCards
    "out/cards.pdf" dpi "Letter" "37.5px" World.init
    (by
      intro card hc
      simp only [demoCards, List.mem_cons, List.mem_singleton, List.not_mem_nil,
        or_false] at hc
      rcases hc with rfl | rfl
      · exact ⟨2, by decide, by decide⟩
      · exact ⟨1, by decide, by decide⟩)
    (by
      intro card hc j
      simp only [demoCards, List.mem_cons, List.mem_singleton, List.not_mem_nil,
        or_false] at hc
      rcases hc with rfl | rfl
      · exact ⟨_, rfl⟩
      · exact ⟨_, rfl⟩)
  exact ⟨w1, h1, h2⟩

theorem scale_at_300 :
    divNum (JsNum.fin false 96 0) (JsNum.fin false 300 0) =
      JsNum.fin false (5764607523034235 * 5 ^ 54) (-54) := by
  decide!

theorem scale_at_300_toRat :
    (JsNum.fin false (5764607523034235 * 5 ^ 54) (-54)).toRat =
      some (5764607523034235 / 2 ^ 54) := by
  simp only [JsNum.toRat, signRat, Option.some.injEq]
  norm_num

theorem scale_at_7 :
    divNum (JsNum.fin false 96 0) (JsNum.fin false 7 0) =
      JsNum.fin false (7720456504063707 * 5 ^ 49) (-49) := by
  decide!

theorem scale_at_7_toRat :
    (JsNum.fin false (7720456504063707 * 5 ^ 49) (-49)).toRat =
      some (7720456504063707 / 2 ^ 49) := by
  simp only [JsNum.toRat, signRat, Option.some.injEq]
  norm_num

/-- Claim C7 fails at 300 dpi: a run of `savePDF` over two cards, on a host where nothing
fails, passes to the export the scale `5764607523034235 / 2^54`, the binary64 quotient of 96
by 300 (the number JavaScript prints as `0.32`), and that is not the rational 8/25.
Likewise at 7 dpi the scale is `7720456504063707 / 2^49` (printed `13.714285714285714`),
not 96/7. -/
theorem savePDF_scale_at_300_is_not_the_rational :
    (∃ w1 opts, savePDF demoHost 10 (rastersFrom demoHost demoConfig 2 0 demoCards)
        (quantitiesFrom demoHost demoConfig 2 0 demoCards) "out/cards.pdf"
        (JsNum.fin false 300 0) "Letter" "37.5px" World.init = (Outcome.ok (), w1) ∧
      w1.pdfExports = [opts] ∧
      opts.scale.toRat = some (5764607523034235 / 2 ^ 54) ∧
      opts.scale.toRat ≠ some (8 / 25)) ∧
    (∃ w1 opts, savePDF demoHost 10 (rastersFrom demoHost demoConfig 2 0 demoCards)
        (quantitiesFrom demoHost demoConfig 2 0 demoCards) "out/cards.pdf"
        (JsNum.fin false 7 0) "Letter" "37.5px" World.init = (Outcome.ok (), w1) ∧
      w1.pdfExports = [opts] ∧
      opts.scale.toRat = some (7720456504063707 / 2 ^ 49) ∧
      opts.scale.toRat ≠ some (96 / 7)) := by
  constructor
  · obtain ⟨w1, h1, h2⟩ := savePDF_demo_ok (JsNum.fin false 300 0)
    have hs : (pdfOptions "out/cards.pdf" (JsNum.fin false 300 0) "Letter"
        "37.5px").scale.toRat = some (5764607523034235 / 2 ^ 54) := by
      show (divNum (JsNum.fin false 96 0) (JsNum.fin false 300 0)).toRat = _
      rw [scale_at_300, scale_at_300_toRat]
    refine ⟨w1, _, h1, h2, hs, ?_⟩
    rw [hs]
    simp only [ne_eq, Option.some.injEq]
    norm_num
  · obtain ⟨w1, h1, h2⟩ := savePDF_demo_ok (JsNum.fin false 7 0)
    have hs : (pdfOptions "out/cards.pdf" (JsNum.fin false 7 0) "Letter"
        "37.5px").scale.toRat = some (7720456504063707 / 2 ^ 49) := by
      show (divNum (JsNum.fin false 96 0) (JsNum.fin false 7 0)).toRat = _
      rw [scale_at_7, scale_at_7_toRat]
    refine ⟨w1, _, h1, h2, hs, ?_⟩
    rw [hs]
    simp only [ne_eq, Option.some.injEq]
    norm_num

/-- Claim C7, amended: for every positive finite dpi, whatever the host does, `savePDF`
records at most one export, it has recorded it when it ends normally, and the scale of that
export is the binary64 quotient of 96 by the dpi: the binary64 value nearest to the rational
`96 / dpi`, ties to even, which is that rational itself whenever the rational is a binary64
value; at 96 dpi the scale is 1. -/
theorem savePDF_scale (host : Host) (fuel : Nat) (bufs : List String) (qs : List JsVal)
    (outPath : String) (dpi : JsNum) (format margin : String) (w : World) (q : ℚ)
    (hdpi : dpi.toRat = some q) (hpos : 0 < q) :
    (∃ opts : PdfOptions,
      IsRoundedBinary64 (96 / q) opts.scale ∧
      (IsBinary64 (96 / q) → opts.scale.toRat = some (96 / q)) ∧
      opts.path = outPath ∧ opts.format = format ∧
      ((savePDF host fuel bufs qs outPath dpi format margin w).1 = Outcome.ok () →
        (savePDF host fuel bufs qs outPath dpi format margin w).2.pdfExports =
          w.pdfExports ++ [opts]) ∧
      ((savePDF host fuel bufs qs outPath dpi format margin w).2.pdfExports = w.pdfExports ∨
        (savePDF host fuel bufs qs outPath dpi format margin w).2.pdfExports =
          w.pdfExports ++ [opts])) ∧
    (pdfOptions outPath (JsNum.fin false 96 0) format margin).scale = JsNum.fin false 1 0 := by
  refine ⟨?_, rfl⟩
  have hround : IsRoundedBinary64 (96 / q) (pdfOptions outPath dpi format margin).scale := by
    cases dpi with
    | nan => simp [JsNum.toRat] at hdpi
    | inf neg => simp [JsNum.toRat] at hdpi
    | fin neg m e =>
      simp only [JsNum.toRat, Option.some.injEq] at hdpi
      have hm : m ≠ 0 := by
        rintro rfl
        rw [Nat.cast_zero, mul_zero, zero_mul] at hdpi
        exact absurd hdpi (ne_of_lt hpos)
      have h := divNum_spec false neg 96 m 0 e hm
      have h96 : signRat false * ((96 : ℕ) : ℚ) * (10 : ℚ) ^ (0 : ℤ) = 96 := by
        simp [signRat]
      rw [h96, hdpi] at h
      exact h
  have hexp := savePDF_exports host fuel bufs qs outPath dpi format margin w
  exact ⟨pdfOptions outPath dpi format margin, hround,
    fun hb => IsRoundedBinary64_exact _ _ hround hb, rfl, rfl, hexp.1, hexp.2⟩

/-- At 300 dpi the run over the two demonstration cards ends normally with one export, whose
scale is the rounding of 96/300. -/
theorem savePDF_scale_witness :
    (savePDF demoHost 10 (rastersFrom demoHost demoConfig 2 0 demoCards)
        (quantitiesFrom demoHost demoConfig 2 0 demoCards) "out/cards.pdf"
        (JsNum.fin false 300 0) "Letter" "37.5px" World.init).1 = Outcome.ok () ∧
    ∃ opts : PdfOptions,
      (savePDF demoHost 10 (rastersFrom demoHost demoConfig 2 0 demoCards)
        (quantitiesFrom demoHost demoConfig 2 0 demoCards) "out/cards.pdf"
        (JsNum.fin false 300 0) "Letter" "37.5px" World.init).2.pdfExports = [opts] ∧
      IsRoundedBinary64 (96 / 300) opts.scale := by
  obtain ⟨w1, h1, _⟩ := savePDF_demo_ok (JsNum.fin false 300 0)
  have hok : (savePDF demoHost 10 (rastersFrom demoHost demoConfig 2 0 demoCards)
        (quantitiesFrom demoHost demoConfig 2 0 demoCards) "out/cards.pdf"
        (JsNum.fin false 300 0) "Letter" "37.5px" World.init).1 = Outcome.ok () := by
    rw [h1]
  obtain ⟨opts, hr, _, _, _, hrec, _⟩ := (savePDF_scale demoHost 10
    (rastersFrom demoHost demoConfig 2 0 demoCards)
    (quantitiesFrom demoHost demoConfig 2 0 demoCards) "out/cards.pdf"
    (JsNum.fin false 300 0) "Letter" "37.5px" World.init 300
    (by simp [JsNum.toRat, signRat]) (by norm_num)).1
  exact ⟨hok, opts, hrec hok, hr⟩

end Cardelier
